import Mathlib

/-!
# klish: the command-line matcher of `clish/shell/shell_parse.c`

A shallow embedding of `clish_shell_param_validate`, `clish_shell_parse`,
`line_test` and `clish_shell_parse_pargv`, followed by theorems about them.

Conventions of the embedding

* Objects the C code mutates through pointers (`pargv`, `*idx`, `last`) are
  threaded explicitly as a `parse_state`.
* The `while (index < paramc)` loop is `param_scan`; one pass through its body
  is `iteration`; the statements after the loop are `post_loop`.  Recursion
  is bounded by a fuel argument: `none` means the fuel ran out, never a
  status.  `parse_fuel` gives an amount of fuel that always suffices.
* Collaborators that live outside this file (expansion of test strings, the
  static validator, the action executor, command resolution, tokenizing)
  are fields of `Collaborators`.
-/

namespace Klish

/-! ## Data model -/

/-- Parameter modes (`clish_param_mode_e`). -/
inductive clish_param_mode_e where
  | CLISH_PARAM_COMMON
  | CLISH_PARAM_SWITCH
  | CLISH_PARAM_SUBCOMMAND
  deriving DecidableEq, Repr

/-- Modelled from the spec: the validation method of a type.  The enumeration
is declared in a header; the code only distinguishes `CLISH_PTYPE_METHOD_CODE`
from every other (static) method. -/
inductive clish_ptype_method_e where
  | CLISH_PTYPE_METHOD_STATIC
  | CLISH_PTYPE_METHOD_CODE
  deriving DecidableEq, Repr

/-- Status returned by the matcher (`clish_pargv_status_e`). -/
inductive clish_pargv_status_e where
  | CLISH_LINE_OK
  | CLISH_LINE_PARTIAL
  | CLISH_BAD_CMD
  | CLISH_BAD_PARAM
  deriving DecidableEq, Repr

/-- An action is identified by its script text. -/
abbrev clish_action_t := String

/-- Type descriptor: the validation method and, for CODE, the action. -/
structure clish_ptype_t where
  method : clish_ptype_method_e
  action : clish_action_t
  deriving DecidableEq, Repr

/-- Parameter node.  `paramv` holds the nested parameters; for a SWITCH node
these are its alternatives. -/
inductive clish_param_t where
  | mk (name : String) (ptype : Option clish_ptype_t) (mode : clish_param_mode_e)
      (optional : Bool) (order : Bool) (test : Option String) (value : String)
      (paramv : List clish_param_t)

/-- Sibling list (`clish_paramv_t`). -/
abbrev clish_paramv_t := List clish_param_t

def clish_param__get_name : clish_param_t → String
  | .mk n _ _ _ _ _ _ _ => n

def clish_param__get_ptype : clish_param_t → Option clish_ptype_t
  | .mk _ t _ _ _ _ _ _ => t

def clish_param__get_mode : clish_param_t → clish_param_mode_e
  | .mk _ _ m _ _ _ _ _ => m

def clish_param__get_optional : clish_param_t → Bool
  | .mk _ _ _ o _ _ _ _ => o

def clish_param__get_order : clish_param_t → Bool
  | .mk _ _ _ _ o _ _ _ => o

def clish_param__get_test : clish_param_t → Option String
  | .mk _ _ _ _ _ t _ _ => t

def clish_param__get_value : clish_param_t → String
  | .mk _ _ _ _ _ _ v _ => v

def clish_param__get_paramv : clish_param_t → clish_paramv_t
  | .mk _ _ _ _ _ _ _ l => l

def clish_param__get_param_count (p : clish_param_t) : Nat :=
  (clish_param__get_paramv p).length

/-- Element `index` of a sibling list, `none` (NULL) when out of range. -/
def clish_paramv__get_param (paramv : clish_paramv_t) (index : Nat) : Option clish_param_t :=
  paramv.get? index

def clish_paramv__get_count (paramv : clish_paramv_t) : Nat := paramv.length

/-- Modelled from the spec: `clish_param_new` as used for the synthetic parameter
of CODE validation: a plain mandatory node without nested parameters. -/
def clish_param_new (name : String) (ptype : Option clish_ptype_t) : clish_param_t :=
  .mk name ptype .CLISH_PARAM_COMMON false false none "" []

/-- Command: name, top-level parameter list, optional trailing args parameter. -/
structure clish_command_t where
  name : String
  paramv : clish_paramv_t
  args : Option clish_param_t

def clish_command__get_name (cmd : clish_command_t) : String := cmd.name
def clish_command__get_paramv (cmd : clish_command_t) : clish_paramv_t := cmd.paramv
def clish_command__get_args (cmd : clish_command_t) : Option clish_param_t := cmd.args

/-- One token of the line: its text and whether it was quoted. -/
structure lub_arg_t where
  arg : String
  quoted : Bool
  deriving DecidableEq, Repr

/-- Token stream (`lub_argv_t`). -/
abbrev lub_argv_t := List lub_arg_t

def lub_argv__get_count (argv : lub_argv_t) : Nat := argv.length

/-- Text of token `idx`, `none` (NULL) past the end. -/
def lub_argv__get_arg (argv : lub_argv_t) (idx : Nat) : Option String :=
  (argv.get? idx).map (fun a => a.arg)

/-- One entry of a result store. -/
structure clish_parg_t where
  param : clish_param_t
  value : Option String

/-- Result store (`clish_pargv_t`): entries in insertion order. -/
abbrev clish_pargv_t := List clish_parg_t

/-- Modelled from the spec: find-by-name, first match (`find_parg` of the pargv
module, which is not in this file). -/
def clish_pargv_find_arg : clish_pargv_t → String → Option clish_parg_t
  | [], _ => none
  | e :: es, name =>
    if clish_param__get_name e.param = name then some e else clish_pargv_find_arg es name

/-- Modelled from the spec: append-or-update-by-parameter-name.  Inserting a
value for a name already present replaces the value of the first entry with
that name; otherwise a new entry is appended. -/
def clish_pargv_insert : clish_pargv_t → clish_param_t → Option String → clish_pargv_t
  | [], param, value => [⟨param, value⟩]
  | e :: es, param, value =>
    if clish_param__get_name e.param = clish_param__get_name param then
      ⟨e.param, value⟩ :: es
    else e :: clish_pargv_insert es param value

def clish_pargv__get_count (this : clish_pargv_t) : Nat := this.length

def clish_pargv_new : clish_pargv_t := []

/-- Context handed to the collaborators: the command being matched, the result
store it points to, and the action to run. -/
structure clish_context_t where
  cmd : Option clish_command_t
  pargv : clish_pargv_t
  action : Option clish_action_t

def clish_context__set_pargv (ctx : clish_context_t) (pargv : clish_pargv_t) : clish_context_t :=
  { ctx with pargv := pargv }

def clish_context__set_action (ctx : clish_context_t) (a : clish_action_t) : clish_context_t :=
  { ctx with action := some a }

def clish_context__set_cmd (ctx : clish_context_t) (cmd : clish_command_t) : clish_context_t :=
  { ctx with cmd := some cmd }

/-- A context bound to nothing yet (`clish_context_init`). -/
def clish_context_init : clish_context_t := ⟨none, [], none⟩

/-- Functions this file calls but does not define.  The shell instance is
fixed, so it is not an argument. -/
structure Collaborators where
  /-- `clish_shell_expand(teststr, SHELL_VAR_ACTION, context)`; `none` is NULL. -/
  clish_shell_expand : String → clish_context_t → Option String
  /-- `lub_system_line_test(str)`. -/
  lub_system_line_test : String → Bool
  /-- `clish_param_validate(param, text)`: the static rule; `none` is NULL. -/
  clish_param_validate : clish_param_t → String → Option String
  /-- `clish_shell_exec_action(&ctx, &out)`: return code and captured output. -/
  clish_shell_exec_action : clish_context_t → Int × Option String
  /-- `clish_shell_resolve_command(this, line)`. -/
  clish_shell_resolve_command : String → Option clish_command_t
  /-- `lub_argv_new(line, 0)`. -/
  lub_argv_new : String → lub_argv_t
  /-- `lub_string_wordcount(str)`. -/
  lub_string_wordcount : String → Nat

/-! ## String utilities -/

/-- Modelled from the spec: the characters escaped inside quotes
(`lub_string_esc_quoted`): backslash and double quote. -/
def lub_string_esc_quoted : List Char := [Char.ofNat 92, Char.ofNat 34]

/-- Modelled from the spec: `lub_string_encode`: every character of
`escape_chars` is prefixed with a backslash. -/
def lub_string_encode (s : String) (escape_chars : List Char) : String :=
  ⟨s.data.flatMap (fun c => if c ∈ escape_chars then [Char.ofNat 92, c] else [c])⟩

/-- Case-insensitive test that `ct` starts `cs`. -/
def nocase_starts (cs ct : List Char) : Bool :=
  (ct.map Char.toLower).isPrefixOf (cs.map Char.toLower)

/-- Offset of the first case-insensitive occurrence of `ct` in `cs`. -/
def nocasestr_from : List Char → List Char → Nat → Option Nat
  | [], ct, off => if ct.isEmpty then some off else none
  | c :: cs, ct, off =>
    if nocase_starts (c :: cs) ct then some off else nocasestr_from cs ct (off + 1)

/-- Modelled from the spec: `lub_string_nocasestr(cs, ct)`, case-insensitive
substring search; the result is the offset of the match inside `cs`, `none`
when there is none. -/
def lub_string_nocasestr (cs ct : String) : Option Nat :=
  nocasestr_from cs.data ct.data 0

/-! ## Value validator (lines 17-79) -/

/-- Embedding of `clish_shell_param_validate`. -/
def clish_shell_param_validate (env : Collaborators) (param : clish_param_t) (text : String)
    (context : clish_context_t) : Option String :=
  match clish_param__get_ptype param with
  | none => none
  | some ptype =>
    if ptype.method ≠ .CLISH_PTYPE_METHOD_CODE then
      env.clish_param_validate param text
    else
      let value_param := clish_param_new "value" (some ptype)
      let pargv := clish_pargv_insert clish_pargv_new value_param (some text)
      let ctx := clish_context__set_pargv (clish_context__set_action context ptype.action) pargv
      match env.clish_shell_exec_action ctx with
      | (retval, out) =>
        if retval ≠ 0 then none
        else
          match out with
          | some o => if o ≠ "" then some o else some text
          | none => some text

/-- Embedding of `line_test`. -/
def line_test (env : Collaborators) (param : clish_param_t) (context : clish_context_t) : Bool :=
  match clish_param__get_test param with
  | none => true
  | some teststr =>
    match env.clish_shell_expand teststr context with
    | none => false
    | some str => env.lub_system_line_test str

/-! ## Recursive matcher (lines 139-393) -/

/-- What one matcher call reads and writes through pointers: the authoritative
store `pargv`, the cursor `*idx`, and the candidates store `last` (`none` is
NULL). -/
structure parse_state where
  pargv : clish_pargv_t
  idx : Nat
  last : Option clish_pargv_t

/-- The context seen by the collaborators during a matcher call: it points to
the authoritative store (lines 98-101), so it always shows the store's
current content. -/
def current_context (context : clish_context_t) (st : parse_state) : clish_context_t :=
  clish_context__set_pargv context st.pargv

/-- Lines 196-208 and 211-220: record `param` as a candidate; a SUBCOMMAND
node only when there is no token or the token starts its literal value. -/
def candidate_insert (last : clish_pargv_t) (param : clish_param_t) (arg : Option String) :
    clish_pargv_t :=
  if clish_param__get_mode param = .CLISH_PARAM_SUBCOMMAND then
    let pname := clish_param__get_value param
    match arg with
    | none => clish_pargv_insert last param arg
    | some a =>
      if lub_string_nocasestr pname a = some 0 then clish_pargv_insert last param arg
      else last
  else clish_pargv_insert last param arg

/-- Lines 190-209: the loop over the alternatives of a SWITCH node. -/
def candidate_switch (env : Collaborators) (context : clish_context_t) (arg : Option String) :
    List clish_param_t → clish_pargv_t → clish_pargv_t
  | [], last => last
  | cparam :: rest, last =>
    if !line_test env cparam context then candidate_switch env context arg rest last
    else candidate_switch env context arg rest (candidate_insert last cparam arg)

/-- Lines 185-222: "Add param for help and completion". -/
def candidate_capture (env : Collaborators) (context : clish_context_t) (need_index : Nat)
    (param : clish_param_t) (arg : Option String) (st : parse_state) : parse_state :=
  match st.last with
  | none => st
  | some last =>
    if st.idx = need_index ∧
        (clish_pargv_find_arg st.pargv (clish_param__get_name param)).isNone then
      if clish_param__get_mode param = .CLISH_PARAM_SWITCH then
        { st with last := some (candidate_switch env (current_context context st) arg
            (clish_param__get_paramv param) last) }
      else
        { st with last := some (candidate_insert last param arg) }
    else st

/-- Outcome of "Validate the current parameter": the validated text, the
alternative that matched (SWITCH only) and the nested list to walk next. -/
structure validation where
  validated : String
  cparam : Option clish_param_t
  rec_paramv : clish_paramv_t

/-- Lines 246-260: first alternative whose test passes and which validates
the token. -/
def switch_validate (env : Collaborators) (context : clish_context_t) (arg : Option String) :
    List clish_param_t → Option validation
  | [] => none
  | cparam :: rest =>
    if !line_test env cparam context then switch_validate env context arg rest
    else
      match arg.bind (fun a => clish_shell_param_validate env cparam a context) with
      | some validated => some ⟨validated, some cparam, clish_param__get_paramv cparam⟩
      | none => switch_validate env context arg rest

/-- Lines 241-265: "Validate the current parameter". -/
def validate_current (env : Collaborators) (context : clish_context_t) (pargv : clish_pargv_t)
    (param : clish_param_t) (arg : Option String) : Option validation :=
  if (clish_pargv_find_arg pargv (clish_param__get_name param)).isSome then
    none
  else if clish_param__get_mode param = .CLISH_PARAM_SWITCH then
    switch_validate env context arg (clish_param__get_paramv param)
  else
    (arg.bind (fun a => clish_shell_param_validate env param a context)).map
      (fun validated => ⟨validated, none, clish_param__get_paramv param⟩)

/-- Lines 268-277: "add (or update) this parameter". -/
def record_param (pargv : clish_pargv_t) (param : clish_param_t) (v : validation) :
    clish_pargv_t :=
  match v.cparam with
  | some cparam =>
    clish_pargv_insert (clish_pargv_insert pargv param (some (clish_param__get_name cparam)))
      cparam (some v.validated)
  | none => clish_pargv_insert pargv param (some v.validated)

/-- How one pass through the loop body ends. -/
inductive iter_exit where
  | next (index : Nat) (nopt : Option Nat) (st : parse_state)
  | brk (index : Nat) (st : parse_state)
  | returned (status : clish_pargv_status_e) (st : parse_state)

/-- How the loop ends: by a `return` inside it, or by its condition or a
`break`, with the loop variable `index`. -/
inductive scan_exit where
  | returned (status : clish_pargv_status_e) (st : parse_state)
  | finished (index : Nat) (st : parse_state)

/-- Lines 298-311: "Choose the next parameter" after a successful match.
`nopt` is `some nopt_index` when `nopt_param` is set. -/
def choose_next (param : clish_param_t) (index : Nat) (nopt : Option Nat) (st : parse_state) :
    iter_exit :=
  if clish_param__get_optional param ∧ ¬ clish_param__get_order param then
    match nopt with
    | some nopt_index => .next (nopt_index + 1) nopt st
    | none => .next 0 nopt st
  else .next (index + 1) (some index) st

/-- Lines 280-311: advance the cursor, walk the nested parameters, choose the
next sibling.  `nested` is the recursive matcher call on a nested list.  The
token count is at least one here (a token was validated), so `argc - 1` does
not wrap. -/
def next_argument (argv : lub_argv_t) (need_index : Nat)
    (nested : clish_paramv_t → parse_state → Option (clish_pargv_status_e × parse_state))
    (param : clish_param_t) (v : validation) (index : Nat) (nopt : Option Nat)
    (st : parse_state) : Option iter_exit :=
  let argc := lub_argv__get_count argv
  if ¬ (clish_param__get_optional param ∧ st.idx = need_index ∧ need_index = argc - 1) then
    let st1 := { st with idx := st.idx + 1 }
    if v.rec_paramv.length ≠ 0 then
      match nested v.rec_paramv st1 with
      | none => none
      | some (retval, st2) =>
        if retval ≠ .CLISH_LINE_OK then some (.returned retval st2)
        else some (choose_next param index nopt st2)
    else some (choose_next param index nopt st1)
  else some (choose_next param index nopt st)

/-- Lines 171-173: the token at the cursor, `none` (NULL) past the end. -/
def current_arg (argv : lub_argv_t) (st : parse_state) : Option String :=
  if st.idx < lub_argv__get_count argv then lub_argv__get_arg argv st.idx else none

/-- Lines 313-325: "Choose the next parameter if current is not validated". -/
def unmatched (param : clish_param_t) (arg : Option String) (index : Nat) (nopt : Option Nat)
    (st : parse_state) : iter_exit :=
  if clish_param__get_optional param then .next (index + 1) nopt st
  else if arg.isNone then .brk index st
  else .returned .CLISH_BAD_PARAM st

/-- Lines 185-326: the body of the loop for a parameter whose test passed:
candidate capture, `nopt` bookkeeping (lines 236-239), validation, and what
follows from its outcome. -/
def visit (env : Collaborators) (context : clish_context_t) (argv : lub_argv_t)
    (need_index : Nat)
    (nested : clish_paramv_t → parse_state → Option (clish_pargv_status_e × parse_state))
    (param : clish_param_t) (index : Nat) (nopt : Option Nat) (st : parse_state) :
    Option iter_exit :=
  let arg := current_arg argv st
  let st1 := candidate_capture env context need_index param arg st
  let nopt1 := if !clish_param__get_optional param then some index else nopt
  match validate_current env (current_context context st1) st1.pargv param arg with
  | some v =>
    next_argument argv need_index nested param v index nopt1
      { st1 with pargv := record_param st1.pargv param v }
  | none => some (unmatched param arg index nopt1 st1)

/-- Lines 163-326: one pass through the body of the `while` loop, entered with
`index < paramc`. -/
def iteration (env : Collaborators) (context : clish_context_t) (argv : lub_argv_t)
    (need_index : Nat)
    (nested : clish_paramv_t → parse_state → Option (clish_pargv_status_e × parse_state))
    (paramv : clish_paramv_t) (index : Nat) (nopt : Option Nat) (st : parse_state) :
    Option iter_exit :=
  match clish_paramv__get_param paramv index with
  | none => some (.returned .CLISH_BAD_PARAM st)
  | some param =>
    if !line_test env param (current_context context st) then
      some (.next (index + 1) nopt st)
    else visit env context argv need_index nested param index nopt st

/-- Lines 366-386: the loop that puts the remaining tokens into one string.
`rest` holds the tokens from `*idx` on; the result is the string and the final
cursor. -/
def args_loop : List lub_arg_t → String → Nat → String × Nat
  | [], args, idx => (args, idx)
  | a :: rest, args, idx =>
    let args1 := if a.quoted then args ++ String.singleton (Char.ofNat 34) else args
    let args2 := args1 ++ lub_string_encode a.arg lub_string_esc_quoted
    let args3 := if a.quoted then args2 ++ String.singleton (Char.ofNat 34) else args2
    let args4 := if rest.isEmpty then args3 else args3 ++ " "
    args_loop rest args4 (idx + 1)

/-- Lines 344-349: offer the args parameter as a completion candidate. -/
def args_candidate (cmd : clish_command_t) (argv : lub_argv_t) (up_level : Bool)
    (paramv : clish_paramv_t) (index : Nat) (st : parse_state) : parse_state :=
  match st.last, clish_command__get_args cmd with
  | some last, some args =>
    if up_level = true ∧ clish_pargv__get_count last = 0 ∧
        st.idx ≤ lub_argv__get_count argv ∧ clish_paramv__get_count paramv ≤ index then
      { st with last := some (clish_pargv_insert last args (some "")) }
    else st
  | _, _ => st

/-- Lines 362-389: fold the remaining tokens into the args parameter. -/
def args_fold (argv : lub_argv_t) (param : clish_param_t) (st : parse_state) : parse_state :=
  let r := args_loop (argv.drop st.idx) "" st.idx
  { st with pargv := clish_pargv_insert st.pargv param (some r.1), idx := r.2 }

/-- Lines 329-392: the statements after the loop.  `up_level` is the pointer
test `paramv == clish_command__get_paramv(cmd)`: true for the call on the
command's own list, false for every nested list. -/
def post_loop (cmd : clish_command_t) (argv : lub_argv_t) (up_level : Bool)
    (paramv : clish_paramv_t) : scan_exit → clish_pargv_status_e × parse_state
  | .returned status st => (status, st)
  | .finished index st =>
    if lub_argv__get_count argv ≤ st.idx ∧ index < clish_paramv__get_count paramv ∧
        (paramv.drop index).any (fun p => !clish_param__get_optional p) = true then
      (.CLISH_LINE_PARTIAL, st)
    else
      let st1 := args_candidate cmd argv up_level paramv index st
      if up_level = true ∧ st1.idx < lub_argv__get_count argv ∧
          clish_paramv__get_count paramv ≤ index then
        match clish_command__get_args cmd with
        | none => (.CLISH_BAD_CMD, st1)
        | some param => (.CLISH_LINE_OK, args_fold argv param st1)
      else (.CLISH_LINE_OK, st1)

/-- The `while (index < paramc)` loop of `clish_shell_parse_pargv`, started at
`index` with `nopt` and state `st`.  Nested lists are matched by the whole
function (loop and post-loop statements) with `up_level` false. -/
def param_scan (env : Collaborators) (cmd : clish_command_t) (context : clish_context_t)
    (argv : lub_argv_t) (need_index : Nat) :
    Nat → clish_paramv_t → Nat → Option Nat → parse_state → Option scan_exit
  | 0, _, _, _, _ => none
  | fuel + 1, paramv, index, nopt, st =>
    if index < clish_paramv__get_count paramv then
      match iteration env context argv need_index
          (fun pv s => (param_scan env cmd context argv need_index fuel pv 0 none s).map
            (post_loop cmd argv false pv)) paramv index nopt st with
      | none => none
      | some (.next index1 nopt1 st1) =>
        param_scan env cmd context argv need_index fuel paramv index1 nopt1 st1
      | some (.brk index1 st1) => some (.finished index1 st1)
      | some (.returned status st1) => some (.returned status st1)
    else some (.finished index st)

/-- Embedding of `clish_shell_parse_pargv`: loop from `index = 0` with
`nopt_param = NULL`, then the post-loop statements. -/
def clish_shell_parse_pargv (env : Collaborators) (fuel : Nat) (cmd : clish_command_t)
    (context : clish_context_t) (paramv : clish_paramv_t) (argv : lub_argv_t)
    (need_index : Nat) (up_level : Bool) (st : parse_state) :
    Option (clish_pargv_status_e × parse_state) :=
  (param_scan env cmd context argv need_index fuel paramv 0 none st).map
    (post_loop cmd argv up_level paramv)

/-! ## Line parse orchestrator (lines 82-115) -/

/-- Embedding of `clish_shell_parse`.  `pargv_in` is what `*pargv` held on
entry; the result is the status and what `*pargv` holds on return. -/
def clish_shell_parse (env : Collaborators) (fuel : Nat) (line : String)
    (pargv_in : Option clish_pargv_t) :
    Option (clish_pargv_status_e × Option clish_pargv_t) :=
  match env.clish_shell_resolve_command line with
  | none => some (.CLISH_BAD_CMD, pargv_in)
  | some cmd =>
    let pargv := clish_pargv_new
    let context := clish_context__set_pargv (clish_context__set_cmd clish_context_init cmd) pargv
    let idx := env.lub_string_wordcount (clish_command__get_name cmd)
    let argv := env.lub_argv_new line
    match clish_shell_parse_pargv env fuel cmd context (clish_command__get_paramv cmd) argv 0
        true ⟨pargv, idx, none⟩ with
    | none => none
    | some (result, st) =>
      if result ≠ .CLISH_LINE_OK then some (result, none) else some (result, some st.pargv)

/-! ## Fuel that suffices -/

mutual
/-- Fuel for the nested list of one parameter. -/
def param_fuel : clish_param_t → Nat
  | .mk _ _ _ _ _ _ _ l => (l.length + 1) * (l.length + 1) + nested_fuel l
/-- Fuel for the nested lists of all parameters of a list. -/
def nested_fuel : List clish_param_t → Nat
  | [] => 0
  | p :: ps => param_fuel p + nested_fuel ps
end

/-- Fuel with which `clish_shell_parse_pargv` on `paramv` never runs out
(`parse_pargv_total`). -/
def parse_fuel (paramv : clish_paramv_t) : Nat :=
  (paramv.length + 1) * (paramv.length + 1) + nested_fuel paramv

/-! ## Views used in statements -/

/-- State in which an iteration of the loop ends. -/
def iter_exit.state : iter_exit → parse_state
  | .next _ _ st => st
  | .brk _ st => st
  | .returned _ st => st

/-- State in which the loop ends. -/
def scan_exit.state : scan_exit → parse_state
  | .returned _ st => st
  | .finished _ st => st

/-- The text one token contributes to the args value: its escaped text,
wrapped in double quotes when the token was quoted. -/
def args_item (a : lub_arg_t) : String :=
  if a.quoted then
    String.singleton (Char.ofNat 34) ++ lub_string_encode a.arg lub_string_esc_quoted ++
      String.singleton (Char.ofNat 34)
  else lub_string_encode a.arg lub_string_esc_quoted

/-- Names and values of a store, in order. -/
def pargv_view (pargv : clish_pargv_t) : List (String × Option String) :=
  pargv.map (fun e => (clish_param__get_name e.param, e.value))

/-- Whether a name has an entry in a store. -/
def in_pargv (pargv : clish_pargv_t) (name : String) : Bool :=
  (clish_pargv_find_arg pargv name).isSome

/-- Value stored for a name: `none` when the name has no entry. -/
def pargv_value (pargv : clish_pargv_t) (name : String) : Option (Option String) :=
  (clish_pargv_find_arg pargv name).map (fun e => e.value)

/-- Number of parameters of a list whose name has no entry in the store. -/
def pending (paramv : clish_paramv_t) (pargv : clish_pargv_t) : Nat :=
  paramv.countP (fun p => !in_pargv pargv (clish_param__get_name p))

/-! ## Sample grammars and collaborators -/

/-- A static type. -/
def static_ptype : clish_ptype_t := ⟨.CLISH_PTYPE_METHOD_STATIC, ""⟩

/-- A type validated by an action. -/
def code_ptype : clish_ptype_t := ⟨.CLISH_PTYPE_METHOD_CODE, "check"⟩

/-- Mandatory ORDINARY parameter "P" of a static type. -/
def sample_P : clish_param_t :=
  .mk "P" (some static_ptype) .CLISH_PARAM_COMMON false false none "" []

/-- Mandatory ORDINARY parameter "Q" of a static type. -/
def sample_Q : clish_param_t :=
  .mk "Q" (some static_ptype) .CLISH_PARAM_COMMON false false none "" []

/-- Optional, unordered ORDINARY parameter "O" of a static type. -/
def sample_O : clish_param_t :=
  .mk "O" (some static_ptype) .CLISH_PARAM_COMMON true false none "" []

/-- Mandatory ORDINARY parameter "C" of a CODE type. -/
def sample_C : clish_param_t :=
  .mk "C" (some code_ptype) .CLISH_PARAM_COMMON false false none "" []

/-- Trailing args parameter. -/
def sample_args : clish_param_t :=
  .mk "args" (some static_ptype) .CLISH_PARAM_COMMON false false none "" []

/-- SUBCOMMAND alternative "A" with literal "start". -/
def sample_A : clish_param_t :=
  .mk "A" (some static_ptype) .CLISH_PARAM_SUBCOMMAND false false none "start" []

/-- SUBCOMMAND alternative "B" with literal "stop". -/
def sample_B : clish_param_t :=
  .mk "B" (some static_ptype) .CLISH_PARAM_SUBCOMMAND false false none "stop" []

/-- Mandatory SWITCH parameter "S" with alternatives "A" and "B". -/
def sample_S : clish_param_t :=
  .mk "S" (some static_ptype) .CLISH_PARAM_SWITCH false false none "" [sample_A, sample_B]

/-- Command "cmd" with the single parameter "P". -/
def cmd_P : clish_command_t := ⟨"cmd", [sample_P], none⟩

/-- Command "cmd" with "O" declared before "P", no args parameter. -/
def cmd_OP : clish_command_t := ⟨"cmd", [sample_O, sample_P], none⟩

/-- Command "cmd" with "P" declared before "O", no args parameter. -/
def cmd_PO : clish_command_t := ⟨"cmd", [sample_P, sample_O], none⟩

/-- Command "cmd" with parameters "P", "Q" and an args parameter. -/
def cmd_PQ_args : clish_command_t := ⟨"cmd", [sample_P, sample_Q], some sample_args⟩

/-- Command "cmd" with the single SWITCH parameter "S". -/
def cmd_S : clish_command_t := ⟨"cmd", [sample_S], none⟩

/-- Command "cmd" without parameters and without args parameter. -/
def cmd_empty : clish_command_t := ⟨"cmd", [], none⟩

/-- Split a text at spaces; `cur` is the word being read, reversed. -/
def split_words : List Char → List Char → List String
  | [], cur => if cur.isEmpty then [] else [String.mk cur.reverse]
  | ch :: rest, cur =>
    if ch = Char.ofNat 32 then
      (if cur.isEmpty then split_words rest [] else String.mk cur.reverse :: split_words rest [])
    else split_words rest (ch :: cur)

/-- Tokens of an unquoted line. -/
def plain_argv (l : List String) : lub_argv_t := l.map (fun s => ⟨s, false⟩)

/-- Sample collaborators.  Static rule: a SUBCOMMAND parameter accepts a
token that starts its literal value, case-insensitively, and yields the
literal; a parameter named "O" accepts non-empty alphabetic text; every other
parameter accepts non-empty digit strings.  The action rejects "bad", turns
"42" into "forty-two" and accepts anything else unchanged.  Tests expand to
themselves and pass when they read "1".  A line whose first word is "cmd"
resolves to `cmd_P`; lines are split at spaces, no word is quoted. -/
def sample_env : Collaborators where
  clish_shell_expand := fun s _ => some s
  lub_system_line_test := fun s => s = "1"
  clish_param_validate := fun p t =>
    if clish_param__get_mode p = .CLISH_PARAM_SUBCOMMAND then
      (if lub_string_nocasestr (clish_param__get_value p) t = some 0 then
        some (clish_param__get_value p) else none)
    else if clish_param__get_name p = "O" then
      (if t.data.all Char.isAlpha ∧ t ≠ "" then some t else none)
    else if t.data.all Char.isDigit ∧ t ≠ "" then some t else none
  clish_shell_exec_action := fun ctx =>
    match pargv_value ctx.pargv "value" with
    | some (some "bad") => (1, some "ignored")
    | some (some "42") => (0, some "forty-two")
    | _ => (0, some "")
  clish_shell_resolve_command := fun line =>
    if (split_words line.data []).head? = some "cmd" then some cmd_P else none
  lub_argv_new := fun line => plain_argv (split_words line.data [])
  lub_string_wordcount := fun s => (split_words s.data []).length

/-- A context bound to no command. -/
def sample_context : clish_context_t := clish_context_init

/-- Status, cursor and store content of a matcher result. -/
def result_view (r : Option (clish_pargv_status_e × parse_state)) :
    Option (clish_pargv_status_e × Nat × List (String × Option String)) :=
  r.map (fun x => (x.1, x.2.idx, pargv_view x.2.pargv))

/-- Content of the candidates store of a matcher result. -/
def candidates_view (r : Option (clish_pargv_status_e × parse_state)) :
    Option (Option (List (String × Option String))) :=
  r.map (fun x => x.2.last.map pargv_view)

/-- Mandatory SWITCH parameter "T" with the single alternative "A". -/
def sample_T : clish_param_t :=
  .mk "T" (some static_ptype) .CLISH_PARAM_SWITCH false false none "" [sample_A]

/-- Command "cmd" with the SWITCH parameters "T" and "S". -/
def cmd_TS : clish_command_t := ⟨"cmd", [sample_T, sample_S], none⟩

/-- The parameters candidate capture looks at for a node: the alternatives of
a SWITCH node, the node itself otherwise (lines 188-221). -/
def capture_list (param : clish_param_t) : List clish_param_t :=
  if clish_param__get_mode param = .CLISH_PARAM_SWITCH then clish_param__get_paramv param
  else [param]

/-- Names of the entries of a store, in order. -/
def pargv_names (pargv : clish_pargv_t) : List String :=
  pargv.map (fun e => clish_param__get_name e.param)

/-- Command "cmd" with parameters "P" and "Q", no args parameter. -/
def cmd_PQ : clish_command_t := ⟨"cmd", [sample_P, sample_Q], none⟩

/-- The state with the candidates store taken away (`last` NULL). -/
def parse_state.without_last (st : parse_state) : parse_state :=
  { st with last := none }

/-- An iteration outcome with the candidates store taken away. -/
def iter_exit.without_last : iter_exit → iter_exit
  | .next i n st => .next i n st.without_last
  | .brk i st => .brk i st.without_last
  | .returned r st => .returned r st.without_last

/-- A loop outcome with the candidates store taken away. -/
def scan_exit.without_last : scan_exit → scan_exit
  | .returned r st => .returned r st.without_last
  | .finished i st => .finished i st.without_last

/-- Args parameter named "args" whose test fails with the sample
collaborators. -/
def sample_args_off : clish_param_t :=
  .mk "args" (some static_ptype) .CLISH_PARAM_COMMON false false (some "0") "" []

/-- Command "cmd" without parameters, with the args parameter
`sample_args_off`. -/
def cmd_args_off : clish_command_t := ⟨"cmd", [], some sample_args_off⟩

/-- Every entry of a store holds a parameter whose test passes in `ctx`, or
the args parameter of the command. -/
def tests_pass (env : Collaborators) (cmd : clish_command_t) (ctx : clish_context_t)
    (pargv : clish_pargv_t) : Prop :=
  ∀ e ∈ pargv, line_test env e.param ctx = true ∨ clish_command__get_args cmd = some e.param

/-- An optional, unordered ORDINARY parameter without nested parameters whose
test passes in every context. -/
def free_optional (env : Collaborators) (p : clish_param_t) : Prop :=
  clish_param__get_mode p = .CLISH_PARAM_COMMON ∧ clish_param__get_optional p = true ∧
  clish_param__get_order p = false ∧ clish_param__get_paramv p = [] ∧
  ∀ ctx, line_test env p ctx = true

/-- A sibling list made only of such parameters, with pairwise distinct
names. -/
def free_optionals (env : Collaborators) (paramv : clish_paramv_t) : Prop :=
  (∀ p ∈ paramv, free_optional env p) ∧ (paramv.map clish_param__get_name).Nodup

/-- The token `t` is accepted by the parameter `px.1` of the list, with value
`px.2`, and rejected by every other parameter of the list. -/
def accepted_only_by (env : Collaborators) (paramv : clish_paramv_t) (t : lub_arg_t)
    (px : clish_param_t × String) : Prop :=
  px.1 ∈ paramv ∧ (∀ ctx, clish_shell_param_validate env px.1 t.arg ctx = some px.2) ∧
  ∀ q ∈ paramv, clish_param__get_name q ≠ clish_param__get_name px.1 →
    ∀ ctx, clish_shell_param_validate env q t.arg ctx = none

/-- The tokens from the cursor on are accepted, in order, by the parameters
of `accept`, each by exactly one parameter of the list and no two by the same
one; the store is empty; and the cursor is not the cursor target as long as a
token remains. -/
def tokens_accepted (env : Collaborators) (paramv : clish_paramv_t) (argv : lub_argv_t)
    (need_index : Nat) (st : parse_state) (accept : List (clish_param_t × String)) : Prop :=
  List.Forall₂ (accepted_only_by env paramv) (argv.drop st.idx) accept ∧
  (accept.map (fun px => clish_param__get_name px.1)).Nodup ∧
  st.pargv = [] ∧
  ∀ i, st.idx ≤ i → i < lub_argv__get_count argv → i ≠ need_index

/-- The entry a token leaves in the store: the accepting parameter with the
validated value. -/
def accept_entry (px : clish_param_t × String) : clish_parg_t := ⟨px.1, some px.2⟩

/-- Optional, unordered ORDINARY parameter "N" of a static type (it accepts
digits). -/
def sample_N : clish_param_t :=
  .mk "N" (some static_ptype) .CLISH_PARAM_COMMON true false none "" []

/-- Command "cmd" with the unordered optionals "O" and "N". -/
def cmd_ON : clish_command_t := ⟨"cmd", [sample_O, sample_N], none⟩

/-- Mandatory ORDINARY parameter "R" of a static type with one nested
parameter, the mandatory "Q". -/
def sample_R : clish_param_t :=
  .mk "R" (some static_ptype) .CLISH_PARAM_COMMON false false none "" [sample_Q]

/-- Command "cmd" with the SWITCH "S", the parameter "R" and an args
parameter. -/
def cmd_SR_args : clish_command_t := ⟨"cmd", [sample_S, sample_R], some sample_args⟩

/-! ## Theorems -/

theorem find_arg_insert_self (pargv : clish_pargv_t) (param : clish_param_t) (value : Option String) :
    pargv_value (clish_pargv_insert pargv param value) (clish_param__get_name param) =
      some value := by
  unfold pargv_value
  induction pargv with
  | nil => simp [clish_pargv_insert, clish_pargv_find_arg]
  | cons e es ih =>
    by_cases h : clish_param__get_name e.param = clish_param__get_name param
    · simp [clish_pargv_insert, clish_pargv_find_arg, h]
    · simp [clish_pargv_insert, clish_pargv_find_arg, h, ih]

theorem find_arg_insert_other (pargv : clish_pargv_t) (param : clish_param_t) (value : Option String)
    (name : String) (hne : clish_param__get_name param ≠ name) :
    pargv_value (clish_pargv_insert pargv param value) name = pargv_value pargv name := by
  unfold pargv_value
  induction pargv with
  | nil => simp [clish_pargv_insert, clish_pargv_find_arg, hne]
  | cons e es ih =>
    simp only [clish_pargv_insert, clish_pargv_find_arg]
    split_ifs <;> simp_all [clish_pargv_find_arg]

theorem in_pargv_eq_value (pargv : clish_pargv_t) (name : String) :
    in_pargv pargv name = (pargv_value pargv name).isSome := by
  simp [in_pargv, pargv_value]

theorem in_pargv_insert_self (pargv : clish_pargv_t) (param : clish_param_t) (value : Option String) :
    in_pargv (clish_pargv_insert pargv param value) (clish_param__get_name param) = true := by
  rw [in_pargv_eq_value, find_arg_insert_self]; rfl

theorem in_pargv_insert (pargv : clish_pargv_t) (param : clish_param_t) (value : Option String)
    (name : String) :
    in_pargv (clish_pargv_insert pargv param value) name =
      (decide (clish_param__get_name param = name) || in_pargv pargv name) := by
  by_cases h : clish_param__get_name param = name
  · subst h; simp [in_pargv_insert_self]
  · rw [in_pargv_eq_value, find_arg_insert_other _ _ _ _ h, ← in_pargv_eq_value]; simp [h]

theorem in_pargv_insert_mono (pargv : clish_pargv_t) (param : clish_param_t) (value : Option String)
    (name : String) (h : in_pargv pargv name = true) :
    in_pargv (clish_pargv_insert pargv param value) name = true := by
  rw [in_pargv_insert, h]; simp

theorem in_pargv_record_mono (pargv : clish_pargv_t) (param : clish_param_t) (v : validation)
    (name : String) (h : in_pargv pargv name = true) :
    in_pargv (record_param pargv param v) name = true := by
  unfold record_param
  split
  · exact in_pargv_insert_mono _ _ _ _ (in_pargv_insert_mono _ _ _ _ h)
  · exact in_pargv_insert_mono _ _ _ _ h

theorem in_pargv_record_self (pargv : clish_pargv_t) (param : clish_param_t) (v : validation) :
    in_pargv (record_param pargv param v) (clish_param__get_name param) = true := by
  unfold record_param
  split
  · exact in_pargv_insert_mono _ _ _ _ (in_pargv_insert_self _ _ _)
  · exact in_pargv_insert_self _ _ _

/-! ### Validation facts -/

theorem switch_validate_arg (env : Collaborators) (context : clish_context_t) (arg : Option String)
    (l : List clish_param_t) (v : validation) (h : switch_validate env context arg l = some v) :
    arg ≠ none := by
  induction l with
  | nil => simp [switch_validate] at h
  | cons c cs ih =>
    intro ha
    subst ha
    simp only [switch_validate, Option.bind] at h
    split_ifs at h
    · exact ih h rfl
    · exact ih h rfl

theorem validate_current_arg (env : Collaborators) (context : clish_context_t)
    (pargv : clish_pargv_t) (param : clish_param_t) (arg : Option String) (v : validation)
    (h : validate_current env context pargv param arg = some v) : arg ≠ none := by
  unfold validate_current at h
  split_ifs at h
  · exact switch_validate_arg env context arg _ v h
  · intro ha; subst ha; simp at h

theorem validate_current_new (env : Collaborators) (context : clish_context_t)
    (pargv : clish_pargv_t) (param : clish_param_t) (arg : Option String) (v : validation)
    (h : validate_current env context pargv param arg = some v) :
    in_pargv pargv (clish_param__get_name param) = false := by
  unfold validate_current at h
  unfold in_pargv
  split_ifs at h with h1 <;> simpa using h1

theorem current_arg_lt (argv : lub_argv_t) (st : parse_state) (h : current_arg argv st ≠ none) :
    st.idx < lub_argv__get_count argv := by
  unfold current_arg at h
  by_contra hc
  simp [hc] at h

theorem current_arg_congr (argv : lub_argv_t) (a b : parse_state) (h : a.idx = b.idx) :
    current_arg argv a = current_arg argv b := by
  unfold current_arg; rw [h]

theorem current_arg_none (argv : lub_argv_t) (st : parse_state)
    (h : lub_argv__get_count argv ≤ st.idx) : current_arg argv st = none := by
  unfold current_arg
  simp [Nat.not_lt.mpr h]

theorem candidate_capture_pargv (env : Collaborators) (context : clish_context_t)
    (need_index : Nat) (param : clish_param_t) (arg : Option String) (st : parse_state) :
    (candidate_capture env context need_index param arg st).pargv = st.pargv ∧
    (candidate_capture env context need_index param arg st).idx = st.idx := by
  unfold candidate_capture
  split
  · exact ⟨rfl, rfl⟩
  · split_ifs <;> exact ⟨rfl, rfl⟩

theorem args_candidate_nested (cmd : clish_command_t) (argv : lub_argv_t) (pv : clish_paramv_t)
    (index : Nat) (st : parse_state) : args_candidate cmd argv false pv index st = st := by
  unfold args_candidate
  split
  · simp
  · rfl

theorem args_candidate_pargv (cmd : clish_command_t) (argv : lub_argv_t) (up : Bool)
    (pv : clish_paramv_t) (index : Nat) (st : parse_state) :
    (args_candidate cmd argv up pv index st).pargv = st.pargv ∧
    (args_candidate cmd argv up pv index st).idx = st.idx := by
  unfold args_candidate
  split
  · split_ifs <;> exact ⟨rfl, rfl⟩
  · exact ⟨rfl, rfl⟩

theorem post_loop_nested_state (cmd : clish_command_t) (argv : lub_argv_t) (pv : clish_paramv_t)
    (e : scan_exit) : (post_loop cmd argv false pv e).2 = e.state := by
  cases e with
  | returned s st => rfl
  | finished i st =>
    simp only [post_loop, scan_exit.state, args_candidate_nested]
    split_ifs
    · rfl
    · simp_all
    · rfl

/-! ### Case analysis of one iteration -/

theorem choose_next_state (param : clish_param_t) (index : Nat) (nopt : Option Nat)
    (st : parse_state) : (choose_next param index nopt st).state = st := by
  unfold choose_next
  split_ifs
  · split <;> rfl
  · rfl

theorem unmatched_state (param : clish_param_t) (arg : Option String) (index : Nat)
    (nopt : Option Nat) (st : parse_state) : (unmatched param arg index nopt st).state = st := by
  unfold unmatched
  split_ifs <;> rfl

/-- The ways `next_argument` can end. -/
theorem next_argument_cases (argv : lub_argv_t) (need_index : Nat)
    (nested : clish_paramv_t → parse_state → Option (clish_pargv_status_e × parse_state))
    (param : clish_param_t) (v : validation) (index : Nat) (nopt : Option Nat)
    (st : parse_state) (out : iter_exit)
    (h : next_argument argv need_index nested param v index nopt st = some out) :
    ((clish_param__get_optional param = true ∧ st.idx = need_index ∧
        need_index = lub_argv__get_count argv - 1) ∧ out = choose_next param index nopt st) ∨
    (¬ (clish_param__get_optional param = true ∧ st.idx = need_index ∧
        need_index = lub_argv__get_count argv - 1) ∧
      ((v.rec_paramv = [] ∧ out = choose_next param index nopt { st with idx := st.idx + 1 }) ∨
       (v.rec_paramv ≠ [] ∧ ∃ retval st2,
          nested v.rec_paramv { st with idx := st.idx + 1 } = some (retval, st2) ∧
          ((retval ≠ .CLISH_LINE_OK ∧ out = .returned retval st2) ∨
           (retval = .CLISH_LINE_OK ∧ out = choose_next param index nopt st2))))) := by
  unfold next_argument at h
  simp only at h
  by_cases hf : (clish_param__get_optional param = true ∧ st.idx = need_index ∧
        need_index = lub_argv__get_count argv - 1)
  · rw [if_neg (not_not.mpr hf)] at h
    left
    exact ⟨hf, (Option.some.inj h).symm⟩
  · rw [if_pos hf] at h
    right
    refine ⟨hf, ?_⟩
    by_cases hn : v.rec_paramv = []
    · left
      rw [if_neg (by simp [hn])] at h
      exact ⟨hn, (Option.some.inj h).symm⟩
    · right
      rw [if_pos (by simpa using hn)] at h
      refine ⟨hn, ?_⟩
      cases hnest : nested v.rec_paramv { st with idx := st.idx + 1 } with
      | none => rw [hnest] at h; cases h
      | some r =>
        obtain ⟨retval, st2⟩ := r
        rw [hnest] at h
        simp only at h
        refine ⟨retval, st2, rfl, ?_⟩
        by_cases hr : retval = .CLISH_LINE_OK
        · right
          rw [if_neg (not_not.mpr hr)] at h
          exact ⟨hr, (Option.some.inj h).symm⟩
        · left
          rw [if_pos hr] at h
          exact ⟨hr, (Option.some.inj h).symm⟩

/-- The ways `visit` can end. -/
theorem visit_cases (env : Collaborators) (context : clish_context_t) (argv : lub_argv_t)
    (need_index : Nat)
    (nested : clish_paramv_t → parse_state → Option (clish_pargv_status_e × parse_state))
    (param : clish_param_t) (index : Nat) (nopt : Option Nat) (st : parse_state) (out : iter_exit)
    (h : visit env context argv need_index nested param index nopt st = some out) :
    (validate_current env
        (current_context context (candidate_capture env context need_index param (current_arg argv st) st))
        (candidate_capture env context need_index param (current_arg argv st) st).pargv param
        (current_arg argv st) = none ∧
      out = unmatched param (current_arg argv st) index
        (if !clish_param__get_optional param then some index else nopt)
        (candidate_capture env context need_index param (current_arg argv st) st)) ∨
    (∃ v, validate_current env
        (current_context context (candidate_capture env context need_index param (current_arg argv st) st))
        (candidate_capture env context need_index param (current_arg argv st) st).pargv param
        (current_arg argv st) = some v ∧
      next_argument argv need_index nested param v index
        (if !clish_param__get_optional param then some index else nopt)
        { candidate_capture env context need_index param (current_arg argv st) st with
          pargv := record_param
            (candidate_capture env context need_index param (current_arg argv st) st).pargv param v }
        = some out) := by
  unfold visit at h
  simp only at h
  cases hv : validate_current env
        (current_context context (candidate_capture env context need_index param (current_arg argv st) st))
        (candidate_capture env context need_index param (current_arg argv st) st).pargv param
        (current_arg argv st) with
  | none =>
    rw [hv] at h
    left
    exact ⟨rfl, (Option.some.inj h).symm⟩
  | some v =>
    rw [hv] at h
    right
    exact ⟨v, rfl, h⟩

/-- The ways `iteration` can end. -/
theorem iteration_cases (env : Collaborators) (context : clish_context_t) (argv : lub_argv_t)
    (need_index : Nat)
    (nested : clish_paramv_t → parse_state → Option (clish_pargv_status_e × parse_state))
    (paramv : clish_paramv_t) (index : Nat) (nopt : Option Nat) (st : parse_state) (out : iter_exit)
    (h : iteration env context argv need_index nested paramv index nopt st = some out) :
    (clish_paramv__get_param paramv index = none ∧ out = .returned .CLISH_BAD_PARAM st) ∨
    (∃ param, clish_paramv__get_param paramv index = some param ∧
      ((line_test env param (current_context context st) = false ∧
          out = .next (index + 1) nopt st) ∨
       (line_test env param (current_context context st) = true ∧
          visit env context argv need_index nested param index nopt st = some out))) := by
  unfold iteration at h
  cases hp : clish_paramv__get_param paramv index with
  | none =>
    rw [hp] at h
    left
    exact ⟨rfl, (Option.some.inj h).symm⟩
  | some param =>
    rw [hp] at h
    simp only at h
    right
    refine ⟨param, rfl, ?_⟩
    cases ht : line_test env param (current_context context st) with
    | false =>
      rw [ht] at h
      left
      exact ⟨rfl, (Option.some.inj h).symm⟩
    | true =>
      rw [ht] at h
      right
      exact ⟨rfl, h⟩

/-! ### A rule for relations between the state before and after -/

/-- A relation between states that holds across every primitive change of
state holds across one iteration. -/
theorem iteration_rel (env : Collaborators) (context : clish_context_t) (argv : lub_argv_t)
    (need_index : Nat) (R : parse_state → parse_state → Prop)
    (hrefl : ∀ s, R s s) (htrans : ∀ a b c, R a b → R b c → R a c)
    (hcap : ∀ param st, R st (candidate_capture env context need_index param (current_arg argv st) st))
    (hrec : ∀ param st v,
      validate_current env (current_context context st) st.pargv param (current_arg argv st) = some v →
      R st { st with pargv := record_param st.pargv param v })
    (hadv : ∀ st : parse_state, st.idx < lub_argv__get_count argv → R st { st with idx := st.idx + 1 })
    (nested : clish_paramv_t → parse_state → Option (clish_pargv_status_e × parse_state))
    (hnested : ∀ pv s r, nested pv s = some r → R s r.2)
    (paramv : clish_paramv_t) (index : Nat) (nopt : Option Nat) (st : parse_state) (out : iter_exit)
    (h : iteration env context argv need_index nested paramv index nopt st = some out) :
    R st out.state := by
  rcases iteration_cases _ _ _ _ _ _ _ _ _ _ h with ⟨_, rfl⟩ | ⟨param, _, ⟨_, rfl⟩ | ⟨_, hv⟩⟩
  · exact hrefl _
  · exact hrefl _
  · have hc := hcap param st
    have hcp := candidate_capture_pargv env context need_index param (current_arg argv st) st
    have harg : current_arg argv
        (candidate_capture env context need_index param (current_arg argv st) st) =
        current_arg argv st := current_arg_congr argv _ _ hcp.2
    rcases visit_cases _ _ _ _ _ _ _ _ _ _ hv with ⟨_, rfl⟩ | ⟨v, hval, hna⟩
    · rw [unmatched_state]; exact hc
    · have hval1 : validate_current env
          (current_context context (candidate_capture env context need_index param (current_arg argv st) st))
          (candidate_capture env context need_index param (current_arg argv st) st).pargv param
          (current_arg argv (candidate_capture env context need_index param (current_arg argv st) st))
          = some v := by rw [harg]; exact hval
      have hr := htrans _ _ _ hc (hrec param _ v hval1)
      have hlt := current_arg_lt argv _ (validate_current_arg _ _ _ _ _ _ hval1)
      have ha := hadv { candidate_capture env context need_index param (current_arg argv st) st with
          pargv := record_param
            (candidate_capture env context need_index param (current_arg argv st) st).pargv param v } hlt
      rcases next_argument_cases _ _ _ _ _ _ _ _ _ hna with
        ⟨_, rfl⟩ | ⟨_, ⟨_, rfl⟩ | ⟨_, retval, st2, hnest, ⟨_, rfl⟩ | ⟨_, rfl⟩⟩⟩
      · rw [choose_next_state]; exact hr
      · rw [choose_next_state]; exact htrans _ _ _ hr ha
      · exact htrans _ _ _ hr (htrans _ _ _ ha (hnested _ _ _ hnest))
      · rw [choose_next_state]
        exact htrans _ _ _ hr (htrans _ _ _ ha (hnested _ _ _ hnest))

theorem param_scan_succ (env : Collaborators) (cmd : clish_command_t) (context : clish_context_t)
    (argv : lub_argv_t) (need_index : Nat) (fuel : Nat) (paramv : clish_paramv_t) (index : Nat)
    (nopt : Option Nat) (st : parse_state) :
    param_scan env cmd context argv need_index (fuel + 1) paramv index nopt st =
      if index < clish_paramv__get_count paramv then
        match iteration env context argv need_index
            (fun pv s => clish_shell_parse_pargv env fuel cmd context pv argv need_index false s)
            paramv index nopt st with
        | none => none
        | some (.next index1 nopt1 st1) =>
          param_scan env cmd context argv need_index fuel paramv index1 nopt1 st1
        | some (.brk index1 st1) => some (.finished index1 st1)
        | some (.returned status st1) => some (.returned status st1)
      else some (.finished index st) := rfl

/-- The ways the loop can proceed from `index`. -/
theorem param_scan_cases (env : Collaborators) (cmd : clish_command_t) (context : clish_context_t)
    (argv : lub_argv_t) (need_index : Nat) (fuel : Nat) (paramv : clish_paramv_t) (index : Nat)
    (nopt : Option Nat) (st : parse_state) (e : scan_exit)
    (h : param_scan env cmd context argv need_index (fuel + 1) paramv index nopt st = some e) :
    (¬ index < clish_paramv__get_count paramv ∧ e = .finished index st) ∨
    (index < clish_paramv__get_count paramv ∧ ∃ out,
      iteration env context argv need_index
        (fun pv s => clish_shell_parse_pargv env fuel cmd context pv argv need_index false s)
        paramv index nopt st = some out ∧
      ((∃ i n s, out = .next i n s ∧
          param_scan env cmd context argv need_index fuel paramv i n s = some e) ∨
       (∃ i s, out = .brk i s ∧ e = .finished i s) ∨
       (∃ r s, out = .returned r s ∧ e = .returned r s))) := by
  rw [param_scan_succ] at h
  by_cases hi : index < clish_paramv__get_count paramv
  · rw [if_pos hi] at h
    right
    refine ⟨hi, ?_⟩
    cases hit : iteration env context argv need_index
        (fun pv s => clish_shell_parse_pargv env fuel cmd context pv argv need_index false s)
        paramv index nopt st with
    | none => rw [hit] at h; cases h
    | some out =>
      rw [hit] at h
      refine ⟨out, rfl, ?_⟩
      cases out with
      | next i n s => left; exact ⟨i, n, s, rfl, h⟩
      | brk i s => right; left; exact ⟨i, s, rfl, (Option.some.inj h).symm⟩
      | returned r s => right; right; exact ⟨r, s, rfl, (Option.some.inj h).symm⟩
  · rw [if_neg hi] at h
    left
    exact ⟨hi, (Option.some.inj h).symm⟩

/-- A relation between states that holds across every primitive change of
state holds across the loop and across every nested matcher call. -/
theorem param_scan_rel (env : Collaborators) (cmd : clish_command_t) (context : clish_context_t)
    (argv : lub_argv_t) (need_index : Nat) (R : parse_state → parse_state → Prop)
    (hrefl : ∀ s, R s s) (htrans : ∀ a b c, R a b → R b c → R a c)
    (hcap : ∀ param st, R st (candidate_capture env context need_index param (current_arg argv st) st))
    (hrec : ∀ param st v,
      validate_current env (current_context context st) st.pargv param (current_arg argv st) = some v →
      R st { st with pargv := record_param st.pargv param v })
    (hadv : ∀ st : parse_state, st.idx < lub_argv__get_count argv → R st { st with idx := st.idx + 1 })
    (fuel : Nat) :
    ∀ (paramv : clish_paramv_t) (index : Nat) (nopt : Option Nat) (st : parse_state) (e : scan_exit),
      param_scan env cmd context argv need_index fuel paramv index nopt st = some e →
      R st e.state := by
  induction fuel with
  | zero => intro paramv index nopt st e h; cases h
  | succ fuel ih =>
    intro paramv index nopt st e h
    rcases param_scan_cases _ _ _ _ _ _ _ _ _ _ _ h with ⟨_, rfl⟩ | ⟨_, out, hit, hout⟩
    · exact hrefl _
    · have hnested : ∀ pv s r,
          clish_shell_parse_pargv env fuel cmd context pv argv need_index false s = some r →
          R s r.2 := by
        intro pv s r hr
        unfold clish_shell_parse_pargv at hr
        cases hs : param_scan env cmd context argv need_index fuel pv 0 none s with
        | none => rw [hs] at hr; cases hr
        | some e1 =>
          rw [hs] at hr
          cases hr
          rw [post_loop_nested_state]
          exact ih _ _ _ _ _ hs
      have hstep := iteration_rel env context argv need_index R hrefl htrans hcap hrec hadv _
        hnested _ _ _ _ _ hit
      rcases hout with ⟨i, n, s, rfl, hrest⟩ | ⟨i, s, rfl, rfl⟩ | ⟨r, s, rfl, rfl⟩
      · exact htrans _ _ _ hstep (ih _ _ _ _ _ hrest)
      · exact hstep
      · exact hstep

/-! ### Names only accumulate -/

theorem param_scan_names (env : Collaborators) (cmd : clish_command_t) (context : clish_context_t)
    (argv : lub_argv_t) (need_index : Nat) (fuel : Nat) (paramv : clish_paramv_t) (index : Nat)
    (nopt : Option Nat) (st : parse_state) (e : scan_exit)
    (h : param_scan env cmd context argv need_index fuel paramv index nopt st = some e)
    (name : String) (hin : in_pargv st.pargv name = true) :
    in_pargv e.state.pargv name = true := by
  refine param_scan_rel env cmd context argv need_index
    (fun a b => ∀ n, in_pargv a.pargv n = true → in_pargv b.pargv n = true)
    (fun _ _ hn => hn) (fun _ _ _ hab hbc n hn => hbc n (hab n hn)) ?_ ?_ ?_
    fuel paramv index nopt st e h name hin
  · intro param s n hn
    rw [(candidate_capture_pargv env context need_index param _ s).1]; exact hn
  · intro param s v _ n hn
    exact in_pargv_record_mono _ _ _ _ hn
  · intro s _ n hn; exact hn

theorem parse_pargv_nested_names (env : Collaborators) (cmd : clish_command_t)
    (context : clish_context_t) (argv : lub_argv_t) (need_index : Nat) (fuel : Nat)
    (pv : clish_paramv_t) (s : parse_state) (r : clish_pargv_status_e × parse_state)
    (h : clish_shell_parse_pargv env fuel cmd context pv argv need_index false s = some r)
    (name : String) (hin : in_pargv s.pargv name = true) : in_pargv r.2.pargv name = true := by
  unfold clish_shell_parse_pargv at h
  cases hs : param_scan env cmd context argv need_index fuel pv 0 none s with
  | none => rw [hs] at h; cases h
  | some e1 =>
    rw [hs] at h
    cases h
    rw [post_loop_nested_state]
    exact param_scan_names _ _ _ _ _ _ _ _ _ _ _ hs name hin

/-! ### Fuel -/

theorem parse_fuel_paramv (p : clish_param_t) :
    parse_fuel (clish_param__get_paramv p) = param_fuel p := by
  cases p; simp [parse_fuel, param_fuel, clish_param__get_paramv]

theorem param_fuel_le_nested (l : List clish_param_t) (p : clish_param_t) (h : p ∈ l) :
    param_fuel p ≤ nested_fuel l := by
  induction l with
  | nil => cases h
  | cons q qs ih =>
    rw [nested_fuel]
    rcases List.mem_cons.mp h with rfl | hm
    · exact Nat.le_add_right _ _
    · exact le_trans (ih hm) (Nat.le_add_left _ _)

theorem nested_fuel_le_parse (l : List clish_param_t) : nested_fuel l ≤ parse_fuel l := by
  unfold parse_fuel; exact Nat.le_add_left _ _

theorem switch_validate_rec (env : Collaborators) (context : clish_context_t) (arg : Option String)
    (l : List clish_param_t) (v : validation) (h : switch_validate env context arg l = some v) :
    ∃ c, c ∈ l ∧ v.cparam = some c ∧ v.rec_paramv = clish_param__get_paramv c := by
  induction l with
  | nil => simp [switch_validate] at h
  | cons c cs ih =>
    simp only [switch_validate] at h
    split_ifs at h
    · obtain ⟨d, hd, hv⟩ := ih h
      exact ⟨d, List.mem_cons_of_mem _ hd, hv⟩
    · cases hb : arg.bind (fun a => clish_shell_param_validate env c a context) with
      | none =>
        rw [hb] at h
        obtain ⟨d, hd, hv⟩ := ih h
        exact ⟨d, List.mem_cons_of_mem _ hd, hv⟩
      | some x =>
        rw [hb] at h
        cases h
        exact ⟨c, List.mem_cons_self _ _, rfl, rfl⟩

theorem validate_current_fuel (env : Collaborators) (context : clish_context_t)
    (pargv : clish_pargv_t) (param : clish_param_t) (arg : Option String) (v : validation)
    (h : validate_current env context pargv param arg = some v) :
    parse_fuel v.rec_paramv ≤ param_fuel param := by
  unfold validate_current at h
  split_ifs at h
  · obtain ⟨c, hc, _, hv⟩ := switch_validate_rec _ _ _ _ _ h
    rw [hv, parse_fuel_paramv, ← parse_fuel_paramv param]
    exact le_trans (param_fuel_le_nested _ _ hc) (nested_fuel_le_parse _)
  · cases hb : arg.bind (fun a => clish_shell_param_validate env param a context) with
    | none => rw [hb] at h; cases h
    | some x =>
      rw [hb] at h
      cases h
      exact le_of_eq (parse_fuel_paramv param)

theorem get_param_mem (paramv : clish_paramv_t) (index : Nat) (param : clish_param_t)
    (h : clish_paramv__get_param paramv index = some param) : param ∈ paramv := by
  unfold clish_paramv__get_param at h
  exact List.get?_mem h

theorem get_param_lt (paramv : clish_paramv_t) (index : Nat)
    (h : index < clish_paramv__get_count paramv) :
    ∃ param, clish_paramv__get_param paramv index = some param := by
  unfold clish_paramv__get_param clish_paramv__get_count at *
  exact ⟨paramv.get ⟨index, h⟩, List.get?_eq_get h⟩

/-! ### Pending names -/

theorem pending_le_length (paramv : clish_paramv_t) (pargv : clish_pargv_t) :
    pending paramv pargv ≤ paramv.length := List.countP_le_length _

theorem pending_mono (paramv : clish_paramv_t) (a b : clish_pargv_t)
    (h : ∀ n, in_pargv a n = true → in_pargv b n = true) : pending paramv b ≤ pending paramv a := by
  unfold pending
  apply List.countP_mono_left
  intro x _ hx
  cases ha : in_pargv a (clish_param__get_name x) with
  | false => rfl
  | true => rw [h _ ha] at hx; exact absurd hx (by simp)

theorem pending_lt (paramv : clish_paramv_t) (a b : clish_pargv_t)
    (h : ∀ n, in_pargv a n = true → in_pargv b n = true) (p : clish_param_t) (hp : p ∈ paramv)
    (ha : in_pargv a (clish_param__get_name p) = false)
    (hb : in_pargv b (clish_param__get_name p) = true) : pending paramv b < pending paramv a := by
  induction paramv with
  | nil => cases hp
  | cons q qs ih =>
    unfold pending at *
    rw [List.countP_cons, List.countP_cons]
    have hq : (if (!in_pargv b (clish_param__get_name q)) = true then 1 else 0) ≤
        (if (!in_pargv a (clish_param__get_name q)) = true then 1 else 0) := by
      cases haq : in_pargv a (clish_param__get_name q) with
      | false => simp only [Bool.not_false, if_true]; split_ifs <;> omega
      | true => rw [h _ haq]
    rcases List.mem_cons.mp hp with rfl | hm
    · have hle := pending_mono qs a b h
      unfold pending at hle
      rw [ha, hb]
      simp
      omega
    · have := ih hm
      omega

/-! ### Every call returns -/

theorem next_argument_total (argv : lub_argv_t) (need_index : Nat)
    (nested : clish_paramv_t → parse_state → Option (clish_pargv_status_e × parse_state))
    (param : clish_param_t) (v : validation) (index : Nat) (nopt : Option Nat)
    (st : parse_state) (h : ∀ s, ∃ r, nested v.rec_paramv s = some r) :
    ∃ out, next_argument argv need_index nested param v index nopt st = some out := by
  unfold next_argument
  simp only
  by_cases hf : (clish_param__get_optional param = true ∧ st.idx = need_index ∧
        need_index = lub_argv__get_count argv - 1)
  · rw [if_neg (not_not.mpr hf)]
    exact ⟨_, rfl⟩
  · rw [if_pos hf]
    by_cases hn : v.rec_paramv.length ≠ 0
    · rw [if_pos hn]
      obtain ⟨r, hr⟩ := h { st with idx := st.idx + 1 }
      rw [hr]
      obtain ⟨retval, st2⟩ := r
      simp only
      split_ifs <;> exact ⟨_, rfl⟩
    · rw [if_neg hn]
      exact ⟨_, rfl⟩

theorem iteration_total (env : Collaborators) (context : clish_context_t) (argv : lub_argv_t)
    (need_index : Nat)
    (nested : clish_paramv_t → parse_state → Option (clish_pargv_status_e × parse_state))
    (paramv : clish_paramv_t) (index : Nat) (nopt : Option Nat) (st : parse_state)
    (h : ∀ pv s, parse_fuel pv ≤ nested_fuel paramv → ∃ r, nested pv s = some r) :
    ∃ out, iteration env context argv need_index nested paramv index nopt st = some out := by
  unfold iteration
  cases hp : clish_paramv__get_param paramv index with
  | none => exact ⟨_, rfl⟩
  | some param =>
    simp only
    split_ifs
    · exact ⟨_, rfl⟩
    · unfold visit
      simp only
      cases hv : validate_current env
        (current_context context (candidate_capture env context need_index param (current_arg argv st) st))
        (candidate_capture env context need_index param (current_arg argv st) st).pargv param
        (current_arg argv st) with
      | none => exact ⟨_, rfl⟩
      | some v =>
        simp only
        apply next_argument_total
        intro s
        apply h
        exact le_trans (validate_current_fuel _ _ _ _ _ _ hv)
          (param_fuel_le_nested _ _ (get_param_mem _ _ _ hp))

/-- What an iteration that continues the loop has done: names only
accumulate, and the index either moves one step forward or the parameter at
`index` has just got its entry. -/
theorem iteration_next (env : Collaborators) (context : clish_context_t) (argv : lub_argv_t)
    (need_index : Nat)
    (nested : clish_paramv_t → parse_state → Option (clish_pargv_status_e × parse_state))
    (hnested : ∀ pv s r, nested pv s = some r →
      ∀ n, in_pargv s.pargv n = true → in_pargv r.2.pargv n = true)
    (paramv : clish_paramv_t) (index : Nat) (nopt : Option Nat) (st : parse_state)
    (i : Nat) (n : Option Nat) (s : parse_state)
    (h : iteration env context argv need_index nested paramv index nopt st = some (.next i n s)) :
    (∀ nm, in_pargv st.pargv nm = true → in_pargv s.pargv nm = true) ∧
    (i = index + 1 ∨ ∃ param, clish_paramv__get_param paramv index = some param ∧
      in_pargv st.pargv (clish_param__get_name param) = false ∧
      in_pargv s.pargv (clish_param__get_name param) = true) := by
  constructor
  · intro nm hnm
    refine iteration_rel env context argv need_index
      (fun a b => ∀ n, in_pargv a.pargv n = true → in_pargv b.pargv n = true)
      (fun _ _ hn => hn) (fun _ _ _ hab hbc n hn => hbc n (hab n hn)) ?_ ?_ ?_ nested hnested
      paramv index nopt st _ h nm hnm
    · intro param s n hn
      rw [(candidate_capture_pargv env context need_index param _ s).1]; exact hn
    · intro param s v _ n hn
      exact in_pargv_record_mono _ _ _ _ hn
    · intro s _ n hn; exact hn
  · rcases iteration_cases _ _ _ _ _ _ _ _ _ _ h with ⟨_, hout⟩ | ⟨param, hp, ⟨_, hout⟩ | ⟨_, hv⟩⟩
    · cases hout
    · cases hout; left; rfl
    · have hcp := candidate_capture_pargv env context need_index param (current_arg argv st) st
      rcases visit_cases _ _ _ _ _ _ _ _ _ _ hv with ⟨_, hout⟩ | ⟨v, hval, hna⟩
      · left
        unfold unmatched at hout
        split_ifs at hout <;> cases hout <;> rfl
      · right
        refine ⟨param, hp, ?_, ?_⟩
        · have := validate_current_new _ _ _ _ _ _ hval
          rw [hcp.1] at this; exact this
        · have hself := in_pargv_record_self
            (candidate_capture env context need_index param (current_arg argv st) st).pargv param v
          rcases next_argument_cases _ _ _ _ _ _ _ _ _ hna with
            ⟨_, hout⟩ | ⟨_, ⟨_, hout⟩ | ⟨_, retval, st2, hnest, ⟨_, hout⟩ | ⟨_, hout⟩⟩⟩
          · have := congrArg iter_exit.state hout
            rw [choose_next_state] at this
            simp only [iter_exit.state] at this
            rw [this]; exact hself
          · have := congrArg iter_exit.state hout
            rw [choose_next_state] at this
            simp only [iter_exit.state] at this
            rw [this]; exact hself
          · cases hout
          · have := congrArg iter_exit.state hout
            rw [choose_next_state] at this
            simp only [iter_exit.state] at this
            rw [this]
            exact hnested _ _ _ hnest _ hself

/-- The loop returns whenever the fuel covers the passes still possible at
this level and the nested lists. -/
theorem param_scan_total (env : Collaborators) (cmd : clish_command_t) (context : clish_context_t)
    (argv : lub_argv_t) (need_index : Nat) (fuel : Nat) :
    ∀ (paramv : clish_paramv_t) (index : Nat) (nopt : Option Nat) (st : parse_state),
      pending paramv st.pargv * (paramv.length + 1) + (paramv.length - index) + 1 +
        nested_fuel paramv ≤ fuel →
      ∃ e, param_scan env cmd context argv need_index fuel paramv index nopt st = some e := by
  induction fuel with
  | zero => intro paramv index nopt st h; omega
  | succ fuel ih =>
    intro paramv index nopt st hfuel
    rw [param_scan_succ]
    by_cases hi : index < clish_paramv__get_count paramv
    · rw [if_pos hi]
      have hnest_total : ∀ pv s, parse_fuel pv ≤ nested_fuel paramv →
          ∃ r, clish_shell_parse_pargv env fuel cmd context pv argv need_index false s = some r := by
        intro pv s hpv
        have hb : pending pv s.pargv * (pv.length + 1) + (pv.length - 0) + 1 + nested_fuel pv
            ≤ fuel := by
          have h1 := pending_le_length pv s.pargv
          have h2 : pending pv s.pargv * (pv.length + 1) ≤ pv.length * (pv.length + 1) :=
            Nat.mul_le_mul_right _ h1
          unfold parse_fuel at hpv
          have h3 : (pv.length + 1) * (pv.length + 1) =
              pv.length * (pv.length + 1) + (pv.length + 1) := by ring
          omega
        obtain ⟨e, he⟩ := ih pv 0 none s hb
        unfold clish_shell_parse_pargv
        rw [he]
        exact ⟨_, rfl⟩
      obtain ⟨out, hout⟩ := iteration_total env context argv need_index _ paramv index nopt st
        hnest_total
      rw [hout]
      cases out with
      | brk i s => exact ⟨_, rfl⟩
      | returned r s => exact ⟨_, rfl⟩
      | next i n s =>
        simp only
        apply ih
        obtain ⟨hmono, hprog⟩ := iteration_next env context argv need_index _
          (fun pv s r hr => parse_pargv_nested_names env cmd context argv need_index fuel pv s r hr)
          paramv index nopt st i n s hout
        unfold clish_paramv__get_count at hi
        rcases hprog with rfl | ⟨param, hp, hfalse, htrue⟩
        · have := pending_mono paramv st.pargv s.pargv hmono
          have h2 : pending paramv s.pargv * (paramv.length + 1) ≤
              pending paramv st.pargv * (paramv.length + 1) := Nat.mul_le_mul_right _ this
          omega
        · have := pending_lt paramv st.pargv s.pargv hmono param (get_param_mem _ _ _ hp)
            hfalse htrue
          have h2 : (pending paramv s.pargv + 1) * (paramv.length + 1) ≤
              pending paramv st.pargv * (paramv.length + 1) := Nat.mul_le_mul_right _ this
          have h3 : (pending paramv s.pargv + 1) * (paramv.length + 1) =
              pending paramv s.pargv * (paramv.length + 1) + (paramv.length + 1) := by ring
          omega
    · rw [if_neg hi]
      exact ⟨_, rfl⟩

/-- Totality of the matcher: with `parse_fuel paramv` or more fuel it returns
a status and a state, from every state and at every nesting level. -/
theorem parse_pargv_total (env : Collaborators) (cmd : clish_command_t)
    (context : clish_context_t) (paramv : clish_paramv_t) (argv : lub_argv_t) (need_index : Nat)
    (up_level : Bool) (st : parse_state) (fuel : Nat) (hfuel : parse_fuel paramv ≤ fuel) :
    ∃ r, clish_shell_parse_pargv env fuel cmd context paramv argv need_index up_level st =
      some r := by
  have hb : pending paramv st.pargv * (paramv.length + 1) + (paramv.length - 0) + 1 +
      nested_fuel paramv ≤ fuel := by
    have h1 := pending_le_length paramv st.pargv
    have h2 : pending paramv st.pargv * (paramv.length + 1) ≤ paramv.length * (paramv.length + 1) :=
      Nat.mul_le_mul_right _ h1
    unfold parse_fuel at hfuel
    have h3 : (paramv.length + 1) * (paramv.length + 1) =
        paramv.length * (paramv.length + 1) + (paramv.length + 1) := by ring
    omega
  obtain ⟨e, he⟩ := param_scan_total env cmd context argv need_index fuel paramv 0 none st hb
  unfold clish_shell_parse_pargv
  rw [he]
  exact ⟨_, rfl⟩

/-! ### More fuel does not change the result -/

theorem next_argument_mono (argv : lub_argv_t) (need_index : Nat)
    (nested nested1 : clish_paramv_t → parse_state → Option (clish_pargv_status_e × parse_state))
    (hm : ∀ pv s r, nested pv s = some r → nested1 pv s = some r)
    (param : clish_param_t) (v : validation) (index : Nat) (nopt : Option Nat)
    (st : parse_state) (out : iter_exit)
    (h : next_argument argv need_index nested param v index nopt st = some out) :
    next_argument argv need_index nested1 param v index nopt st = some out := by
  unfold next_argument at h ⊢
  simp only at h ⊢
  by_cases hf : (clish_param__get_optional param = true ∧ st.idx = need_index ∧
        need_index = lub_argv__get_count argv - 1)
  · rw [if_neg (not_not.mpr hf)] at h ⊢
    exact h
  · rw [if_pos hf] at h ⊢
    by_cases hn : v.rec_paramv.length ≠ 0
    · rw [if_pos hn] at h ⊢
      cases hnest : nested v.rec_paramv { st with idx := st.idx + 1 } with
      | none => rw [hnest] at h; cases h
      | some r => rw [hnest] at h; rw [hm _ _ _ hnest]; exact h
    · rw [if_neg hn] at h ⊢
      exact h

theorem iteration_mono (env : Collaborators) (context : clish_context_t) (argv : lub_argv_t)
    (need_index : Nat)
    (nested nested1 : clish_paramv_t → parse_state → Option (clish_pargv_status_e × parse_state))
    (hm : ∀ pv s r, nested pv s = some r → nested1 pv s = some r)
    (paramv : clish_paramv_t) (index : Nat) (nopt : Option Nat) (st : parse_state) (out : iter_exit)
    (h : iteration env context argv need_index nested paramv index nopt st = some out) :
    iteration env context argv need_index nested1 paramv index nopt st = some out := by
  unfold iteration at h ⊢
  cases hp : clish_paramv__get_param paramv index with
  | none => rw [hp] at h; exact h
  | some param =>
    rw [hp] at h
    simp only at h ⊢
    cases ht : line_test env param (current_context context st) with
    | false => rw [ht] at h; exact h
    | true =>
      rw [ht] at h
      simp only [Bool.not_true, Bool.false_eq_true, if_false] at h ⊢
      unfold visit at h ⊢
      simp only at h ⊢
      cases hv : validate_current env
        (current_context context (candidate_capture env context need_index param (current_arg argv st) st))
        (candidate_capture env context need_index param (current_arg argv st) st).pargv param
        (current_arg argv st) with
      | none => rw [hv] at h; exact h
      | some v =>
        rw [hv] at h
        exact next_argument_mono argv need_index nested nested1 hm _ _ _ _ _ _ h

theorem param_scan_fuel_succ (env : Collaborators) (cmd : clish_command_t)
    (context : clish_context_t) (argv : lub_argv_t) (need_index : Nat) (fuel : Nat) :
    ∀ (paramv : clish_paramv_t) (index : Nat) (nopt : Option Nat) (st : parse_state) (e : scan_exit),
      param_scan env cmd context argv need_index fuel paramv index nopt st = some e →
      param_scan env cmd context argv need_index (fuel + 1) paramv index nopt st = some e := by
  induction fuel with
  | zero => intro paramv index nopt st e h; cases h
  | succ fuel ih =>
    intro paramv index nopt st e h
    rw [param_scan_succ] at h ⊢
    by_cases hi : index < clish_paramv__get_count paramv
    · rw [if_pos hi] at h ⊢
      cases hit : iteration env context argv need_index
          (fun pv s => clish_shell_parse_pargv env fuel cmd context pv argv need_index false s)
          paramv index nopt st with
      | none => rw [hit] at h; cases h
      | some out =>
        rw [hit] at h
        have hm : ∀ pv s r,
            clish_shell_parse_pargv env fuel cmd context pv argv need_index false s = some r →
            clish_shell_parse_pargv env (fuel + 1) cmd context pv argv need_index false s =
              some r := by
          intro pv s r hr
          unfold clish_shell_parse_pargv at hr ⊢
          cases hs : param_scan env cmd context argv need_index fuel pv 0 none s with
          | none => rw [hs] at hr; cases hr
          | some e1 => rw [hs] at hr; rw [ih _ _ _ _ _ hs]; exact hr
        rw [iteration_mono env context argv need_index _ _ hm _ _ _ _ _ hit]
        cases out with
        | next i n s => exact ih _ _ _ _ _ h
        | brk i s => exact h
        | returned r s => exact h
    · rw [if_neg hi] at h ⊢
      exact h

theorem param_scan_fuel_mono (env : Collaborators) (cmd : clish_command_t)
    (context : clish_context_t) (argv : lub_argv_t) (need_index : Nat) (fuel fuel1 : Nat)
    (hle : fuel ≤ fuel1) (paramv : clish_paramv_t) (index : Nat) (nopt : Option Nat)
    (st : parse_state) (e : scan_exit)
    (h : param_scan env cmd context argv need_index fuel paramv index nopt st = some e) :
    param_scan env cmd context argv need_index fuel1 paramv index nopt st = some e := by
  induction hle with
  | refl => exact h
  | step _ ih => exact param_scan_fuel_succ _ _ _ _ _ _ _ _ _ _ _ ih

/-- The result of the matcher does not depend on the fuel, once it returns. -/
theorem parse_pargv_fuel_mono (env : Collaborators) (cmd : clish_command_t)
    (context : clish_context_t) (paramv : clish_paramv_t) (argv : lub_argv_t) (need_index : Nat)
    (up_level : Bool) (st : parse_state) (fuel fuel1 : Nat) (hle : fuel ≤ fuel1)
    (r : clish_pargv_status_e × parse_state)
    (h : clish_shell_parse_pargv env fuel cmd context paramv argv need_index up_level st = some r) :
    clish_shell_parse_pargv env fuel1 cmd context paramv argv need_index up_level st = some r := by
  unfold clish_shell_parse_pargv at h ⊢
  cases hs : param_scan env cmd context argv need_index fuel paramv 0 none st with
  | none => rw [hs] at h; cases h
  | some e1 =>
    rw [hs] at h
    rw [param_scan_fuel_mono _ _ _ _ _ _ _ hle _ _ _ _ _ hs]
    exact h

/-! ### The args loop joins the remaining tokens -/

theorem intercalate_go_append (acc s : String) (l : List String) :
    String.intercalate.go acc s l = acc ++ String.intercalate.go "" s l := by
  induction l generalizing acc with
  | nil => simp [String.intercalate.go]
  | cons a as ih =>
    simp only [String.intercalate.go]
    rw [ih (acc ++ s ++ a), ih ("" ++ s ++ a)]
    simp [String.append_assoc]

theorem args_loop_eq (rest : List lub_arg_t) (a : lub_arg_t) (args : String) (idx : Nat) :
    args_loop (a :: rest) args idx =
      (String.intercalate.go (args ++ args_item a) " " (rest.map args_item),
        idx + (a :: rest).length) := by
  induction rest generalizing a args idx with
  | nil =>
    cases hq : a.quoted <;> simp [args_loop, args_item, hq, String.intercalate.go, String.append_assoc]
  | cons b rest ih =>
    rw [args_loop]
    simp only [List.isEmpty_cons, Bool.false_eq_true, if_false]
    rw [ih]
    cases hq : a.quoted <;>
      simp [args_item, hq, String.intercalate.go, String.append_assoc, Nat.add_assoc, Nat.add_comm]

theorem args_loop_join (toks : List lub_arg_t) (idx : Nat) (h : toks ≠ []) :
    args_loop toks "" idx = (String.intercalate " " (toks.map args_item), idx + toks.length) := by
  cases toks with
  | nil => exact absurd rfl h
  | cons a rest =>
    rw [args_loop_eq]
    simp [String.intercalate]

/-! ### Computing one iteration -/

theorem iteration_skip (env : Collaborators) (context : clish_context_t) (argv : lub_argv_t)
    (need_index : Nat)
    (nested : clish_paramv_t → parse_state → Option (clish_pargv_status_e × parse_state))
    (paramv : clish_paramv_t) (index : Nat) (nopt : Option Nat) (st : parse_state)
    (param : clish_param_t) (hp : clish_paramv__get_param paramv index = some param)
    (ht : line_test env param (current_context context st) = false) :
    iteration env context argv need_index nested paramv index nopt st =
      some (.next (index + 1) nopt st) := by
  unfold iteration
  rw [hp]
  simp only [ht, Bool.not_false, if_true]

theorem iteration_visit (env : Collaborators) (context : clish_context_t) (argv : lub_argv_t)
    (need_index : Nat)
    (nested : clish_paramv_t → parse_state → Option (clish_pargv_status_e × parse_state))
    (paramv : clish_paramv_t) (index : Nat) (nopt : Option Nat) (st : parse_state)
    (param : clish_param_t) (hp : clish_paramv__get_param paramv index = some param)
    (ht : line_test env param (current_context context st) = true) :
    iteration env context argv need_index nested paramv index nopt st =
      visit env context argv need_index nested param index nopt st := by
  unfold iteration
  rw [hp]
  simp only [ht, Bool.not_true, Bool.false_eq_true, if_false]

theorem visit_unmatched (env : Collaborators) (context : clish_context_t) (argv : lub_argv_t)
    (need_index : Nat)
    (nested : clish_paramv_t → parse_state → Option (clish_pargv_status_e × parse_state))
    (param : clish_param_t) (index : Nat) (nopt : Option Nat) (st : parse_state)
    (hv : validate_current env (current_context context st) st.pargv param (current_arg argv st)
      = none) :
    visit env context argv need_index nested param index nopt st =
      some (unmatched param (current_arg argv st) index
        (if !clish_param__get_optional param then some index else nopt)
        (candidate_capture env context need_index param (current_arg argv st) st)) := by
  unfold visit
  simp only
  have hcp := candidate_capture_pargv env context need_index param (current_arg argv st) st
  have hctx : current_context context
      (candidate_capture env context need_index param (current_arg argv st) st) =
      current_context context st := by
    unfold current_context; rw [hcp.1]
  rw [hctx, hcp.1, hv]

theorem visit_matched (env : Collaborators) (context : clish_context_t) (argv : lub_argv_t)
    (need_index : Nat)
    (nested : clish_paramv_t → parse_state → Option (clish_pargv_status_e × parse_state))
    (param : clish_param_t) (index : Nat) (nopt : Option Nat) (st : parse_state) (v : validation)
    (hv : validate_current env (current_context context st) st.pargv param (current_arg argv st)
      = some v) :
    visit env context argv need_index nested param index nopt st =
      next_argument argv need_index nested param v index
        (if !clish_param__get_optional param then some index else nopt)
        { candidate_capture env context need_index param (current_arg argv st) st with
          pargv := record_param st.pargv param v } := by
  unfold visit
  simp only
  have hcp := candidate_capture_pargv env context need_index param (current_arg argv st) st
  have hctx : current_context context
      (candidate_capture env context need_index param (current_arg argv st) st) =
      current_context context st := by
    unfold current_context; rw [hcp.1]
  rw [hctx, hcp.1, hv]

theorem candidate_capture_none (env : Collaborators) (context : clish_context_t)
    (need_index : Nat) (param : clish_param_t) (arg : Option String) (st : parse_state)
    (h : st.last = none) : candidate_capture env context need_index param arg st = st := by
  unfold candidate_capture
  rw [h]

theorem validate_current_none (env : Collaborators) (context : clish_context_t)
    (pargv : clish_pargv_t) (param : clish_param_t) :
    validate_current env context pargv param none = none := by
  cases h : validate_current env context pargv param none with
  | none => rfl
  | some v => exact absurd rfl (validate_current_arg _ _ _ _ _ _ h)

/-! ### Matching against an exhausted token stream -/

/-- The loop entered with the cursor at or past the token count: it leaves
the store and the cursor alone, and it stops at the first mandatory parameter
from `index` on whose test passes, or runs to the end of the list when there
is none. -/
theorem param_scan_exhausted (env : Collaborators) (cmd : clish_command_t)
    (context : clish_context_t) (argv : lub_argv_t) (need_index : Nat)
    (paramv : clish_paramv_t) (fuel : Nat) :
    ∀ (index : Nat) (nopt : Option Nat) (st : parse_state),
      lub_argv__get_count argv ≤ st.idx → paramv.length - index < fuel →
      ∃ j s, param_scan env cmd context argv need_index fuel paramv index nopt st =
          some (.finished j s) ∧ s.pargv = st.pargv ∧ s.idx = st.idx ∧
          (s.last = none ↔ st.last = none) ∧
        ((j < paramv.length ∧
            (∃ p, clish_paramv__get_param paramv j = some p ∧
              clish_param__get_optional p = false ∧
              line_test env p (current_context context st) = true)) ∨
         (paramv.length ≤ j ∧ index ≤ j ∧
            ∀ k p, index ≤ k → clish_paramv__get_param paramv k = some p →
              ¬ (clish_param__get_optional p = false ∧
                line_test env p (current_context context st) = true))) := by
  induction fuel with
  | zero => intro index nopt st _ h; omega
  | succ fuel ih =>
    intro index nopt st hidx hfuel
    rw [param_scan_succ]
    by_cases hi : index < clish_paramv__get_count paramv
    · rw [if_pos hi]
      obtain ⟨param, hp⟩ := get_param_lt paramv index hi
      unfold clish_paramv__get_count at hi
      cases ht : line_test env param (current_context context st) with
      | false =>
        rw [iteration_skip _ _ _ _ _ _ _ _ _ _ hp ht]
        simp only
        obtain ⟨j, s, hs, h1, h2, h3, h4⟩ := ih (index + 1) nopt st hidx (by omega)
        refine ⟨j, s, hs, h1, h2, h3, ?_⟩
        rcases h4 with h4 | ⟨h4, h5, h6⟩
        · left; exact h4
        · right
          refine ⟨h4, by omega, ?_⟩
          intro k p hk hkp
          by_cases hke : k = index
          · subst hke
            rw [hp] at hkp
            cases hkp
            rw [ht]; simp
          · exact h6 k p (by omega) hkp
      | true =>
        rw [iteration_visit _ _ _ _ _ _ _ _ _ _ hp ht]
        have hnone : current_arg argv st = none := current_arg_none argv st hidx
        have hcp := candidate_capture_pargv env context need_index param (current_arg argv st) st
        have hlast : (candidate_capture env context need_index param (current_arg argv st) st).last
            = none ↔ st.last = none := by
          unfold candidate_capture
          cases hl : st.last with
          | none => simp [hl]
          | some l => simp only; split_ifs <;> simp [hl]
        rw [visit_unmatched _ _ _ _ _ _ _ _ _ (by rw [hnone]; exact validate_current_none _ _ _ _)]
        cases ho : clish_param__get_optional param with
        | true =>
          simp only [unmatched, ho, if_true]
          have hidx1 : lub_argv__get_count argv ≤
              (candidate_capture env context need_index param (current_arg argv st) st).idx := by
            rw [hcp.2]; exact hidx
          obtain ⟨j, s, hs, h1, h2, h3, h4⟩ := ih (index + 1) (if (!true) = true then some index else nopt)
            (candidate_capture env context need_index param (current_arg argv st) st) hidx1
            (by omega)
          have hctx : current_context context
              (candidate_capture env context need_index param (current_arg argv st) st) =
              current_context context st := by
            unfold current_context; rw [hcp.1]
          rw [hctx] at h4
          refine ⟨j, s, hs, h1.trans hcp.1, h2.trans hcp.2, h3.trans hlast, ?_⟩
          rcases h4 with h4 | ⟨h4, h5, h6⟩
          · left; exact h4
          · right
            refine ⟨h4, by omega, ?_⟩
            intro k p hk hkp
            by_cases hke : k = index
            · subst hke
              rw [hp] at hkp
              cases hkp
              rw [ho]; simp
            · exact h6 k p (by omega) hkp
        | false =>
          have hun : unmatched param (current_arg argv st) index
              (if (!false) = true then some index else nopt)
              (candidate_capture env context need_index param (current_arg argv st) st) =
              .brk index
                (candidate_capture env context need_index param (current_arg argv st) st) := by
            simp only [unmatched, ho, Bool.false_eq_true, if_false]
            rw [if_pos (by rw [hnone]; rfl)]
          rw [hun]
          exact ⟨index, _, rfl, hcp.1, hcp.2, hlast, Or.inl ⟨hi, param, hp, ho, ht⟩⟩
    · rw [if_neg hi]
      unfold clish_paramv__get_count at hi
      refine ⟨index, st, rfl, rfl, rfl, Iff.rfl, Or.inr ⟨by omega, le_refl _, ?_⟩⟩
      intro k p hk hkp
      have := get_param_mem paramv k p hkp
      unfold clish_paramv__get_param at hkp
      have hlt : k < paramv.length := by
        by_contra hc
        rw [List.get?_eq_none.mpr (by omega)] at hkp
        cases hkp
      omega

/-! ## C4: result of the value validator -/

/-- C4: for a parameter with a type, `clish_shell_param_validate` returns the
static validator's result unchanged when the method is not CODE; for CODE it
runs the action on the synthetic store holding ("value", text) and returns
rejection when the return code is non-zero (whatever the output), the output
when the return code is zero and the output is non-empty, and the candidate
text itself when the return code is zero and the output is empty or absent. -/
theorem param_validate_result (env : Collaborators) (param : clish_param_t) (text : String)
    (context : clish_context_t) (ptype : clish_ptype_t)
    (hptype : clish_param__get_ptype param = some ptype) :
    (ptype.method ≠ .CLISH_PTYPE_METHOD_CODE →
      clish_shell_param_validate env param text context = env.clish_param_validate param text) ∧
    (ptype.method = .CLISH_PTYPE_METHOD_CODE →
      ∀ (retval : Int) (out : Option String),
        env.clish_shell_exec_action
          (clish_context__set_pargv (clish_context__set_action context ptype.action)
            [⟨clish_param_new "value" (some ptype), some text⟩]) = (retval, out) →
        (retval ≠ 0 → clish_shell_param_validate env param text context = none) ∧
        (retval = 0 → ∀ o, out = some o → o ≠ "" →
          clish_shell_param_validate env param text context = some o) ∧
        (retval = 0 → (out = none ∨ out = some "") →
          clish_shell_param_validate env param text context = some text)) := by
  constructor
  · intro hm
    simp [clish_shell_param_validate, hptype, hm]
  · intro hm retval out hexec
    have hexec1 : env.clish_shell_exec_action
        (clish_context__set_pargv (clish_context__set_action context ptype.action)
          (clish_pargv_insert clish_pargv_new (clish_param_new "value" (some ptype)) (some text)))
        = (retval, out) := hexec
    refine ⟨?_, ?_, ?_⟩
    · intro hr
      simp [clish_shell_param_validate, hptype, hm, hexec1, hr]
    · intro hr o ho hne
      simp [clish_shell_param_validate, hptype, hm, hexec1, hr, ho, hne]
    · intro hr ho
      rcases ho with ho | ho <;> simp [clish_shell_param_validate, hptype, hm, hexec1, hr, ho]

/-- C4 at sample inputs: a static parameter on "42"; a CODE parameter on
"bad" (return code 1), on "42" (output "forty-two") and on "7" (empty
output). -/
theorem param_validate_result_witness :
    clish_param__get_ptype sample_P = some static_ptype ∧
    clish_param__get_ptype sample_C = some code_ptype ∧
    clish_shell_param_validate sample_env sample_P "42" sample_context = some "42" ∧
    clish_shell_param_validate sample_env sample_C "bad" sample_context = none ∧
    clish_shell_param_validate sample_env sample_C "42" sample_context = some "forty-two" ∧
    clish_shell_param_validate sample_env sample_C "7" sample_context = some "7" :=
  ⟨rfl, rfl,
    ((param_validate_result sample_env sample_P "42" sample_context static_ptype rfl).1
      (by decide)).trans (by decide),
    ((param_validate_result sample_env sample_C "bad" sample_context code_ptype rfl).2 rfl
      1 (some "ignored") (by decide)).1 (by decide),
    ((param_validate_result sample_env sample_C "42" sample_context code_ptype rfl).2 rfl
      0 (some "forty-two") (by decide)).2.1 rfl "forty-two" rfl (by decide),
    ((param_validate_result sample_env sample_C "7" sample_context code_ptype rfl).2 rfl
      0 (some "") (by decide)).2.2 rfl (Or.inr rfl)⟩

theorem validate_current_plain (env : Collaborators) (context : clish_context_t)
    (pargv : clish_pargv_t) (param : clish_param_t) (a : String)
    (hnew : in_pargv pargv (clish_param__get_name param) = false)
    (hmode : clish_param__get_mode param ≠ .CLISH_PARAM_SWITCH) :
    validate_current env context pargv param (some a) =
      (clish_shell_param_validate env param a context).map
        (fun validated => ⟨validated, none, clish_param__get_paramv param⟩) := by
  unfold validate_current
  unfold in_pargv at hnew
  rw [if_neg (by rw [hnew]; simp), if_neg hmode]
  rfl

theorem any_mandatory_drop (paramv : clish_paramv_t) (j : Nat) (p : clish_param_t)
    (hp : clish_paramv__get_param paramv j = some p) (ho : clish_param__get_optional p = false) :
    (paramv.drop j).any (fun q => !clish_param__get_optional q) = true := by
  unfold clish_paramv__get_param at hp
  have hmem : p ∈ paramv.drop j := by
    apply List.getElem?_mem (n := 0)
    rw [List.getElem?_drop, ← List.get?_eq_getElem?]
    exact hp
  rw [List.any_eq_true]
  exact ⟨p, hmem, by rw [ho]; rfl⟩

/-! ## C7: exhausted input -/

/-- C7: when the matcher is entered for a sibling list with the cursor at or
past the token count, it returns; the status is PARTIAL exactly when the list
contains a mandatory parameter whose applicability test passes, and OK
exactly when it contains none; the authoritative store and the cursor are as
on entry. -/
theorem exhausted_input (env : Collaborators) (cmd : clish_command_t) (context : clish_context_t)
    (paramv : clish_paramv_t) (argv : lub_argv_t) (need_index : Nat) (up_level : Bool)
    (st : parse_state) (fuel : Nat) (hidx : lub_argv__get_count argv ≤ st.idx)
    (hfuel : paramv.length < fuel) :
    ∃ status st1,
      clish_shell_parse_pargv env fuel cmd context paramv argv need_index up_level st =
        some (status, st1) ∧
      st1.pargv = st.pargv ∧ st1.idx = st.idx ∧
      (status = .CLISH_LINE_PARTIAL ↔
        ∃ p ∈ paramv, clish_param__get_optional p = false ∧
          line_test env p (current_context context st) = true) ∧
      (status = .CLISH_LINE_OK ↔
        ¬ ∃ p ∈ paramv, clish_param__get_optional p = false ∧
          line_test env p (current_context context st) = true) := by
  obtain ⟨j, s, hs, h1, h2, _, h4⟩ :=
    param_scan_exhausted env cmd context argv need_index paramv fuel 0 none st hidx (by omega)
  unfold clish_shell_parse_pargv
  rw [hs]
  simp only [Option.map_some', post_loop]
  rcases h4 with ⟨hj, p, hp, ho, ht⟩ | ⟨hj, _, hall⟩
  · have hex : ∃ p ∈ paramv, clish_param__get_optional p = false ∧
        line_test env p (current_context context st) = true :=
      ⟨p, get_param_mem _ _ _ hp, ho, ht⟩
    rw [if_pos ⟨by rw [h2]; exact hidx, hj, any_mandatory_drop paramv j p hp ho⟩]
    exact ⟨_, _, rfl, h1, h2, by simp [hex], by simp [hex]⟩
  · have hnex : ¬ ∃ p ∈ paramv, clish_param__get_optional p = false ∧
        line_test env p (current_context context st) = true := by
      rintro ⟨p, hp, hpo⟩
      obtain ⟨k, hk⟩ := List.mem_iff_get?.mp hp
      exact hall k p (Nat.zero_le _) hk hpo
    have hca := args_candidate_pargv cmd argv up_level paramv j s
    rw [if_neg (by unfold clish_paramv__get_count; omega)]
    rw [if_neg (by rw [hca.2, h2]; omega)]
    exact ⟨_, _, rfl, hca.1.trans h1, hca.2.trans h2, by simp [hnex], by simp [hnex]⟩

/-- C7 at the sample grammar: "O" optional and "P" mandatory, line "cmd",
cursor 1. -/
theorem exhausted_input_witness :
    lub_argv__get_count (plain_argv ["cmd"]) ≤ (parse_state.mk [] 1 none).idx ∧
    ∃ status st1,
      clish_shell_parse_pargv sample_env 3 cmd_OP sample_context [sample_O, sample_P]
        (plain_argv ["cmd"]) 0 true ⟨[], 1, none⟩ = some (status, st1) ∧
      st1.pargv = [] ∧ st1.idx = 1 ∧
      (status = .CLISH_LINE_PARTIAL ↔
        ∃ p ∈ [sample_O, sample_P], clish_param__get_optional p = false ∧
          line_test sample_env p (current_context sample_context ⟨[], 1, none⟩) = true) ∧
      (status = .CLISH_LINE_OK ↔
        ¬ ∃ p ∈ [sample_O, sample_P], clish_param__get_optional p = false ∧
          line_test sample_env p (current_context sample_context ⟨[], 1, none⟩) = true) :=
  ⟨by decide,
    exhausted_input sample_env cmd_OP sample_context [sample_O, sample_P] (plain_argv ["cmd"]) 0
      true ⟨[], 1, none⟩ 3 (by decide) (by decide)⟩

/-! ## C1: a command with one mandatory parameter -/

/-- C5 (amended): for an optional, unordered ORDINARY parameter `O` and a
mandatory ORDINARY parameter `M` (distinct names, no nested parameters,
passing tests), a token `o` accepted by `O` only and a token `m` accepted by
`M` only, parsed as the orchestrator does.  The line that gives the tokens in
the declared order of the parameters returns OK with the two entries.  The
other line does not: with `O` declared first, "cmd m o" records `M` alone and
leaves `o` over, which is BAD_CMD when the command has no args parameter and
otherwise OK with `o` folded into the args parameter; with `M` declared
first, "cmd o m" returns BAD_PARAM. -/
theorem optional_against_mandatory (env : Collaborators) (cmd1 cmd2 : clish_command_t)
    (context : clish_context_t) (O M : clish_param_t) (c o m : lub_arg_t) (xo xm : String)
    (fuel : Nat)
    (hcmd1 : clish_command__get_paramv cmd1 = [O, M])
    (hcmd2 : clish_command__get_paramv cmd2 = [M, O])
    (hOmode : clish_param__get_mode O = .CLISH_PARAM_COMMON)
    (hMmode : clish_param__get_mode M = .CLISH_PARAM_COMMON)
    (hOopt : clish_param__get_optional O = true)
    (hOord : clish_param__get_order O = false)
    (hMopt : clish_param__get_optional M = false)
    (hOkids : clish_param__get_paramv O = [])
    (hMkids : clish_param__get_paramv M = [])
    (hname : clish_param__get_name O ≠ clish_param__get_name M)
    (hOtest : ∀ ctx, line_test env O ctx = true)
    (hMtest : ∀ ctx, line_test env M ctx = true)
    (hOo : ∀ ctx, clish_shell_param_validate env O o.arg ctx = some xo)
    (hOm : ∀ ctx, clish_shell_param_validate env O m.arg ctx = none)
    (hMm : ∀ ctx, clish_shell_param_validate env M m.arg ctx = some xm)
    (hMo : ∀ ctx, clish_shell_param_validate env M o.arg ctx = none)
    (hfuel : 5 ≤ fuel) :
    clish_shell_parse_pargv env fuel cmd1 context (clish_command__get_paramv cmd1) [c, o, m] 0
        true ⟨[], 1, none⟩ =
      some (.CLISH_LINE_OK, ⟨[⟨O, some xo⟩, ⟨M, some xm⟩], 3, none⟩) ∧
    (clish_command__get_args cmd1 = none →
      clish_shell_parse_pargv env fuel cmd1 context (clish_command__get_paramv cmd1) [c, m, o] 0
          true ⟨[], 1, none⟩ =
        some (.CLISH_BAD_CMD, ⟨[⟨M, some xm⟩], 2, none⟩)) ∧
    (∀ A, clish_command__get_args cmd1 = some A →
      clish_shell_parse_pargv env fuel cmd1 context (clish_command__get_paramv cmd1) [c, m, o] 0
          true ⟨[], 1, none⟩ =
        some (.CLISH_LINE_OK,
          ⟨clish_pargv_insert [⟨M, some xm⟩] A (some (args_item o)), 3, none⟩)) ∧
    clish_shell_parse_pargv env fuel cmd2 context (clish_command__get_paramv cmd2) [c, m, o] 0
        true ⟨[], 1, none⟩ =
      some (.CLISH_LINE_OK, ⟨[⟨M, some xm⟩, ⟨O, some xo⟩], 3, none⟩) ∧
    clish_shell_parse_pargv env fuel cmd2 context (clish_command__get_paramv cmd2) [c, o, m] 0
        true ⟨[], 1, none⟩ =
      some (.CLISH_BAD_PARAM, ⟨[], 1, none⟩) := by
  have hname2 : clish_param__get_name M ≠ clish_param__get_name O := fun h => hname h.symm
  rw [hcmd1, hcmd2]
  refine ⟨?_, ?_, ?_, ?_, ?_⟩
  · apply parse_pargv_fuel_mono _ _ _ _ _ _ _ _ 5 fuel hfuel
    simp [clish_shell_parse_pargv, param_scan, iteration, visit, next_argument, choose_next,
      unmatched, candidate_capture, validate_current, record_param, clish_pargv_insert,
      clish_pargv_find_arg, current_arg, current_context, lub_argv__get_count,
      lub_argv__get_arg, clish_paramv__get_param, clish_paramv__get_count, post_loop,
      args_candidate, hOmode, hMmode, hOopt, hOord, hMopt, hOkids, hMkids, hname, hname2,
      hOtest, hMtest, hOo, hOm, hMm, hMo]
  · intro hargs
    apply parse_pargv_fuel_mono _ _ _ _ _ _ _ _ 5 fuel hfuel
    simp [clish_shell_parse_pargv, param_scan, iteration, visit, next_argument, choose_next,
      unmatched, candidate_capture, validate_current, record_param, clish_pargv_insert,
      clish_pargv_find_arg, current_arg, current_context, lub_argv__get_count,
      lub_argv__get_arg, clish_paramv__get_param, clish_paramv__get_count, post_loop,
      args_candidate, hOmode, hMmode, hOopt, hOord, hMopt, hOkids, hMkids, hname, hname2,
      hOtest, hMtest, hOo, hOm, hMm, hMo, hargs]
  · intro A hargs
    apply parse_pargv_fuel_mono _ _ _ _ _ _ _ _ 5 fuel hfuel
    cases hq : o.quoted <;>
    simp [clish_shell_parse_pargv, param_scan, iteration, visit, next_argument, choose_next,
      unmatched, candidate_capture, validate_current, record_param, clish_pargv_insert,
      clish_pargv_find_arg, current_arg, current_context, lub_argv__get_count,
      lub_argv__get_arg, clish_paramv__get_param, clish_paramv__get_count, post_loop,
      args_candidate, args_fold, args_loop, args_item, hOmode, hMmode, hOopt, hOord, hMopt,
      hOkids, hMkids, hname, hname2, hOtest, hMtest, hOo, hOm, hMm, hMo, hargs, hq]
  · apply parse_pargv_fuel_mono _ _ _ _ _ _ _ _ 5 fuel hfuel
    simp [clish_shell_parse_pargv, param_scan, iteration, visit, next_argument, choose_next,
      unmatched, candidate_capture, validate_current, record_param, clish_pargv_insert,
      clish_pargv_find_arg, current_arg, current_context, lub_argv__get_count,
      lub_argv__get_arg, clish_paramv__get_param, clish_paramv__get_count, post_loop,
      args_candidate, hOmode, hMmode, hOopt, hOord, hMopt, hOkids, hMkids, hname, hname2,
      hOtest, hMtest, hOo, hOm, hMm, hMo]
  · apply parse_pargv_fuel_mono _ _ _ _ _ _ _ _ 5 fuel hfuel
    simp [clish_shell_parse_pargv, param_scan, iteration, visit, next_argument, choose_next,
      unmatched, candidate_capture, validate_current, record_param, clish_pargv_insert,
      clish_pargv_find_arg, current_arg, current_context, lub_argv__get_count,
      lub_argv__get_arg, clish_paramv__get_param, clish_paramv__get_count, post_loop,
      args_candidate, hOmode, hMmode, hOopt, hOord, hMopt, hOkids, hMkids, hname, hname2,
      hOtest, hMtest, hOo, hOm, hMm, hMo]

/-- C5 fails as stated: "O" optional and unordered, "P" mandatory, "abc"
accepted by "O" only and "42" by "P" only.  With "O" declared first, the line
"cmd abc 42" returns OK with both entries but "cmd 42 abc" returns BAD_CMD
with "P" alone; with "P" declared first, "cmd abc 42" returns BAD_PARAM. -/
theorem order_independence_counterexample :
    clish_shell_param_validate sample_env sample_O "abc" sample_context = some "abc" ∧
    clish_shell_param_validate sample_env sample_O "42" sample_context = none ∧
    clish_shell_param_validate sample_env sample_P "42" sample_context = some "42" ∧
    clish_shell_param_validate sample_env sample_P "abc" sample_context = none ∧
    result_view (clish_shell_parse_pargv sample_env (parse_fuel [sample_O, sample_P]) cmd_OP
        sample_context (clish_command__get_paramv cmd_OP) (plain_argv ["cmd", "abc", "42"]) 0
        true ⟨[], 1, none⟩) =
      some (.CLISH_LINE_OK, 3, [("O", some "abc"), ("P", some "42")]) ∧
    result_view (clish_shell_parse_pargv sample_env (parse_fuel [sample_O, sample_P]) cmd_OP
        sample_context (clish_command__get_paramv cmd_OP) (plain_argv ["cmd", "42", "abc"]) 0
        true ⟨[], 1, none⟩) =
      some (.CLISH_BAD_CMD, 2, [("P", some "42")]) ∧
    result_view (clish_shell_parse_pargv sample_env (parse_fuel [sample_P, sample_O]) cmd_PO
        sample_context (clish_command__get_paramv cmd_PO) (plain_argv ["cmd", "abc", "42"]) 0
        true ⟨[], 1, none⟩) =
      some (.CLISH_BAD_PARAM, 1, []) :=
  ⟨by decide, by decide, by decide, by decide, by decide, by decide, by decide⟩

/-- C5 (amended) at the sample grammar. -/
theorem optional_against_mandatory_witness :
    clish_shell_parse_pargv sample_env 11 cmd_OP sample_context
        (clish_command__get_paramv cmd_OP) [⟨"cmd", false⟩, ⟨"abc", false⟩, ⟨"42", false⟩] 0
        true ⟨[], 1, none⟩ =
      some (.CLISH_LINE_OK, ⟨[⟨sample_O, some "abc"⟩, ⟨sample_P, some "42"⟩], 3, none⟩) ∧
    clish_shell_parse_pargv sample_env 11 cmd_OP sample_context
        (clish_command__get_paramv cmd_OP) [⟨"cmd", false⟩, ⟨"42", false⟩, ⟨"abc", false⟩] 0
        true ⟨[], 1, none⟩ =
      some (.CLISH_BAD_CMD, ⟨[⟨sample_P, some "42"⟩], 2, none⟩) ∧
    clish_shell_parse_pargv sample_env 11 cmd_PO sample_context
        (clish_command__get_paramv cmd_PO) [⟨"cmd", false⟩, ⟨"42", false⟩, ⟨"abc", false⟩] 0
        true ⟨[], 1, none⟩ =
      some (.CLISH_LINE_OK, ⟨[⟨sample_P, some "42"⟩, ⟨sample_O, some "abc"⟩], 3, none⟩) ∧
    clish_shell_parse_pargv sample_env 11 cmd_PO sample_context
        (clish_command__get_paramv cmd_PO) [⟨"cmd", false⟩, ⟨"abc", false⟩, ⟨"42", false⟩] 0
        true ⟨[], 1, none⟩ =
      some (.CLISH_BAD_PARAM, ⟨[], 1, none⟩) :=
  have h := optional_against_mandatory sample_env cmd_OP cmd_PO sample_context sample_O sample_P
    ⟨"cmd", false⟩ ⟨"abc", false⟩ ⟨"42", false⟩ "abc" "42" 11 rfl rfl rfl rfl rfl rfl rfl rfl rfl
    (by decide) (fun _ => rfl) (fun _ => rfl) (fun _ => rfl) (fun _ => rfl) (fun _ => rfl)
    (fun _ => rfl) (by decide)
  ⟨h.1, h.2.1 rfl, h.2.2.2.1, h.2.2.2.2⟩

/-! ## C2: the args fold -/

/-- C2: for a top-level matcher call whose sibling scan ends with every
sibling exhausted (`index` at or past the parameter count) and the cursor `c`
below the token count `n`, when the command defines an args parameter `A`:
the status is OK, the final cursor is `n`, and the store holds for `A` the
items `args_item t_c, ..., args_item t_(n-1)` joined with single spaces,
where `args_item t` is the escaped text of `t`, wrapped in double quotes
exactly when `t` was quoted. -/
theorem args_fold_value (env : Collaborators) (cmd : clish_command_t) (context : clish_context_t)
    (paramv : clish_paramv_t) (argv : lub_argv_t) (need_index : Nat) (fuel : Nat)
    (st0 st : parse_state) (index : Nat) (A : clish_param_t)
    (hscan : param_scan env cmd context argv need_index fuel paramv 0 none st0 =
      some (.finished index st))
    (hindex : clish_paramv__get_count paramv ≤ index)
    (hcursor : st.idx < lub_argv__get_count argv)
    (hargs : clish_command__get_args cmd = some A) :
    ∃ st1,
      clish_shell_parse_pargv env fuel cmd context paramv argv need_index true st0 =
        some (.CLISH_LINE_OK, st1) ∧
      st1.idx = lub_argv__get_count argv ∧
      pargv_value st1.pargv (clish_param__get_name A) =
        some (some (String.intercalate " " ((argv.drop st.idx).map args_item))) := by
  have hca := args_candidate_pargv cmd argv true paramv index st
  have hne : argv.drop st.idx ≠ [] := by
    intro h
    have := congrArg List.length h
    simp only [List.length_drop, List.length_nil] at this
    unfold lub_argv__get_count at hcursor
    omega
  unfold clish_shell_parse_pargv
  rw [hscan]
  simp only [Option.map_some', post_loop]
  rw [if_neg (by omega), if_pos ⟨trivial, by rw [hca.2]; exact hcursor, hindex⟩, hargs]
  refine ⟨_, rfl, ?_, ?_⟩
  · simp only [args_fold, hca.2]
    rw [args_loop_join _ _ hne]
    simp only [List.length_drop]
    unfold lub_argv__get_count at hcursor ⊢
    omega
  · simp only [args_fold, hca.2]
    rw [args_loop_join _ _ hne, find_arg_insert_self]

/-- C2 at the sample grammar: "P" and "Q" take "1" and "2"; the words `x`,
`"y z"` (quoted) and `w` are folded into "args". -/
theorem args_fold_value_witness :
    param_scan sample_env cmd_PQ_args sample_context
        [⟨"cmd", false⟩, ⟨"1", false⟩, ⟨"2", false⟩, ⟨"x", false⟩, ⟨"y z", true⟩, ⟨"w", false⟩]
        0 11 [sample_P, sample_Q] 0 none ⟨[], 1, none⟩ =
      some (.finished 2 ⟨[⟨sample_P, some "1"⟩, ⟨sample_Q, some "2"⟩], 3, none⟩) ∧
    (∃ st1,
      clish_shell_parse_pargv sample_env 11 cmd_PQ_args sample_context [sample_P, sample_Q]
          [⟨"cmd", false⟩, ⟨"1", false⟩, ⟨"2", false⟩, ⟨"x", false⟩, ⟨"y z", true⟩, ⟨"w", false⟩]
          0 true ⟨[], 1, none⟩ = some (.CLISH_LINE_OK, st1) ∧
      st1.idx = 6 ∧
      pargv_value st1.pargv "args" =
        some (some (String.intercalate " "
          (List.map args_item [⟨"x", false⟩, ⟨"y z", true⟩, ⟨"w", false⟩])))) ∧
    String.intercalate " " (List.map args_item [⟨"x", false⟩, ⟨"y z", true⟩, ⟨"w", false⟩]) =
      "x " ++ String.singleton (Char.ofNat 34) ++ "y z" ++ String.singleton (Char.ofNat 34) ++
        " w" :=
  ⟨rfl,
    args_fold_value sample_env cmd_PQ_args sample_context [sample_P, sample_Q]
      [⟨"cmd", false⟩, ⟨"1", false⟩, ⟨"2", false⟩, ⟨"x", false⟩, ⟨"y z", true⟩, ⟨"w", false⟩]
      0 11 ⟨[], 1, none⟩ ⟨[⟨sample_P, some "1"⟩, ⟨sample_Q, some "2"⟩], 3, none⟩ 2 sample_args
      rfl (by decide) (by decide) rfl,
    by decide⟩

/-! ## C3: SWITCH matching -/

theorem switch_validate_first (env : Collaborators) (context : clish_context_t) (t : String)
    (pre : List clish_param_t) (A : clish_param_t) (post : List clish_param_t) (x : String)
    (hpre : ∀ B ∈ pre, line_test env B context = false ∨
      clish_shell_param_validate env B t context = none)
    (hA : line_test env A context = true)
    (hx : clish_shell_param_validate env A t context = some x) :
    switch_validate env context (some t) (pre ++ A :: post) =
      some ⟨x, some A, clish_param__get_paramv A⟩ := by
  induction pre with
  | nil =>
    simp only [List.nil_append, switch_validate, hA, Bool.not_true, Bool.false_eq_true, if_false,
      Option.bind, hx]
  | cons B rest ih =>
    have hrest := ih (fun C hC => hpre C (List.mem_cons_of_mem _ hC))
    simp only [List.cons_append, switch_validate]
    rcases hpre B (List.mem_cons_self _ _) with hB | hB
    · simp only [hB, Bool.not_false, if_true]
      exact hrest
    · cases hBt : line_test env B context with
      | false => simp only [Bool.not_false, if_true]; exact hrest
      | true =>
        simp only [Bool.not_true, Bool.false_eq_true, if_false, Option.bind, hB]
        exact hrest

theorem switch_validate_reject (env : Collaborators) (context : clish_context_t) (t : String)
    (l : List clish_param_t)
    (hall : ∀ B ∈ l, line_test env B context = false ∨
      clish_shell_param_validate env B t context = none) :
    switch_validate env context (some t) l = none := by
  induction l with
  | nil => rfl
  | cons B rest ih =>
    have hrest := ih (fun C hC => hall C (List.mem_cons_of_mem _ hC))
    simp only [switch_validate]
    rcases hall B (List.mem_cons_self _ _) with hB | hB
    · simp only [hB, Bool.not_false, if_true]
      exact hrest
    · cases hBt : line_test env B context with
      | false => simp only [Bool.not_false, if_true]; exact hrest
      | true =>
        simp only [Bool.not_true, Bool.false_eq_true, if_false, Option.bind, hB]
        exact hrest

/-- C3: the loop visits a SWITCH parameter `S` that has no entry in the store,
whose test passes, with a token `t` at the cursor.  If `A` is the first
alternative, in declared order, whose test passes and which validates `t`,
with value `x`, the iteration goes on (cursor, nested parameters of `A`,
next sibling) from the store obtained by inserting `(S, name of A)` and then
`(A, x)`: the store then holds `x` for `A`, the name of `A` for `S` (names
distinct), and what it held before for every other name, whatever the later
alternatives are.  If no alternative with a passing test validates `t`, the
iteration ends as an unmatched parameter with the store unchanged. -/
theorem switch_matching (env : Collaborators) (context : clish_context_t) (argv : lub_argv_t)
    (need_index : Nat)
    (nested : clish_paramv_t → parse_state → Option (clish_pargv_status_e × parse_state))
    (paramv : clish_paramv_t) (index : Nat) (nopt : Option Nat) (st : parse_state)
    (S : clish_param_t) (t : String)
    (hS : clish_paramv__get_param paramv index = some S)
    (hmode : clish_param__get_mode S = .CLISH_PARAM_SWITCH)
    (hnew : in_pargv st.pargv (clish_param__get_name S) = false)
    (htest : line_test env S (current_context context st) = true)
    (harg : current_arg argv st = some t) :
    (∀ (pre : List clish_param_t) (A : clish_param_t) (post : List clish_param_t) (x : String),
      clish_param__get_paramv S = pre ++ A :: post →
      (∀ B ∈ pre, line_test env B (current_context context st) = false ∨
        clish_shell_param_validate env B t (current_context context st) = none) →
      line_test env A (current_context context st) = true →
      clish_shell_param_validate env A t (current_context context st) = some x →
      iteration env context argv need_index nested paramv index nopt st =
        next_argument argv need_index nested S ⟨x, some A, clish_param__get_paramv A⟩ index
          (if !clish_param__get_optional S then some index else nopt)
          { candidate_capture env context need_index S (some t) st with
            pargv := clish_pargv_insert
              (clish_pargv_insert st.pargv S (some (clish_param__get_name A))) A (some x) } ∧
      pargv_value (clish_pargv_insert
          (clish_pargv_insert st.pargv S (some (clish_param__get_name A))) A (some x))
          (clish_param__get_name A) = some (some x) ∧
      (clish_param__get_name A ≠ clish_param__get_name S →
        pargv_value (clish_pargv_insert
            (clish_pargv_insert st.pargv S (some (clish_param__get_name A))) A (some x))
            (clish_param__get_name S) = some (some (clish_param__get_name A))) ∧
      (∀ name, name ≠ clish_param__get_name S → name ≠ clish_param__get_name A →
        pargv_value (clish_pargv_insert
            (clish_pargv_insert st.pargv S (some (clish_param__get_name A))) A (some x)) name =
          pargv_value st.pargv name)) ∧
    ((∀ B ∈ clish_param__get_paramv S, line_test env B (current_context context st) = false ∨
        clish_shell_param_validate env B t (current_context context st) = none) →
      iteration env context argv need_index nested paramv index nopt st =
        some (unmatched S (some t) index
          (if !clish_param__get_optional S then some index else nopt)
          (candidate_capture env context need_index S (some t) st)) ∧
      (candidate_capture env context need_index S (some t) st).pargv = st.pargv) := by
  have hfind : ¬ (clish_pargv_find_arg st.pargv (clish_param__get_name S)).isSome = true := by
    unfold in_pargv at hnew; rw [hnew]; simp
  constructor
  · intro pre A post x hsplit hpre hA hx
    have hv : validate_current env (current_context context st) st.pargv S (current_arg argv st)
        = some ⟨x, some A, clish_param__get_paramv A⟩ := by
      unfold validate_current
      rw [if_neg hfind, if_pos hmode, harg, hsplit]
      exact switch_validate_first env _ t pre A post x hpre hA hx
    refine ⟨?_, ?_, ?_, ?_⟩
    · rw [iteration_visit _ _ _ _ _ _ _ _ _ _ hS htest, visit_matched _ _ _ _ _ _ _ _ _ _ hv,
        harg]
      rfl
    · exact find_arg_insert_self _ _ _
    · intro hne
      rw [find_arg_insert_other _ _ _ _ hne, find_arg_insert_self]
    · intro name h1 h2
      rw [find_arg_insert_other _ _ _ _ (Ne.symm h2), find_arg_insert_other _ _ _ _ (Ne.symm h1)]
  · intro hall
    have hv : validate_current env (current_context context st) st.pargv S (current_arg argv st)
        = none := by
      unfold validate_current
      rw [if_neg hfind, if_pos hmode, harg]
      exact switch_validate_reject env _ t _ hall
    refine ⟨?_, (candidate_capture_pargv _ _ _ _ _ _).1⟩
    rw [iteration_visit _ _ _ _ _ _ _ _ _ _ hS htest, visit_unmatched _ _ _ _ _ _ _ _ _ hv, harg]

/-- C3 at the sample grammar: SWITCH "S" with SUBCOMMAND alternatives "A"
("start") and "B" ("stop"), line "cmd sta": the validator accepts "sta" for
"A" with value "start"; the parse returns OK with "S" and "A" recorded. -/
theorem switch_matching_witness :
    clish_shell_param_validate sample_env sample_A "sta"
        (current_context sample_context ⟨[], 1, none⟩) = some "start" ∧
    iteration sample_env sample_context (plain_argv ["cmd", "sta"]) 0 (fun _ _ => none)
        [sample_S] 0 none ⟨[], 1, none⟩ =
      next_argument (plain_argv ["cmd", "sta"]) 0 (fun _ _ => none) sample_S
        ⟨"start", some sample_A, clish_param__get_paramv sample_A⟩ 0
        (if !clish_param__get_optional sample_S then some 0 else none)
        { candidate_capture sample_env sample_context 0 sample_S (some "sta") ⟨[], 1, none⟩ with
          pargv := clish_pargv_insert
            (clish_pargv_insert [] sample_S (some (clish_param__get_name sample_A))) sample_A
            (some "start") } ∧
    result_view (clish_shell_parse_pargv sample_env (parse_fuel [sample_S]) cmd_S sample_context
        (clish_command__get_paramv cmd_S) (plain_argv ["cmd", "sta"]) 0 true ⟨[], 1, none⟩) =
      some (.CLISH_LINE_OK, 2, [("S", some "A"), ("A", some "start")]) :=
  ⟨by decide,
    ((switch_matching sample_env sample_context (plain_argv ["cmd", "sta"]) 0 (fun _ _ => none)
      [sample_S] 0 none ⟨[], 1, none⟩ sample_S "sta" rfl rfl rfl rfl rfl).1
      [] sample_A [sample_B] "start" rfl (fun _ h => by cases h) rfl (by decide)).1,
    by decide⟩

/-! ### Statuses a `return` inside the loop can carry -/

theorem post_loop_nested_status (cmd : clish_command_t) (argv : lub_argv_t) (pv : clish_paramv_t)
    (i : Nat) (s : parse_state) :
    (post_loop cmd argv false pv (.finished i s)).1 = .CLISH_LINE_PARTIAL ∨
    (post_loop cmd argv false pv (.finished i s)).1 = .CLISH_LINE_OK := by
  simp only [post_loop, args_candidate_nested]
  split_ifs
  · left; rfl
  · simp_all
  · right; rfl

theorem choose_next_is_next (param : clish_param_t) (index : Nat) (nopt : Option Nat)
    (st : parse_state) : ∃ i n, choose_next param index nopt st = .next i n st := by
  unfold choose_next
  split_ifs
  · split
    · exact ⟨_, _, rfl⟩
    · exact ⟨_, _, rfl⟩
  · exact ⟨_, _, rfl⟩

theorem iteration_returned (env : Collaborators) (context : clish_context_t) (argv : lub_argv_t)
    (need_index : Nat)
    (nested : clish_paramv_t → parse_state → Option (clish_pargv_status_e × parse_state))
    (paramv : clish_paramv_t) (index : Nat) (nopt : Option Nat) (st : parse_state)
    (r : clish_pargv_status_e) (s : parse_state)
    (h : iteration env context argv need_index nested paramv index nopt st = some (.returned r s)) :
    r = .CLISH_BAD_PARAM ∨
    (r ≠ .CLISH_LINE_OK ∧ ∃ pv s0, nested pv s0 = some (r, s)) := by
  rcases iteration_cases _ _ _ _ _ _ _ _ _ _ h with ⟨_, hout⟩ | ⟨param, hp, ⟨_, hout⟩ | ⟨_, hv⟩⟩
  · cases hout; left; rfl
  · cases hout
  · rcases visit_cases _ _ _ _ _ _ _ _ _ _ hv with ⟨_, hout⟩ | ⟨v, hval, hna⟩
    · unfold unmatched at hout
      split_ifs at hout
      cases hout
      left; rfl
    · rcases next_argument_cases _ _ _ _ _ _ _ _ _ hna with
        ⟨_, hout⟩ | ⟨_, ⟨_, hout⟩ | ⟨_, retval, st2, hnest, ⟨hne, hout⟩ | ⟨_, hout⟩⟩⟩
      · obtain ⟨i, n, hc⟩ := choose_next_is_next param index
          (if !clish_param__get_optional param then some index else nopt) _
        rw [hc] at hout; cases hout
      · obtain ⟨i, n, hc⟩ := choose_next_is_next param index
          (if !clish_param__get_optional param then some index else nopt) _
        rw [hc] at hout; cases hout
      · cases hout
        right
        exact ⟨hne, _, _, hnest⟩
      · obtain ⟨i, n, hc⟩ := choose_next_is_next param index
          (if !clish_param__get_optional param then some index else nopt) _
        rw [hc] at hout; cases hout

/-- A `return` inside the loop carries BAD_PARAM or PARTIAL: BAD_PARAM from
this level, or the status of a nested call that was not OK. -/
theorem param_scan_returned (env : Collaborators) (cmd : clish_command_t)
    (context : clish_context_t) (argv : lub_argv_t) (need_index : Nat) (fuel : Nat) :
    ∀ (paramv : clish_paramv_t) (index : Nat) (nopt : Option Nat) (st : parse_state)
      (r : clish_pargv_status_e) (s : parse_state),
      param_scan env cmd context argv need_index fuel paramv index nopt st =
        some (.returned r s) →
      r = .CLISH_BAD_PARAM ∨ r = .CLISH_LINE_PARTIAL := by
  induction fuel with
  | zero => intro paramv index nopt st r s h; cases h
  | succ fuel ih =>
    intro paramv index nopt st r s h
    rcases param_scan_cases _ _ _ _ _ _ _ _ _ _ _ h with ⟨_, he⟩ | ⟨_, out, hit, hout⟩
    · cases he
    · rcases hout with ⟨i, n, s1, rfl, hrest⟩ | ⟨i, s1, rfl, he⟩ | ⟨r1, s1, rfl, he⟩
      · exact ih _ _ _ _ _ _ hrest
      · cases he
      · cases he
        rcases iteration_returned _ _ _ _ _ _ _ _ _ _ _ hit with hb | ⟨hne, pv, s0, hnest⟩
        · left; exact hb
        · unfold clish_shell_parse_pargv at hnest
          cases hs : param_scan env cmd context argv need_index fuel pv 0 none s0 with
          | none => rw [hs] at hnest; cases hnest
          | some e1 =>
            rw [hs] at hnest
            simp only [Option.map_some', Option.some.injEq] at hnest
            cases e1 with
            | returned r2 s2 =>
              simp only [post_loop, Prod.mk.injEq] at hnest
              rw [← hnest.1]
              exact ih _ _ _ _ _ _ hs
            | finished i2 s2 =>
              have h1 := post_loop_nested_status cmd argv pv i2 s2
              rw [hnest] at h1
              rcases h1 with h1 | h1
              · right; exact h1
              · exact absurd h1 hne

/-! ## C8: BAD_CMD -/

/-- C8: a top-level matcher call whose sibling scan ends with every sibling
exhausted while tokens remain at the cursor returns BAD_CMD when the command
has no args parameter; and a matcher call, at any level, returns BAD_CMD in
no other situation: it is then a top-level call, the command has no args
parameter, and the scan ended with every sibling exhausted and the cursor
below the token count.  In particular a nested call never returns BAD_CMD:
with tokens left over at the end of a nested list it returns OK to the
enclosing list, state unchanged. -/
theorem bad_cmd_unabsorbed (env : Collaborators) (cmd : clish_command_t)
    (context : clish_context_t) (paramv : clish_paramv_t) (argv : lub_argv_t) (need_index : Nat)
    (fuel : Nat) (st0 : parse_state) :
    (∀ index st,
      param_scan env cmd context argv need_index fuel paramv 0 none st0 =
        some (.finished index st) →
      clish_paramv__get_count paramv ≤ index → st.idx < lub_argv__get_count argv →
      clish_command__get_args cmd = none →
      clish_shell_parse_pargv env fuel cmd context paramv argv need_index true st0 =
        some (.CLISH_BAD_CMD, st)) ∧
    (∀ up_level st1,
      clish_shell_parse_pargv env fuel cmd context paramv argv need_index up_level st0 =
        some (.CLISH_BAD_CMD, st1) →
      up_level = true ∧ clish_command__get_args cmd = none ∧
      ∃ index st,
        param_scan env cmd context argv need_index fuel paramv 0 none st0 =
          some (.finished index st) ∧
        clish_paramv__get_count paramv ≤ index ∧ st.idx < lub_argv__get_count argv) ∧
    (∀ index st,
      param_scan env cmd context argv need_index fuel paramv 0 none st0 =
        some (.finished index st) →
      clish_paramv__get_count paramv ≤ index → st.idx < lub_argv__get_count argv →
      clish_shell_parse_pargv env fuel cmd context paramv argv need_index false st0 =
        some (.CLISH_LINE_OK, st)) := by
  refine ⟨?_, ?_, ?_⟩
  rotate_left 2
  · intro index st hscan hindex hcursor
    unfold clish_shell_parse_pargv
    rw [hscan]
    simp only [Option.map_some', post_loop, args_candidate_nested]
    rw [if_neg (by omega), if_neg (by simp)]
  · intro index st hscan hindex hcursor hargs
    have hca : args_candidate cmd argv true paramv index st = st := by
      unfold args_candidate
      rw [hargs]
      split <;> simp_all
    unfold clish_shell_parse_pargv
    rw [hscan]
    simp only [Option.map_some', post_loop, hca]
    rw [if_neg (by omega), if_pos ⟨trivial, hcursor, hindex⟩, hargs]
  · intro up_level st1 h
    unfold clish_shell_parse_pargv at h
    cases hs : param_scan env cmd context argv need_index fuel paramv 0 none st0 with
    | none => rw [hs] at h; cases h
    | some e =>
      rw [hs] at h
      simp only [Option.map_some', Option.some.injEq] at h
      cases e with
      | returned r s =>
        simp only [post_loop, Prod.mk.injEq] at h
        rcases param_scan_returned _ _ _ _ _ _ _ _ _ _ _ _ hs with hr | hr <;>
          (rw [hr] at h; exact absurd h.1 (by decide))
      | finished index st =>
        have hca := args_candidate_pargv cmd argv up_level paramv index st
        simp only [post_loop] at h
        split_ifs at h with h1 h2
        · exact absurd (congrArg Prod.fst h) (by simp)
        · cases hargs : clish_command__get_args cmd with
          | none =>
            rw [hca.2] at h2
            exact ⟨h2.1, rfl, index, st, rfl, h2.2.2, h2.2.1⟩
          | some A =>
            rw [hargs] at h
            exact absurd (congrArg Prod.fst h) (by simp)
        · exact absurd (congrArg Prod.fst h) (by simp)

/-- C8 at the sample grammar: a command without parameters and without args
parameter, one token after the command word. -/
theorem bad_cmd_unabsorbed_witness :
    param_scan sample_env cmd_empty sample_context (plain_argv ["cmd", "x"]) 0 1 [] 0 none
        ⟨[], 1, none⟩ = some (.finished 0 ⟨[], 1, none⟩) ∧
    clish_shell_parse_pargv sample_env 1 cmd_empty sample_context [] (plain_argv ["cmd", "x"]) 0
        true ⟨[], 1, none⟩ = some (.CLISH_BAD_CMD, ⟨[], 1, none⟩) :=
  ⟨rfl,
    (bad_cmd_unabsorbed sample_env cmd_empty sample_context [] (plain_argv ["cmd", "x"]) 0 1
      ⟨[], 1, none⟩).1 0 ⟨[], 1, none⟩ rfl (by decide) (by decide) rfl⟩

/-! ### What an iteration establishes for the parameter at `index` -/

theorem current_arg_isNone (argv : lub_argv_t) (st : parse_state)
    (h : (current_arg argv st).isNone = true) : lub_argv__get_count argv ≤ st.idx := by
  unfold current_arg at h
  by_contra hc
  have hlt : st.idx < lub_argv__get_count argv := by omega
  rw [if_pos hlt] at h
  unfold lub_argv__get_arg at h
  unfold lub_argv__get_count at hlt
  rw [List.get?_eq_get hlt] at h
  simp at h

theorem iteration_brk (env : Collaborators) (context : clish_context_t) (argv : lub_argv_t)
    (need_index : Nat)
    (nested : clish_paramv_t → parse_state → Option (clish_pargv_status_e × parse_state))
    (paramv : clish_paramv_t) (index : Nat) (nopt : Option Nat) (st : parse_state)
    (i : Nat) (s : parse_state)
    (h : iteration env context argv need_index nested paramv index nopt st = some (.brk i s)) :
    i = index ∧ lub_argv__get_count argv ≤ s.idx ∧ s.pargv = st.pargv ∧
    ∃ p, clish_paramv__get_param paramv index = some p ∧ clish_param__get_optional p = false := by
  rcases iteration_cases _ _ _ _ _ _ _ _ _ _ h with ⟨_, hout⟩ | ⟨param, hp, ⟨_, hout⟩ | ⟨_, hv⟩⟩
  · cases hout
  · cases hout
  · have hcp := candidate_capture_pargv env context need_index param (current_arg argv st) st
    rcases visit_cases _ _ _ _ _ _ _ _ _ _ hv with ⟨_, hout⟩ | ⟨v, hval, hna⟩
    · unfold unmatched at hout
      by_cases ho : clish_param__get_optional param = true
      · rw [if_pos ho] at hout; cases hout
      · rw [if_neg ho] at hout
        by_cases ha : (current_arg argv st).isNone = true
        · rw [if_pos ha] at hout
          cases hout
          refine ⟨rfl, ?_, hcp.1, param, hp, by simpa using ho⟩
          rw [hcp.2]
          exact current_arg_isNone argv st ha
        · rw [if_neg ha] at hout; cases hout
    · rcases next_argument_cases _ _ _ _ _ _ _ _ _ hna with
        ⟨_, hout⟩ | ⟨_, ⟨_, hout⟩ | ⟨_, retval, st2, hnest, ⟨hne, hout⟩ | ⟨_, hout⟩⟩⟩
      · obtain ⟨i1, n1, hc⟩ := choose_next_is_next param index
          (if !clish_param__get_optional param then some index else nopt) _
        rw [hc] at hout; cases hout
      · obtain ⟨i1, n1, hc⟩ := choose_next_is_next param index
          (if !clish_param__get_optional param then some index else nopt) _
        rw [hc] at hout; cases hout
      · cases hout
      · obtain ⟨i1, n1, hc⟩ := choose_next_is_next param index
          (if !clish_param__get_optional param then some index else nopt) _
        rw [hc] at hout; cases hout

/-- Where `choose_next` leads: never past `index + 1`; the remembered
position stays below the next index; and a step forward from a mandatory
parameter is the only way a mandatory parameter is left behind. -/
theorem choose_next_index (param : clish_param_t) (index : Nat) (nopt : Option Nat)
    (st : parse_state) (i : Nat) (n : Option Nat) (s : parse_state)
    (hn : ∀ k, nopt = some k → k ≤ index)
    (h : choose_next param index nopt st = .next i n s) :
    (∀ k, n = some k → k < i) ∧ i ≤ index + 1 := by
  unfold choose_next at h
  split_ifs at h
  · split at h
    · rename_i k
      cases h
      exact ⟨fun k1 hk1 => (by cases hk1; omega), (by have := hn k rfl; omega)⟩
    · cases h
      exact ⟨fun k1 hk1 => (by cases hk1), (by omega)⟩
  · cases h
    exact ⟨fun k1 hk1 => (by cases hk1; omega), le_refl _⟩

theorem iteration_next_index (env : Collaborators) (context : clish_context_t)
    (argv : lub_argv_t) (need_index : Nat)
    (nested : clish_paramv_t → parse_state → Option (clish_pargv_status_e × parse_state))
    (hnested : ∀ pv s r, nested pv s = some r →
      ∀ n, in_pargv s.pargv n = true → in_pargv r.2.pargv n = true)
    (paramv : clish_paramv_t) (index : Nat) (nopt : Option Nat) (st : parse_state)
    (i : Nat) (n : Option Nat) (s : parse_state)
    (hn : ∀ k, nopt = some k → k < index)
    (h : iteration env context argv need_index nested paramv index nopt st = some (.next i n s)) :
    (∀ k, n = some k → k < i) ∧ i ≤ index + 1 ∧
    (∀ p, clish_paramv__get_param paramv index = some p →
      clish_param__get_optional p = false →
      line_test env p (current_context context st) = true →
      in_pargv s.pargv (clish_param__get_name p) = true) := by
  rcases iteration_cases _ _ _ _ _ _ _ _ _ _ h with ⟨_, hout⟩ | ⟨param, hp, ⟨ht, hout⟩ | ⟨_, hv⟩⟩
  · cases hout
  · cases hout
    refine ⟨fun k hk => (by have := hn k hk; omega), le_refl _, ?_⟩
    intro p hp1 _ ht1
    rw [hp] at hp1; cases hp1
    rw [ht] at ht1; cases ht1
  · have hcp := candidate_capture_pargv env context need_index param (current_arg argv st) st
    have hn1 : ∀ k, (if !clish_param__get_optional param then some index else nopt) = some k →
        k ≤ index := by
      intro k hk
      split_ifs at hk
      · cases hk; exact le_refl _
      · exact le_of_lt (hn k hk)
    rcases visit_cases _ _ _ _ _ _ _ _ _ _ hv with ⟨_, hout⟩ | ⟨v, hval, hna⟩
    · unfold unmatched at hout
      by_cases ho : clish_param__get_optional param = true
      · rw [if_pos ho] at hout
        cases hout
        refine ⟨fun k hk => (by have := hn1 k hk; omega), le_refl _, ?_⟩
        intro p hp1 hpo _
        rw [hp] at hp1; cases hp1
        rw [ho] at hpo; cases hpo
      · rw [if_neg ho] at hout
        split_ifs at hout
    · have hself := in_pargv_record_self
        (candidate_capture env context need_index param (current_arg argv st) st).pargv param v
      have key : ∀ st1 : parse_state, in_pargv st1.pargv (clish_param__get_name param) = true →
          choose_next param index (if !clish_param__get_optional param then some index else nopt)
            st1 = .next i n s →
          (∀ k, n = some k → k < i) ∧ i ≤ index + 1 ∧
          (∀ p, clish_paramv__get_param paramv index = some p →
            clish_param__get_optional p = false →
            line_test env p (current_context context st) = true →
            in_pargv s.pargv (clish_param__get_name p) = true) := by
        intro st1 hin hch
        have hs : s = st1 := by
          have := congrArg iter_exit.state hch
          rw [choose_next_state] at this
          exact this.symm
        obtain ⟨h1, h2⟩ := choose_next_index param index _ st1 i n s hn1 hch
        refine ⟨h1, h2, ?_⟩
        intro p hp1 _ _
        rw [hp] at hp1; cases hp1
        rw [hs]; exact hin
      rcases next_argument_cases _ _ _ _ _ _ _ _ _ hna with
        ⟨_, hout⟩ | ⟨_, ⟨_, hout⟩ | ⟨_, retval, st2, hnest, ⟨hne, hout⟩ | ⟨_, hout⟩⟩⟩
      · exact key _ hself hout.symm
      · exact key _ hself hout.symm
      · cases hout
      · exact key _ (hnested _ _ _ hnest _ hself) hout.symm

theorem post_loop_ok (cmd : clish_command_t) (argv : lub_argv_t) (up_level : Bool)
    (paramv : clish_paramv_t) (j : Nat) (s st1 : parse_state)
    (h : post_loop cmd argv up_level paramv (.finished j s) = (.CLISH_LINE_OK, st1)) :
    ¬ (lub_argv__get_count argv ≤ s.idx ∧ j < clish_paramv__get_count paramv ∧
        (paramv.drop j).any (fun p => !clish_param__get_optional p) = true) ∧
    (∀ n, in_pargv s.pargv n = true → in_pargv st1.pargv n = true) := by
  have hca := args_candidate_pargv cmd argv up_level paramv j s
  simp only [post_loop] at h
  split_ifs at h with h1 h2
  · exact absurd (congrArg Prod.fst h) (by simp)
  · refine ⟨h1, ?_⟩
    cases hargs : clish_command__get_args cmd with
    | none => rw [hargs] at h; exact absurd (congrArg Prod.fst h) (by simp)
    | some A =>
      rw [hargs] at h
      simp only [Prod.mk.injEq, true_and] at h
      intro n hn
      rw [← h]
      simp only [args_fold]
      apply in_pargv_insert_mono
      rw [hca.1]; exact hn
  · refine ⟨h1, ?_⟩
    simp only [Prod.mk.injEq, true_and] at h
    intro n hn
    rw [← h, hca.1]; exact hn

/-- Loop invariant behind the completeness of OK: every mandatory parameter
before `index` whose test passes has an entry.  When the loop is left, either
the whole list satisfies this, or the loop stopped at a mandatory parameter
with the tokens exhausted. -/
theorem param_scan_complete (env : Collaborators) (cmd : clish_command_t)
    (context : clish_context_t) (argv : lub_argv_t) (need_index : Nat)
    (paramv : clish_paramv_t)
    (hfixed : ∀ p ∈ paramv, ∀ a b : parse_state,
      line_test env p (current_context context a) = line_test env p (current_context context b))
    (fuel : Nat) :
    ∀ (index : Nat) (nopt : Option Nat) (st : parse_state) (j : Nat) (s : parse_state),
      param_scan env cmd context argv need_index fuel paramv index nopt st =
        some (.finished j s) →
      (∀ k, nopt = some k → k < index) →
      (∀ k p, k < index → clish_paramv__get_param paramv k = some p →
        clish_param__get_optional p = false →
        line_test env p (current_context context st) = true →
        in_pargv st.pargv (clish_param__get_name p) = true) →
      (paramv.length ≤ j ∧
        ∀ k p, clish_paramv__get_param paramv k = some p →
          clish_param__get_optional p = false →
          line_test env p (current_context context s) = true →
          in_pargv s.pargv (clish_param__get_name p) = true) ∨
      (j < paramv.length ∧ lub_argv__get_count argv ≤ s.idx ∧
        ∃ p, clish_paramv__get_param paramv j = some p ∧
          clish_param__get_optional p = false) := by
  induction fuel with
  | zero => intro index nopt st j s h; cases h
  | succ fuel ih =>
    intro index nopt st j s h hn hinv
    rcases param_scan_cases _ _ _ _ _ _ _ _ _ _ _ h with ⟨hi, he⟩ | ⟨hi, out, hit, hout⟩
    · cases he
      unfold clish_paramv__get_count at hi
      left
      refine ⟨by omega, ?_⟩
      intro k p hk hpo hpt
      have hlt : k < paramv.length := by
        unfold clish_paramv__get_param at hk
        by_contra hc
        rw [List.get?_eq_none.mpr (by omega)] at hk
        cases hk
      exact hinv k p (by omega) hk hpo hpt
    · have hnames : ∀ pv s0 r,
          clish_shell_parse_pargv env fuel cmd context pv argv need_index false s0 = some r →
          ∀ n, in_pargv s0.pargv n = true → in_pargv r.2.pargv n = true :=
        fun pv s0 r hr => parse_pargv_nested_names env cmd context argv need_index fuel pv s0 r hr
      rcases hout with ⟨i, n, s1, rfl, hrest⟩ | ⟨i, s1, rfl, he⟩ | ⟨r1, s1, rfl, he⟩
      · obtain ⟨hmono, _⟩ := iteration_next env context argv need_index _ hnames
          paramv index nopt st i n s1 hit
        obtain ⟨hn1, hle, hcur⟩ := iteration_next_index env context argv need_index _ hnames
          paramv index nopt st i n s1 hn hit
        apply ih i n s1 j s hrest hn1
        intro k p hk hkp hpo hpt
        have hpt1 : line_test env p (current_context context st) = true := by
          rw [hfixed p (get_param_mem _ _ _ hkp) st s1]; exact hpt
        by_cases hki : k < index
        · exact hmono _ (hinv k p hki hkp hpo hpt1)
        · have hke : k = index := by omega
          subst hke
          exact hcur p hkp hpo hpt1
      · cases he
        obtain ⟨hi1, hidx, _, p, hp, hpo⟩ := iteration_brk _ _ _ _ _ _ _ _ _ _ _ hit
        subst hi1
        right
        exact ⟨hi, hidx, p, hp, hpo⟩
      · cases he

/-! ## C6: completeness of OK -/

/-- C6: with applicability tests that do not depend on the store, whenever
the matcher returns OK for a sibling list, every mandatory parameter of that
list whose applicability test passes has an entry in the authoritative
store. -/
theorem ok_is_complete (env : Collaborators) (cmd : clish_command_t) (context : clish_context_t)
    (paramv : clish_paramv_t) (argv : lub_argv_t) (need_index : Nat) (up_level : Bool)
    (st st1 : parse_state) (fuel : Nat)
    (hfixed : ∀ p ∈ paramv, ∀ a b : parse_state,
      line_test env p (current_context context a) = line_test env p (current_context context b))
    (hok : clish_shell_parse_pargv env fuel cmd context paramv argv need_index up_level st =
      some (.CLISH_LINE_OK, st1)) :
    ∀ p ∈ paramv, clish_param__get_optional p = false →
      line_test env p (current_context context st1) = true →
      in_pargv st1.pargv (clish_param__get_name p) = true := by
  intro p hp hpo hpt
  unfold clish_shell_parse_pargv at hok
  cases hs : param_scan env cmd context argv need_index fuel paramv 0 none st with
  | none => rw [hs] at hok; cases hok
  | some e =>
    rw [hs] at hok
    simp only [Option.map_some', Option.some.injEq] at hok
    cases e with
    | returned r s =>
      simp only [post_loop, Prod.mk.injEq] at hok
      rcases param_scan_returned _ _ _ _ _ _ _ _ _ _ _ _ hs with hr | hr <;>
        (rw [hr] at hok; exact absurd hok.1 (by simp))
    | finished j s =>
      obtain ⟨hnp, hmono⟩ := post_loop_ok cmd argv up_level paramv j s st1 hok
      rcases param_scan_complete env cmd context argv need_index paramv hfixed fuel 0 none st j s
          hs (fun k hk => by cases hk) (fun k p hk => by omega) with ⟨_, hall⟩ | ⟨hj, hidx, q, hq, hqo⟩
      · obtain ⟨k, hk⟩ := List.mem_iff_get?.mp hp
        apply hmono
        apply hall k p hk hpo
        rw [hfixed p hp s st1]; exact hpt
      · exact absurd ⟨hidx, hj, any_mandatory_drop paramv j q hq hqo⟩ hnp

/-- C6 at the sample grammar: "cmd abc 42" parsed against "O" (optional) and
"P" (mandatory) returns OK, and "P" has its entry. -/
theorem ok_is_complete_witness :
    clish_shell_parse_pargv sample_env 11 cmd_OP sample_context [sample_O, sample_P]
        (plain_argv ["cmd", "abc", "42"]) 0 true ⟨[], 1, none⟩ =
      some (.CLISH_LINE_OK, ⟨[⟨sample_O, some "abc"⟩, ⟨sample_P, some "42"⟩], 3, none⟩) ∧
    in_pargv [⟨sample_O, some "abc"⟩, ⟨sample_P, some "42"⟩]
      (clish_param__get_name sample_P) = true :=
  ⟨rfl,
    ok_is_complete sample_env cmd_OP sample_context [sample_O, sample_P]
      (plain_argv ["cmd", "abc", "42"]) 0 true ⟨[], 1, none⟩
      ⟨[⟨sample_O, some "abc"⟩, ⟨sample_P, some "42"⟩], 3, none⟩ 11
      (fun _ _ _ _ => rfl) rfl sample_P (by simp) rfl rfl⟩

/-! ## C9: the orchestrator -/

/-- C9: `clish_shell_parse` returns BAD_CMD without creating a store (`*pargv`
is left as the caller passed it) when the command cannot be resolved.
Otherwise it runs the matcher at the top level with an empty store, no
candidates store, cursor target 0 and the cursor at the word count of the
command's name; the matcher returns, its status is returned unchanged, and a
store is handed back exactly when that status is OK: the matcher's store for
OK, NULL for every other status. -/
theorem orchestrator_result (env : Collaborators) (fuel : Nat) (line : String)
    (pargv_in : Option clish_pargv_t) :
    (env.clish_shell_resolve_command line = none →
      clish_shell_parse env fuel line pargv_in = some (.CLISH_BAD_CMD, pargv_in)) ∧
    (∀ cmd, env.clish_shell_resolve_command line = some cmd →
      parse_fuel (clish_command__get_paramv cmd) ≤ fuel →
      ∃ status st,
        clish_shell_parse_pargv env fuel cmd
            (clish_context__set_pargv (clish_context__set_cmd clish_context_init cmd)
              clish_pargv_new)
            (clish_command__get_paramv cmd) (env.lub_argv_new line) 0 true
            ⟨clish_pargv_new, env.lub_string_wordcount (clish_command__get_name cmd), none⟩ =
          some (status, st) ∧
        clish_shell_parse env fuel line pargv_in =
          some (status, if status = .CLISH_LINE_OK then some st.pargv else none) ∧
        (status = .CLISH_LINE_OK ↔
          ∃ pargv, clish_shell_parse env fuel line pargv_in = some (status, some pargv))) := by
  constructor
  · intro hres
    unfold clish_shell_parse
    rw [hres]
  · intro cmd hres hfuel
    obtain ⟨r, hr⟩ := parse_pargv_total env cmd
      (clish_context__set_pargv (clish_context__set_cmd clish_context_init cmd) clish_pargv_new)
      (clish_command__get_paramv cmd) (env.lub_argv_new line) 0 true
      ⟨clish_pargv_new, env.lub_string_wordcount (clish_command__get_name cmd), none⟩ fuel hfuel
    obtain ⟨status, st⟩ := r
    have hparse : clish_shell_parse env fuel line pargv_in =
        some (status, if status = .CLISH_LINE_OK then some st.pargv else none) := by
      unfold clish_shell_parse
      rw [hres]
      simp only [hr]
      by_cases hs : status = .CLISH_LINE_OK
      · rw [if_neg (not_not.mpr hs), if_pos hs]
      · rw [if_pos hs, if_neg hs]
    refine ⟨status, st, hr, hparse, ?_⟩
    rw [hparse]
    by_cases hs : status = .CLISH_LINE_OK
    · rw [if_pos hs]
      exact ⟨fun _ => ⟨_, rfl⟩, fun _ => hs⟩
    · rw [if_neg hs]
      constructor
      · intro h; exact absurd h hs
      · rintro ⟨pargv, hp⟩
        simp at hp

/-- C9 at the sample collaborators: "foo" does not resolve; "cmd 42" is OK
with the store handed back; "cmd" is PARTIAL and "cmd abc" is BAD_PARAM, both
with NULL. -/
theorem orchestrator_result_witness :
    sample_env.clish_shell_resolve_command "foo" = none ∧
    clish_shell_parse sample_env 5 "foo" none = some (.CLISH_BAD_CMD, none) ∧
    sample_env.clish_shell_resolve_command "cmd 42" = some cmd_P ∧
    (∃ status st,
      clish_shell_parse_pargv sample_env 5 cmd_P
          (clish_context__set_pargv (clish_context__set_cmd clish_context_init cmd_P)
            clish_pargv_new)
          (clish_command__get_paramv cmd_P) (sample_env.lub_argv_new "cmd 42") 0 true
          ⟨clish_pargv_new, sample_env.lub_string_wordcount (clish_command__get_name cmd_P),
            none⟩ = some (status, st) ∧
      clish_shell_parse sample_env 5 "cmd 42" none =
        some (status, if status = .CLISH_LINE_OK then some st.pargv else none) ∧
      (status = .CLISH_LINE_OK ↔
        ∃ pargv, clish_shell_parse sample_env 5 "cmd 42" none = some (status, some pargv))) ∧
    clish_shell_parse sample_env 5 "cmd 42" none =
      some (.CLISH_LINE_OK, some [⟨sample_P, some "42"⟩]) ∧
    clish_shell_parse sample_env 5 "cmd" none = some (.CLISH_LINE_PARTIAL, none) ∧
    clish_shell_parse sample_env 5 "cmd abc" none = some (.CLISH_BAD_PARAM, none) :=
  ⟨rfl, (orchestrator_result sample_env 5 "foo" none).1 rfl, rfl,
    (orchestrator_result sample_env 5 "cmd 42" none).2 cmd_P rfl (by decide), rfl, rfl, rfl⟩

/-! ### The cursor only advances; past the target the candidates store is not touched -/

theorem candidate_capture_off_target (env : Collaborators) (context : clish_context_t)
    (need_index : Nat) (param : clish_param_t) (arg : Option String) (st : parse_state)
    (h : st.idx ≠ need_index) : candidate_capture env context need_index param arg st = st := by
  unfold candidate_capture
  split
  · rfl
  · rw [if_neg (fun hc => h hc.1)]

theorem param_scan_cursor (env : Collaborators) (cmd : clish_command_t)
    (context : clish_context_t) (argv : lub_argv_t) (need_index : Nat) (fuel : Nat)
    (paramv : clish_paramv_t) (index : Nat) (nopt : Option Nat) (st : parse_state) (e : scan_exit)
    (h : param_scan env cmd context argv need_index fuel paramv index nopt st = some e) :
    st.idx ≤ e.state.idx ∧ (need_index < st.idx → e.state.last = st.last) := by
  refine param_scan_rel env cmd context argv need_index
    (fun a b => a.idx ≤ b.idx ∧ (need_index < a.idx → b.last = a.last))
    (fun _ => ⟨le_refl _, fun _ => rfl⟩)
    (fun a b c hab hbc => ⟨le_trans hab.1 hbc.1,
      fun hlt => (hbc.2 (lt_of_lt_of_le hlt hab.1)).trans (hab.2 hlt)⟩) ?_ ?_ ?_
    fuel paramv index nopt st e h
  · intro param s
    refine ⟨le_of_eq (candidate_capture_pargv env context need_index param _ s).2.symm, ?_⟩
    intro hlt
    rw [candidate_capture_off_target _ _ _ _ _ _ (by omega)]
  · intro param s v _
    exact ⟨le_refl _, fun _ => rfl⟩
  · intro s _
    exact ⟨Nat.le_succ _, fun _ => rfl⟩

theorem parse_pargv_nested_cursor (env : Collaborators) (cmd : clish_command_t)
    (context : clish_context_t) (argv : lub_argv_t) (need_index : Nat) (fuel : Nat)
    (pv : clish_paramv_t) (s : parse_state) (r : clish_pargv_status_e × parse_state)
    (h : clish_shell_parse_pargv env fuel cmd context pv argv need_index false s = some r) :
    s.idx ≤ r.2.idx ∧ (need_index < s.idx → r.2.last = s.last) := by
  unfold clish_shell_parse_pargv at h
  cases hs : param_scan env cmd context argv need_index fuel pv 0 none s with
  | none => rw [hs] at h; cases h
  | some e1 =>
    rw [hs] at h
    cases h
    rw [post_loop_nested_state]
    exact param_scan_cursor _ _ _ _ _ _ _ _ _ _ _ hs

/-! ### The prefix test of candidate capture -/

theorem nocasestr_from_ge (cs ct : List Char) (off r : Nat)
    (h : nocasestr_from cs ct off = some r) : off ≤ r := by
  induction cs generalizing off with
  | nil =>
    simp only [nocasestr_from] at h
    split_ifs at h
    cases h; exact le_refl _
  | cons c cs ih =>
    simp only [nocasestr_from] at h
    split_ifs at h
    · cases h; exact le_refl _
    · have := ih (off + 1) h
      omega

/-- The test `pname == lub_string_nocasestr(pname, arg)` of lines 200-202 and
215-216 holds exactly when `arg` is a case-insensitive prefix of `pname`. -/
theorem nocasestr_zero_iff (cs ct : String) :
    lub_string_nocasestr cs ct = some 0 ↔ nocase_starts cs.data ct.data = true := by
  unfold lub_string_nocasestr
  cases hcs : cs.data with
  | nil =>
    cases hct : ct.data with
    | nil => simp [nocasestr_from, nocase_starts]
    | cons d ds => simp [nocasestr_from, nocase_starts]
  | cons c rest =>
    simp only [nocasestr_from]
    by_cases hs : nocase_starts (c :: rest) ct.data = true
    · rw [if_pos hs]; simp [hs]
    · rw [if_neg hs]
      constructor
      · intro h
        have := nocasestr_from_ge _ _ _ _ h
        omega
      · intro h; exact absurd h hs

/-! ### What candidate capture records -/

/-- Names in the candidates store after `candidate_insert`: the old ones, and
the parameter's own unless it is a SUBCOMMAND node and a token at the cursor
does not start its literal value. -/
theorem in_candidate_insert (last : clish_pargv_t) (param : clish_param_t) (arg : Option String)
    (n : String) :
    in_pargv (candidate_insert last param arg) n = true ↔
      in_pargv last n = true ∨
      (clish_param__get_name param = n ∧
        (clish_param__get_mode param = .CLISH_PARAM_SUBCOMMAND →
          ∀ a, arg = some a → lub_string_nocasestr (clish_param__get_value param) a = some 0)) := by
  unfold candidate_insert
  by_cases hm : clish_param__get_mode param = .CLISH_PARAM_SUBCOMMAND
  · rw [if_pos hm]
    cases arg with
    | none =>
      simp only [in_pargv_insert, Bool.or_eq_true, decide_eq_true_eq]
      constructor
      · rintro (h | h)
        · right; exact ⟨h, fun _ a ha => by cases ha⟩
        · left; exact h
      · rintro (h | h)
        · right; exact h
        · left; exact h.1
    | some a =>
      simp only
      by_cases hp : lub_string_nocasestr (clish_param__get_value param) a = some 0
      · rw [if_pos hp]
        simp only [in_pargv_insert, Bool.or_eq_true, decide_eq_true_eq]
        constructor
        · rintro (h | h)
          · right; exact ⟨h, fun _ b hb => by cases hb; exact hp⟩
          · left; exact h
        · rintro (h | h)
          · right; exact h
          · left; exact h.1
      · rw [if_neg hp]
        constructor
        · intro h; left; exact h
        · rintro (h | h)
          · exact h
          · exact absurd (h.2 hm a rfl) hp
  · rw [if_neg hm]
    simp only [in_pargv_insert, Bool.or_eq_true, decide_eq_true_eq]
    constructor
    · rintro (h | h)
      · right; exact ⟨h, fun hc => absurd hc hm⟩
      · left; exact h
    · rintro (h | h)
      · right; exact h
      · left; exact h.1

theorem in_candidate_switch (env : Collaborators) (context : clish_context_t)
    (arg : Option String) (alts : List clish_param_t) (last : clish_pargv_t) (n : String) :
    in_pargv (candidate_switch env context arg alts last) n = true ↔
      in_pargv last n = true ∨
      ∃ A ∈ alts, clish_param__get_name A = n ∧ line_test env A context = true ∧
        (clish_param__get_mode A = .CLISH_PARAM_SUBCOMMAND →
          ∀ a, arg = some a → lub_string_nocasestr (clish_param__get_value A) a = some 0) := by
  induction alts generalizing last with
  | nil => simp [candidate_switch]
  | cons c cs ih =>
    simp only [candidate_switch]
    cases ht : line_test env c context with
    | false =>
      simp only [Bool.not_false, if_true]
      rw [ih]
      constructor
      · rintro (h | ⟨A, hA, h⟩)
        · left; exact h
        · right; exact ⟨A, List.mem_cons_of_mem _ hA, h⟩
      · rintro (h | ⟨A, hA, h⟩)
        · left; exact h
        · rcases List.mem_cons.mp hA with rfl | hA
          · rw [ht] at h; exact absurd h.2.1 (by simp)
          · right; exact ⟨A, hA, h⟩
    | true =>
      simp only [Bool.not_true, Bool.false_eq_true, if_false]
      rw [ih, in_candidate_insert]
      constructor
      · rintro ((h | h) | ⟨A, hA, h⟩)
        · left; exact h
        · right; exact ⟨c, List.mem_cons_self _ _, h.1, ht, h.2⟩
        · right; exact ⟨A, List.mem_cons_of_mem _ hA, h⟩
      · rintro (h | ⟨A, hA, h⟩)
        · left; left; exact h
        · rcases List.mem_cons.mp hA with rfl | hA
          · left; right; exact ⟨h.1, h.2.2⟩
          · right; exact ⟨A, hA, h⟩

theorem iteration_mandatory_last (env : Collaborators) (context : clish_context_t)
    (argv : lub_argv_t) (need_index : Nat)
    (nested : clish_paramv_t → parse_state → Option (clish_pargv_status_e × parse_state))
    (hnested : ∀ pv s0 r, nested pv s0 = some r →
      s0.idx ≤ r.2.idx ∧ (need_index < s0.idx → r.2.last = s0.last))
    (paramv : clish_paramv_t) (index : Nat) (nopt : Option Nat) (st : parse_state)
    (M : clish_param_t) (out : iter_exit)
    (hM : clish_paramv__get_param paramv index = some M)
    (htest : line_test env M (current_context context st) = true)
    (hopt : clish_param__get_optional M = false)
    (hidx : st.idx = need_index)
    (h : iteration env context argv need_index nested paramv index nopt st = some out) :
    out.state.last =
      (candidate_capture env context need_index M (current_arg argv st) st).last ∧
    (∀ i n s, out = .next i n s → need_index < s.idx) := by
  rw [iteration_visit _ _ _ _ _ _ _ _ _ _ hM htest] at h
  have hcp := candidate_capture_pargv env context need_index M (current_arg argv st) st
  rcases visit_cases _ _ _ _ _ _ _ _ _ _ h with ⟨_, hout⟩ | ⟨v, hval, hna⟩
  · subst hout
    refine ⟨by rw [unmatched_state], ?_⟩
    intro i n s hs
    unfold unmatched at hs
    rw [if_neg (by rw [hopt]; simp)] at hs
    split_ifs at hs
  · rcases next_argument_cases _ _ _ _ _ _ _ _ _ hna with
      ⟨hf, _⟩ | ⟨_, ⟨_, hout⟩ | ⟨_, retval, st2, hnest, ⟨hne, hout⟩ | ⟨_, hout⟩⟩⟩
    · rw [hopt] at hf; exact absurd hf.1 (by simp)
    · subst hout
      refine ⟨by rw [choose_next_state], ?_⟩
      intro i n s hs
      have := congrArg iter_exit.state hs
      rw [choose_next_state] at this
      simp only [iter_exit.state] at this
      rw [← this]
      simp only [hcp.2]
      omega
    · subst hout
      have hn := hnested _ _ _ hnest
      simp only [hcp.2] at hn
      refine ⟨?_, fun i n s hs => by cases hs⟩
      simp only [iter_exit.state]
      exact hn.2 (by omega)
    · subst hout
      have hn := hnested _ _ _ hnest
      simp only [hcp.2] at hn
      refine ⟨?_, ?_⟩
      · rw [choose_next_state]
        exact hn.2 (by omega)
      · intro i n s hs
        have := congrArg iter_exit.state hs
        rw [choose_next_state] at this
        simp only [iter_exit.state] at this
        rw [← this]
        omega

theorem post_loop_last (cmd : clish_command_t) (argv : lub_argv_t) (up_level : Bool)
    (paramv : clish_paramv_t) (e : scan_exit) :
    (post_loop cmd argv up_level paramv e).2.last = e.state.last ∨
    (e.state.last = some [] ∧ ∃ A, clish_command__get_args cmd = some A ∧
      (post_loop cmd argv up_level paramv e).2.last = some [⟨A, some ""⟩]) := by
  cases e with
  | returned r s => left; rfl
  | finished j s =>
    have hac : (args_candidate cmd argv up_level paramv j s).last = s.last ∨
        (s.last = some [] ∧ ∃ A, clish_command__get_args cmd = some A ∧
          (args_candidate cmd argv up_level paramv j s).last = some [⟨A, some ""⟩]) := by
      unfold args_candidate
      split
      · rename_i last A hl ha
        split_ifs with hc
        · right
          have hnil : last = [] := List.length_eq_zero.mp hc.2.1
          subst hnil
          exact ⟨hl, A, ha, rfl⟩
        · left; rfl
      · left; rfl
    simp only [post_loop, scan_exit.state]
    split_ifs
    · left; rfl
    · cases hargs : clish_command__get_args cmd with
      | none => rw [hargs] at hac; exact hac
      | some A => rw [hargs] at hac; exact hac
    · exact hac

/-! ## C10: completion candidates at a mandatory position -/

/-- C10 (amended): in completion mode, let the loop reach a mandatory
parameter `M` (test passing, no entry in the authoritative store) with the
cursor at the cursor target and the candidates store still empty.  After the
call the candidates store holds exactly the parameters offered for `M`: `M`
itself, or for a SWITCH its alternatives whose test passes, in both cases
leaving out a SUBCOMMAND node when there is a token at the cursor that does
not start its literal value.  Nothing later in the call is added, except
that, when nothing was offered for `M`, the args parameter may be offered at
the end of a top-level call. -/
theorem candidates_at_mandatory (env : Collaborators) (cmd : clish_command_t)
    (context : clish_context_t) (paramv : clish_paramv_t) (argv : lub_argv_t) (need_index : Nat)
    (up_level : Bool) (fuel : Nat) (index : Nat) (nopt : Option Nat) (st : parse_state)
    (M : clish_param_t) (e : scan_exit)
    (hscan : param_scan env cmd context argv need_index fuel paramv index nopt st = some e)
    (hM : clish_paramv__get_param paramv index = some M)
    (htest : line_test env M (current_context context st) = true)
    (hopt : clish_param__get_optional M = false)
    (hnew : in_pargv st.pargv (clish_param__get_name M) = false)
    (hidx : st.idx = need_index)
    (hlast : st.last = some []) :
    ∃ L : clish_pargv_t,
      ((post_loop cmd argv up_level paramv e).2.last = some L ∨
        (L = [] ∧ ∃ A, clish_command__get_args cmd = some A ∧
          (post_loop cmd argv up_level paramv e).2.last = some [⟨A, some ""⟩])) ∧
      ∀ n, in_pargv L n = true ↔
        ∃ A ∈ capture_list M, clish_param__get_name A = n ∧
          line_test env A (current_context context st) = true ∧
          (clish_param__get_mode A = .CLISH_PARAM_SUBCOMMAND →
            ∀ a, current_arg argv st = some a →
              lub_string_nocasestr (clish_param__get_value A) a = some 0) := by
  -- what the visit of `M` records
  have hfind : (clish_pargv_find_arg st.pargv (clish_param__get_name M)).isNone = true := by
    unfold in_pargv at hnew
    cases hf : clish_pargv_find_arg st.pargv (clish_param__get_name M) with
    | none => rfl
    | some x => rw [hf] at hnew; cases hnew
  have hcap : ∃ L, (candidate_capture env context need_index M (current_arg argv st) st).last =
      some L ∧ ∀ n, in_pargv L n = true ↔
        ∃ A ∈ capture_list M, clish_param__get_name A = n ∧
          line_test env A (current_context context st) = true ∧
          (clish_param__get_mode A = .CLISH_PARAM_SUBCOMMAND →
            ∀ a, current_arg argv st = some a →
              lub_string_nocasestr (clish_param__get_value A) a = some 0) := by
    unfold candidate_capture capture_list
    rw [hlast]
    simp only
    rw [if_pos ⟨hidx, hfind⟩]
    by_cases hm : clish_param__get_mode M = .CLISH_PARAM_SWITCH
    · rw [if_pos hm, if_pos hm]
      refine ⟨_, rfl, ?_⟩
      intro n
      rw [in_candidate_switch]
      constructor
      · rintro (h | h)
        · cases h
        · exact h
      · intro h; right; exact h
    · rw [if_neg hm, if_neg hm]
      refine ⟨_, rfl, ?_⟩
      intro n
      rw [in_candidate_insert]
      constructor
      · rintro (h | h)
        · cases h
        · exact ⟨M, List.mem_singleton.mpr rfl, h.1, htest, h.2⟩
      · rintro ⟨A, hA, h⟩
        rw [List.mem_singleton.mp hA] at h
        right; exact ⟨h.1, h.2.2⟩
  obtain ⟨L, hL, hchar⟩ := hcap
  -- the rest of the loop leaves the candidates store alone
  have hstate : e.state.last = some L := by
    cases fuel with
    | zero => cases hscan
    | succ fuel =>
      rcases param_scan_cases _ _ _ _ _ _ _ _ _ _ _ hscan with ⟨hi, _⟩ | ⟨_, out, hit, hout⟩
      · exfalso
        apply hi
        unfold clish_paramv__get_param at hM
        unfold clish_paramv__get_count
        by_contra hc
        rw [List.get?_eq_none.mpr (by omega)] at hM
        cases hM
      · obtain ⟨h1, h2⟩ := iteration_mandatory_last env context argv need_index _
          (fun pv s0 r hr => parse_pargv_nested_cursor env cmd context argv need_index fuel
            pv s0 r hr) paramv index nopt st M out hM htest hopt hidx hit
        rcases hout with ⟨i, n, s, rfl, hrest⟩ | ⟨i, s, rfl, rfl⟩ | ⟨r, s, rfl, rfl⟩
        · have hc := param_scan_cursor _ _ _ _ _ _ _ _ _ _ _ hrest
          rw [hc.2 (h2 i n s rfl)]
          rw [← hL]; exact h1
        · rw [← hL]; exact h1
        · rw [← hL]; exact h1
  refine ⟨L, ?_, hchar⟩
  rcases post_loop_last cmd argv up_level paramv e with h | ⟨h1, A, hA, h2⟩
  · left; rw [h, hstate]
  · right
    rw [hstate] at h1
    exact ⟨(Option.some.inj h1), A, hA, h2⟩

/-- C10 fails as stated.  SWITCH "S" with SUBCOMMAND alternatives "A"
("start") and "B" ("stop"), both with a passing test, line "cmd sta",
cursor target 1: only "A" is offered, not "B".  And with SWITCH "T"
(alternative "A") before "S", line "cmd sta", cursor target 2: "A" was
consumed for "T" and has an entry in the authoritative store, yet it is
offered again among the alternatives of "S". -/
theorem candidates_counterexample :
    line_test sample_env sample_B (current_context sample_context ⟨[], 1, some []⟩) = true ∧
    candidates_view (clish_shell_parse_pargv sample_env (parse_fuel [sample_S]) cmd_S
        sample_context (clish_command__get_paramv cmd_S) (plain_argv ["cmd", "sta"]) 1 true
        ⟨[], 1, some []⟩) = some (some [("A", some "sta")]) ∧
    result_view (clish_shell_parse_pargv sample_env (parse_fuel [sample_T, sample_S]) cmd_TS
        sample_context (clish_command__get_paramv cmd_TS) (plain_argv ["cmd", "sta"]) 2 true
        ⟨[], 1, some []⟩) =
      some (.CLISH_LINE_PARTIAL, 2, [("T", some "A"), ("A", some "start")]) ∧
    candidates_view (clish_shell_parse_pargv sample_env (parse_fuel [sample_T, sample_S]) cmd_TS
        sample_context (clish_command__get_paramv cmd_TS) (plain_argv ["cmd", "sta"]) 2 true
        ⟨[], 1, some []⟩) = some (some [("A", none), ("B", none)]) :=
  ⟨by decide, by decide, by decide, by decide⟩

/-- C10 (amended) at the sample grammar: SWITCH "S", line "cmd sta", cursor
target 1. -/
theorem candidates_at_mandatory_witness :
    param_scan sample_env cmd_S sample_context (plain_argv ["cmd", "sta"]) 1 5 [sample_S] 0 none
        ⟨[], 1, some []⟩ =
      some (.finished 1 ⟨[⟨sample_S, some "A"⟩, ⟨sample_A, some "start"⟩], 2,
        some [⟨sample_A, some "sta"⟩]⟩) ∧
    ∃ L : clish_pargv_t,
      ((post_loop cmd_S (plain_argv ["cmd", "sta"]) true [sample_S]
          (.finished 1 ⟨[⟨sample_S, some "A"⟩, ⟨sample_A, some "start"⟩], 2,
            some [⟨sample_A, some "sta"⟩]⟩)).2.last = some L ∨
        (L = [] ∧ ∃ A, clish_command__get_args cmd_S = some A ∧
          (post_loop cmd_S (plain_argv ["cmd", "sta"]) true [sample_S]
            (.finished 1 ⟨[⟨sample_S, some "A"⟩, ⟨sample_A, some "start"⟩], 2,
              some [⟨sample_A, some "sta"⟩]⟩)).2.last = some [⟨A, some ""⟩])) ∧
      ∀ n, in_pargv L n = true ↔
        ∃ A ∈ capture_list sample_S, clish_param__get_name A = n ∧
          line_test sample_env A (current_context sample_context ⟨[], 1, some []⟩) = true ∧
          (clish_param__get_mode A = .CLISH_PARAM_SUBCOMMAND →
            ∀ a, current_arg (plain_argv ["cmd", "sta"]) ⟨[], 1, some []⟩ = some a →
              lub_string_nocasestr (clish_param__get_value A) a = some 0) :=
  ⟨rfl,
    candidates_at_mandatory sample_env cmd_S sample_context [sample_S]
      (plain_argv ["cmd", "sta"]) 1 true 5 0 none ⟨[], 1, some []⟩ sample_S
      (.finished 1 ⟨[⟨sample_S, some "A"⟩, ⟨sample_A, some "start"⟩], 2,
        some [⟨sample_A, some "sta"⟩]⟩) rfl rfl rfl rfl rfl rfl rfl⟩

/-! ### Names of a store -/

theorem in_pargv_iff_mem_names (pargv : clish_pargv_t) (name : String) :
    in_pargv pargv name = true ↔ name ∈ pargv_names pargv := by
  unfold in_pargv pargv_names
  induction pargv with
  | nil => simp [clish_pargv_find_arg]
  | cons e es ih =>
    simp only [clish_pargv_find_arg, List.map_cons, List.mem_cons]
    by_cases h : clish_param__get_name e.param = name
    · simp [h]
    · rw [if_neg h, ih]
      constructor
      · intro hm; right; exact hm
      · rintro (hm | hm)
        · exact absurd hm.symm h
        · exact hm

theorem pargv_names_insert (pargv : clish_pargv_t) (param : clish_param_t)
    (value : Option String) :
    pargv_names (clish_pargv_insert pargv param value) =
      if in_pargv pargv (clish_param__get_name param) = true then pargv_names pargv
      else pargv_names pargv ++ [clish_param__get_name param] := by
  induction pargv with
  | nil => simp [clish_pargv_insert, pargv_names, in_pargv, clish_pargv_find_arg]
  | cons e es ih =>
    by_cases h : clish_param__get_name e.param = clish_param__get_name param
    · have hin : in_pargv (e :: es) (clish_param__get_name param) = true := by
        simp [in_pargv, clish_pargv_find_arg, h]
      rw [if_pos hin]
      simp [clish_pargv_insert, pargv_names, h]
    · have hin : in_pargv (e :: es) (clish_param__get_name param) =
          in_pargv es (clish_param__get_name param) := by
        simp [in_pargv, clish_pargv_find_arg, h]
      rw [hin]
      have hc : clish_pargv_insert (e :: es) param value =
          e :: clish_pargv_insert es param value := by
        simp [clish_pargv_insert, h]
      rw [hc]
      have hn : ∀ l : clish_pargv_t, pargv_names (e :: l) =
          clish_param__get_name e.param :: pargv_names l := fun _ => rfl
      rw [hn, hn, ih]
      split_ifs <;> rfl

theorem nodup_insert (pargv : clish_pargv_t) (param : clish_param_t) (value : Option String)
    (h : (pargv_names pargv).Nodup) :
    (pargv_names (clish_pargv_insert pargv param value)).Nodup := by
  rw [pargv_names_insert]
  by_cases hin : in_pargv pargv (clish_param__get_name param) = true
  · rw [if_pos hin]; exact h
  · rw [if_neg hin]
    have hnot : clish_param__get_name param ∉ pargv_names pargv :=
      fun hm => hin ((in_pargv_iff_mem_names _ _).mpr hm)
    rw [List.nodup_append]
    refine ⟨h, List.nodup_singleton _, ?_⟩
    intro a ha hb
    rw [List.mem_singleton] at hb
    subst hb
    exact hnot ha

theorem nodup_record (pargv : clish_pargv_t) (param : clish_param_t) (v : validation)
    (h : (pargv_names pargv).Nodup) : (pargv_names (record_param pargv param v)).Nodup := by
  unfold record_param
  split
  · exact nodup_insert _ _ _ (nodup_insert _ _ _ h)
  · exact nodup_insert _ _ _ h

/-- What the post-loop statements do to the store and the cursor: nothing, or
the args fold, which inserts the args parameter and moves the cursor to the
token count. -/
theorem post_loop_effect (cmd : clish_command_t) (argv : lub_argv_t) (up_level : Bool)
    (paramv : clish_paramv_t) (e : scan_exit) :
    ((post_loop cmd argv up_level paramv e).2.pargv = e.state.pargv ∧
      (post_loop cmd argv up_level paramv e).2.idx = e.state.idx) ∨
    (∃ A value, clish_command__get_args cmd = some A ∧ up_level = true ∧
      e.state.idx < lub_argv__get_count argv ∧
      (post_loop cmd argv up_level paramv e).1 = .CLISH_LINE_OK ∧
      (post_loop cmd argv up_level paramv e).2.pargv =
        clish_pargv_insert e.state.pargv A (some value) ∧
      (post_loop cmd argv up_level paramv e).2.idx = lub_argv__get_count argv) := by
  cases e with
  | returned r s => left; exact ⟨rfl, rfl⟩
  | finished j s =>
    have hca := args_candidate_pargv cmd argv up_level paramv j s
    simp only [post_loop, scan_exit.state]
    split_ifs with h1 h2
    · left; exact ⟨rfl, rfl⟩
    · cases hargs : clish_command__get_args cmd with
      | none => left; exact hca
      | some A =>
        right
        rw [hca.2] at h2
        have hne : argv.drop s.idx ≠ [] := by
          intro h
          have := congrArg List.length h
          simp only [List.length_drop, List.length_nil] at this
          have := h2.2.1
          unfold lub_argv__get_count at this
          omega
        refine ⟨A, (args_loop (argv.drop s.idx) "" s.idx).1, rfl, h2.1, h2.2.1, rfl, ?_, ?_⟩
        · simp only [args_fold, hca.1, hca.2]
        · simp only [args_fold, hca.2]
          rw [args_loop_join _ _ hne]
          simp only [List.length_drop]
          have := h2.2.1
          unfold lub_argv__get_count at this ⊢
          omega
    · left; exact hca

/-! ## C12: unique names -/

/-- C12: if the parameter names in the authoritative store are pairwise
distinct before a matcher call, they are pairwise distinct after it, whatever
the status returned; and with `parse_fuel paramv` or more fuel the call
returns. -/
theorem unique_names (env : Collaborators) (cmd : clish_command_t) (context : clish_context_t)
    (paramv : clish_paramv_t) (argv : lub_argv_t) (need_index : Nat) (up_level : Bool)
    (st : parse_state) (fuel : Nat) (hnodup : (pargv_names st.pargv).Nodup) :
    (parse_fuel paramv ≤ fuel →
      ∃ r, clish_shell_parse_pargv env fuel cmd context paramv argv need_index up_level st =
        some r) ∧
    (∀ status st1,
      clish_shell_parse_pargv env fuel cmd context paramv argv need_index up_level st =
        some (status, st1) →
      (pargv_names st1.pargv).Nodup) := by
  refine ⟨fun hfuel => parse_pargv_total env cmd context paramv argv need_index up_level st fuel
    hfuel, ?_⟩
  intro status st1 h
  unfold clish_shell_parse_pargv at h
  cases hs : param_scan env cmd context argv need_index fuel paramv 0 none st with
  | none => rw [hs] at h; cases h
  | some e =>
    rw [hs] at h
    simp only [Option.map_some', Option.some.injEq] at h
    have hscan : (pargv_names e.state.pargv).Nodup := by
      refine param_scan_rel env cmd context argv need_index
        (fun a b => (pargv_names a.pargv).Nodup → (pargv_names b.pargv).Nodup)
        (fun _ hn => hn) (fun _ _ _ hab hbc hn => hbc (hab hn)) ?_ ?_ ?_
        fuel paramv 0 none st e hs hnodup
      · intro param s hn
        rw [(candidate_capture_pargv env context need_index param _ s).1]; exact hn
      · intro param s v _ hn
        exact nodup_record _ _ _ hn
      · intro s _ hn; exact hn
    have hst : st1 = (post_loop cmd argv up_level paramv e).2 := by rw [h]
    rw [hst]
    rcases post_loop_effect cmd argv up_level paramv e with ⟨hp, _⟩ | ⟨A, value, _, _, _, _, hp, _⟩
    · rw [hp]; exact hscan
    · rw [hp]; exact nodup_insert _ _ _ hscan

/-- C12 at the sample grammar: "cmd start 1 2 x y" against the SWITCH "S",
the parameter "R" with its nested "Q" and the args parameter, from a store
that already holds "A" and "args".  The SWITCH appends "S" and replaces the
value of its alternative "A", "R" is appended, the nested list appends "Q",
and the args fold replaces the value of "args": five entries, distinct
names. -/
theorem unique_names_witness :
    (pargv_names [⟨sample_A, some "old"⟩, ⟨sample_args, some "old"⟩]).Nodup ∧
    clish_shell_parse_pargv sample_env 20 cmd_SR_args sample_context [sample_S, sample_R]
        (plain_argv ["cmd", "start", "1", "2", "x", "y"]) 0 true
        ⟨[⟨sample_A, some "old"⟩, ⟨sample_args, some "old"⟩], 1, none⟩ =
      some (.CLISH_LINE_OK,
        ⟨[⟨sample_A, some "start"⟩, ⟨sample_args, some "x y"⟩, ⟨sample_S, some "A"⟩,
          ⟨sample_R, some "1"⟩, ⟨sample_Q, some "2"⟩], 6, none⟩) ∧
    (pargv_names [⟨sample_A, some "start"⟩, ⟨sample_args, some "x y"⟩, ⟨sample_S, some "A"⟩,
      ⟨sample_R, some "1"⟩, ⟨sample_Q, some "2"⟩]).Nodup ∧
    (parse_fuel [sample_S, sample_R] ≤ 20 →
      ∃ r, clish_shell_parse_pargv sample_env 20 cmd_SR_args sample_context
        [sample_S, sample_R] (plain_argv ["cmd", "start", "1", "2", "x", "y"]) 0 true
        ⟨[⟨sample_A, some "old"⟩, ⟨sample_args, some "old"⟩], 1, none⟩ = some r) :=
  ⟨by decide, rfl,
    (unique_names sample_env cmd_SR_args sample_context [sample_S, sample_R]
      (plain_argv ["cmd", "start", "1", "2", "x", "y"]) 0 true
      ⟨[⟨sample_A, some "old"⟩, ⟨sample_args, some "old"⟩], 1, none⟩ 20 (by decide)).2
      .CLISH_LINE_OK
      ⟨[⟨sample_A, some "start"⟩, ⟨sample_args, some "x y"⟩, ⟨sample_S, some "A"⟩,
        ⟨sample_R, some "1"⟩, ⟨sample_Q, some "2"⟩], 6, none⟩ rfl,
    (unique_names sample_env cmd_SR_args sample_context [sample_S, sample_R]
      (plain_argv ["cmd", "start", "1", "2", "x", "y"]) 0 true
      ⟨[⟨sample_A, some "old"⟩, ⟨sample_args, some "old"⟩], 1, none⟩ 20 (by decide)).1⟩

/-! ## C13: cursor bounds -/

theorem param_scan_cursor_bound (env : Collaborators) (cmd : clish_command_t)
    (context : clish_context_t) (argv : lub_argv_t) (need_index : Nat) (fuel : Nat)
    (paramv : clish_paramv_t) (index : Nat) (nopt : Option Nat) (st : parse_state) (e : scan_exit)
    (h : param_scan env cmd context argv need_index fuel paramv index nopt st = some e)
    (hle : st.idx ≤ lub_argv__get_count argv) : e.state.idx ≤ lub_argv__get_count argv := by
  refine param_scan_rel env cmd context argv need_index
    (fun a b => a.idx ≤ lub_argv__get_count argv → b.idx ≤ lub_argv__get_count argv)
    (fun _ hn => hn) (fun _ _ _ hab hbc hn => hbc (hab hn)) ?_ ?_ ?_
    fuel paramv index nopt st e h hle
  · intro param s hn
    rw [(candidate_capture_pargv env context need_index param _ s).2]; exact hn
  · intro param s v _ hn
    exact hn
  · intro s hlt _
    exact hlt

/-- C13: for a matcher call at any nesting level and any returned status, the
final cursor is at least the initial cursor, and it is at most the token
count when the initial cursor is; with `parse_fuel paramv` or more fuel the
call returns. -/
theorem cursor_bounds (env : Collaborators) (cmd : clish_command_t) (context : clish_context_t)
    (paramv : clish_paramv_t) (argv : lub_argv_t) (need_index : Nat) (up_level : Bool)
    (st : parse_state) (fuel : Nat) :
    (parse_fuel paramv ≤ fuel →
      ∃ r, clish_shell_parse_pargv env fuel cmd context paramv argv need_index up_level st =
        some r) ∧
    (∀ status st1,
      clish_shell_parse_pargv env fuel cmd context paramv argv need_index up_level st =
        some (status, st1) →
      st.idx ≤ st1.idx ∧
      (st.idx ≤ lub_argv__get_count argv → st1.idx ≤ lub_argv__get_count argv)) := by
  refine ⟨fun hfuel => parse_pargv_total env cmd context paramv argv need_index up_level st fuel
    hfuel, ?_⟩
  intro status st1 h
  unfold clish_shell_parse_pargv at h
  cases hs : param_scan env cmd context argv need_index fuel paramv 0 none st with
  | none => rw [hs] at h; cases h
  | some e =>
    rw [hs] at h
    simp only [Option.map_some', Option.some.injEq] at h
    have hmono := (param_scan_cursor _ _ _ _ _ _ _ _ _ _ _ hs).1
    have hbound := param_scan_cursor_bound _ _ _ _ _ _ _ _ _ _ _ hs
    have hst : st1 = (post_loop cmd argv up_level paramv e).2 := by rw [h]
    rw [hst]
    rcases post_loop_effect cmd argv up_level paramv e with
      ⟨_, hi⟩ | ⟨A, value, _, _, hlt, _, _, hi⟩
    · rw [hi]; exact ⟨hmono, hbound⟩
    · rw [hi]; exact ⟨by omega, fun _ => le_refl _⟩

/-- C13 at the sample grammar: "cmd 1 2 x" against "P", "Q" and the args
parameter, from cursor 1: the final cursor is 4, the token count. -/
theorem cursor_bounds_witness :
    clish_shell_parse_pargv sample_env 11 cmd_PQ_args sample_context [sample_P, sample_Q]
        (plain_argv ["cmd", "1", "2", "x"]) 0 true ⟨[], 1, none⟩ =
      some (.CLISH_LINE_OK,
        ⟨[⟨sample_P, some "1"⟩, ⟨sample_Q, some "2"⟩, ⟨sample_args, some "x"⟩], 4, none⟩) ∧
    (1 ≤ 4 ∧ (1 ≤ lub_argv__get_count (plain_argv ["cmd", "1", "2", "x"]) →
      4 ≤ lub_argv__get_count (plain_argv ["cmd", "1", "2", "x"]))) :=
  ⟨rfl,
    (cursor_bounds sample_env cmd_PQ_args sample_context [sample_P, sample_Q]
      (plain_argv ["cmd", "1", "2", "x"]) 0 true ⟨[], 1, none⟩ 11).2 .CLISH_LINE_OK
      ⟨[⟨sample_P, some "1"⟩, ⟨sample_Q, some "2"⟩, ⟨sample_args, some "x"⟩], 4, none⟩ rfl⟩

/-! ## C16: the cursor freeze -/

theorem validate_current_children (env : Collaborators) (context : clish_context_t)
    (pargv : clish_pargv_t) (param : clish_param_t) (arg : Option String) (v : validation)
    (h : validate_current env context pargv param arg = some v) :
    (clish_param__get_mode param = .CLISH_PARAM_SWITCH →
      ∃ A ∈ clish_param__get_paramv param, v.cparam = some A ∧
        v.rec_paramv = clish_param__get_paramv A) ∧
    (clish_param__get_mode param ≠ .CLISH_PARAM_SWITCH →
      v.cparam = none ∧ v.rec_paramv = clish_param__get_paramv param) := by
  unfold validate_current at h
  split_ifs at h with h1 h2
  · exact ⟨fun _ => switch_validate_rec _ _ _ _ _ h, fun hne => absurd h2 hne⟩
  · refine ⟨fun he => absurd he h2, fun _ => ?_⟩
    cases hb : arg.bind (fun a => clish_shell_param_validate env param a context) with
    | none => rw [hb] at h; cases h
    | some x => rw [hb] at h; cases h; exact ⟨rfl, rfl⟩

/-- C16: the loop visits a parameter `P` (test passing) that validates the
token at the cursor `c`, with outcome `v`.  The nested list to walk is that
of `P`, or for a SWITCH that of the matched alternative.  `P` is recorded in
every case.  If `P` is optional, `c` is the cursor target and `c` is the
index of the last token, the cursor stays at `c` and the nested list is not
walked: the iteration goes straight to the choice of the next sibling.
Otherwise the cursor becomes `c + 1`, and the nested list, when it is not
empty, is matched from `c + 1`, a status other than OK being returned at
once. -/
theorem cursor_freeze (env : Collaborators) (context : clish_context_t) (argv : lub_argv_t)
    (need_index : Nat)
    (nested : clish_paramv_t → parse_state → Option (clish_pargv_status_e × parse_state))
    (paramv : clish_paramv_t) (index : Nat) (nopt : Option Nat) (st : parse_state)
    (P : clish_param_t) (v : validation)
    (hP : clish_paramv__get_param paramv index = some P)
    (htest : line_test env P (current_context context st) = true)
    (hval : validate_current env (current_context context st) st.pargv P (current_arg argv st) =
      some v) :
    ((clish_param__get_mode P = .CLISH_PARAM_SWITCH →
        ∃ A ∈ clish_param__get_paramv P, v.cparam = some A ∧
          v.rec_paramv = clish_param__get_paramv A) ∧
      (clish_param__get_mode P ≠ .CLISH_PARAM_SWITCH →
        v.cparam = none ∧ v.rec_paramv = clish_param__get_paramv P)) ∧
    in_pargv (record_param st.pargv P v) (clish_param__get_name P) = true ∧
    st.idx < lub_argv__get_count argv ∧
    ((clish_param__get_optional P = true ∧ st.idx = need_index ∧
        need_index = lub_argv__get_count argv - 1) →
      iteration env context argv need_index nested paramv index nopt st =
        some (choose_next P index (if !clish_param__get_optional P then some index else nopt)
          { pargv := record_param st.pargv P v, idx := st.idx,
            last := (candidate_capture env context need_index P (current_arg argv st) st).last })) ∧
    (¬ (clish_param__get_optional P = true ∧ st.idx = need_index ∧
        need_index = lub_argv__get_count argv - 1) →
      (v.rec_paramv = [] →
        iteration env context argv need_index nested paramv index nopt st =
          some (choose_next P index (if !clish_param__get_optional P then some index else nopt)
            { pargv := record_param st.pargv P v, idx := st.idx + 1,
              last := (candidate_capture env context need_index P (current_arg argv st) st).last })) ∧
      (v.rec_paramv ≠ [] →
        iteration env context argv need_index nested paramv index nopt st =
          match nested v.rec_paramv
            { pargv := record_param st.pargv P v, idx := st.idx + 1,
              last := (candidate_capture env context need_index P (current_arg argv st) st).last } with
          | none => none
          | some (retval, st2) =>
            if retval ≠ .CLISH_LINE_OK then some (.returned retval st2)
            else some (choose_next P index
              (if !clish_param__get_optional P then some index else nopt) st2))) := by
  have hcp := candidate_capture_pargv env context need_index P (current_arg argv st) st
  have hit : iteration env context argv need_index nested paramv index nopt st =
      next_argument argv need_index nested P v index
        (if !clish_param__get_optional P then some index else nopt)
        { pargv := record_param st.pargv P v, idx := st.idx,
          last := (candidate_capture env context need_index P (current_arg argv st) st).last } := by
    rw [iteration_visit _ _ _ _ _ _ _ _ _ _ hP htest, visit_matched _ _ _ _ _ _ _ _ _ _ hval]
    simp only [hcp.2]
  refine ⟨validate_current_children _ _ _ _ _ _ hval, in_pargv_record_self _ _ _,
    current_arg_lt argv st (validate_current_arg _ _ _ _ _ _ hval), ?_, ?_⟩
  · intro hf
    rw [hit]
    unfold next_argument
    simp only
    rw [if_neg (not_not.mpr hf)]
  · intro hf
    constructor
    · intro hn
      rw [hit]
      unfold next_argument
      simp only
      rw [if_pos hf, if_neg (by simp [hn])]
    · intro hn
      rw [hit]
      unfold next_argument
      simp only
      rw [if_pos hf, if_pos (by simpa using hn)]

/-- C16 at the sample grammar: optional "O" validates "abc", the last token,
at cursor 1.  With cursor target 1 the cursor stays at 1; with cursor target
0 it moves to 2. -/
theorem cursor_freeze_witness :
    validate_current sample_env (current_context sample_context ⟨[], 1, none⟩) [] sample_O
        (current_arg (plain_argv ["cmd", "abc"]) ⟨[], 1, none⟩) =
      some ⟨"abc", none, []⟩ ∧
    iteration sample_env sample_context (plain_argv ["cmd", "abc"]) 1 (fun _ _ => none)
        [sample_O] 0 none ⟨[], 1, none⟩ =
      some (.next 0 none ⟨[⟨sample_O, some "abc"⟩], 1, none⟩) ∧
    iteration sample_env sample_context (plain_argv ["cmd", "abc"]) 0 (fun _ _ => none)
        [sample_O] 0 none ⟨[], 1, none⟩ =
      some (.next 0 none ⟨[⟨sample_O, some "abc"⟩], 2, none⟩) :=
  ⟨rfl,
    ((cursor_freeze sample_env sample_context (plain_argv ["cmd", "abc"]) 1 (fun _ _ => none)
      [sample_O] 0 none ⟨[], 1, none⟩ sample_O ⟨"abc", none, []⟩ rfl rfl rfl).2.2.2.1
      ⟨rfl, rfl, rfl⟩).trans rfl,
    (((cursor_freeze sample_env sample_context (plain_argv ["cmd", "abc"]) 0 (fun _ _ => none)
      [sample_O] 0 none ⟨[], 1, none⟩ sample_O ⟨"abc", none, []⟩ rfl rfl rfl).2.2.2.2
      (by decide)).1 rfl).trans rfl⟩

/-! ## C17: duplicate parameter -/

/-- C17: the loop visits a parameter `P` (any mode, test passing) whose name
already has an entry in the authoritative store.  Whatever the token at the
cursor and whatever the nested matcher, the iteration ends as for a failed
validation with the state untouched: store, cursor and candidates store are
as before and no nested list is walked.  The scan moves to the next sibling
when `P` is optional; it stops at `P` when `P` is mandatory and there is no
token, and the call then returns PARTIAL; it returns BAD_PARAM when `P` is
mandatory and there is a token. -/
theorem duplicate_parameter (env : Collaborators) (cmd : clish_command_t)
    (context : clish_context_t) (argv : lub_argv_t) (need_index : Nat)
    (nested : clish_paramv_t → parse_state → Option (clish_pargv_status_e × parse_state))
    (paramv : clish_paramv_t) (index : Nat) (nopt : Option Nat) (st : parse_state)
    (P : clish_param_t)
    (hP : clish_paramv__get_param paramv index = some P)
    (htest : line_test env P (current_context context st) = true)
    (hdup : in_pargv st.pargv (clish_param__get_name P) = true) :
    validate_current env (current_context context st) st.pargv P (current_arg argv st) = none ∧
    (clish_param__get_optional P = true →
      iteration env context argv need_index nested paramv index nopt st =
        some (.next (index + 1) nopt st)) ∧
    (clish_param__get_optional P = false → current_arg argv st = none →
      iteration env context argv need_index nested paramv index nopt st =
        some (.brk index st) ∧
      ∀ up_level, post_loop cmd argv up_level paramv (.finished index st) =
        (.CLISH_LINE_PARTIAL, st)) ∧
    (clish_param__get_optional P = false → ∀ t, current_arg argv st = some t →
      iteration env context argv need_index nested paramv index nopt st =
        some (.returned .CLISH_BAD_PARAM st)) := by
  have hv : validate_current env (current_context context st) st.pargv P (current_arg argv st)
      = none := by
    unfold validate_current
    unfold in_pargv at hdup
    rw [if_pos hdup]
  have hcap : candidate_capture env context need_index P (current_arg argv st) st = st := by
    unfold candidate_capture
    split
    · rfl
    · unfold in_pargv at hdup
      rw [if_neg (fun hc => by
        have := hc.2
        rw [Option.isNone_iff_eq_none] at this
        rw [this] at hdup
        cases hdup)]
  have hit : iteration env context argv need_index nested paramv index nopt st =
      some (unmatched P (current_arg argv st) index
        (if !clish_param__get_optional P then some index else nopt) st) := by
    rw [iteration_visit _ _ _ _ _ _ _ _ _ _ hP htest, visit_unmatched _ _ _ _ _ _ _ _ _ hv, hcap]
  refine ⟨hv, ?_, ?_, ?_⟩
  · intro ho
    rw [hit]
    simp only [unmatched, ho, if_true, Bool.not_true, Bool.false_eq_true, if_false]
  · intro ho ha
    constructor
    · rw [hit]
      simp only [unmatched, ho, ha, Bool.false_eq_true, if_false, Option.isNone_none, if_true]
    · intro up_level
      have hidx : lub_argv__get_count argv ≤ st.idx :=
        current_arg_isNone argv st (by rw [ha]; rfl)
      have hlt : index < clish_paramv__get_count paramv := by
        unfold clish_paramv__get_param at hP
        unfold clish_paramv__get_count
        by_contra hc
        rw [List.get?_eq_none.mpr (by omega)] at hP
        cases hP
      simp only [post_loop]
      rw [if_pos ⟨hidx, hlt, any_mandatory_drop paramv index P hP ho⟩]
  · intro ho t ha
    rw [hit]
    simp only [unmatched, ho, ha, Bool.false_eq_true, if_false, Option.isNone_some]

/-- C17 at the sample grammar: "P" already holds "0"; with the token "42" at
the cursor the mandatory "P" gives BAD_PARAM and the store keeps "0". -/
theorem duplicate_parameter_witness :
    in_pargv [⟨sample_P, some "0"⟩] (clish_param__get_name sample_P) = true ∧
    iteration sample_env sample_context (plain_argv ["cmd", "42"]) 0 (fun _ _ => none)
        [sample_P] 0 none ⟨[⟨sample_P, some "0"⟩], 1, none⟩ =
      some (.returned .CLISH_BAD_PARAM ⟨[⟨sample_P, some "0"⟩], 1, none⟩) :=
  ⟨rfl,
    (duplicate_parameter sample_env cmd_P sample_context (plain_argv ["cmd", "42"]) 0
      (fun _ _ => none) [sample_P] 0 none ⟨[⟨sample_P, some "0"⟩], 1, none⟩ sample_P rfl rfl
      rfl).2.2.2 rfl "42" rfl⟩

/-! ## C18: the SUBCOMMAND candidate filter -/

theorem candidate_switch_foldl (env : Collaborators) (context : clish_context_t)
    (arg : Option String) (alts : List clish_param_t) (last : clish_pargv_t) :
    candidate_switch env context arg alts last =
      (alts.filter (fun A => line_test env A context)).foldl
        (fun l A => candidate_insert l A arg) last := by
  induction alts generalizing last with
  | nil => rfl
  | cons c cs ih =>
    simp only [candidate_switch]
    cases ht : line_test env c context with
    | false =>
      simp only [Bool.not_false, if_true]
      rw [ih, List.filter_cons_of_neg (by simp [ht])]
    | true =>
      simp only [Bool.not_true, Bool.false_eq_true, if_false]
      rw [ih, List.filter_cons_of_pos (by simp [ht])]
      rfl

/-- C18: completion mode (`last` is the candidates store), the cursor at the
cursor target, the visited node `P` (test passing) without entry in the
authoritative store.  Candidate capture goes through the alternatives of `P`
whose test passes when `P` is a SWITCH, and through `P` itself otherwise, and
applies `candidate_insert` to each in turn.  `candidate_insert` records a
node that is not in SUBCOMMAND mode unconditionally; it records a SUBCOMMAND
node when there is no token at the cursor or the token is a case-insensitive
prefix of the node's literal value, and leaves the store alone otherwise. -/
theorem subcommand_candidate_filter (env : Collaborators) (context : clish_context_t)
    (need_index : Nat) (P : clish_param_t) (arg : Option String) (st : parse_state)
    (last : clish_pargv_t)
    (hlast : st.last = some last) (hidx : st.idx = need_index)
    (hnew : in_pargv st.pargv (clish_param__get_name P) = false)
    (htest : line_test env P (current_context context st) = true) :
    (candidate_capture env context need_index P arg st).last =
      some (((capture_list P).filter
          (fun A => line_test env A (current_context context st))).foldl
        (fun l A => candidate_insert l A arg) last) ∧
    (∀ (l : clish_pargv_t) (A : clish_param_t),
      (clish_param__get_mode A ≠ .CLISH_PARAM_SUBCOMMAND →
        candidate_insert l A arg = clish_pargv_insert l A arg) ∧
      (clish_param__get_mode A = .CLISH_PARAM_SUBCOMMAND →
        (arg = none → candidate_insert l A arg = clish_pargv_insert l A none) ∧
        (∀ a, arg = some a →
          (nocase_starts (clish_param__get_value A).data a.data = true →
            candidate_insert l A arg = clish_pargv_insert l A (some a)) ∧
          (nocase_starts (clish_param__get_value A).data a.data = false →
            candidate_insert l A arg = l)))) ∧
    (∀ n, (∃ L, (candidate_capture env context need_index P arg st).last = some L ∧
        in_pargv L n = true) ↔
      (in_pargv last n = true ∨
        ∃ A ∈ capture_list P, clish_param__get_name A = n ∧
          line_test env A (current_context context st) = true ∧
          (clish_param__get_mode A = .CLISH_PARAM_SUBCOMMAND →
            ∀ a, arg = some a →
              nocase_starts (clish_param__get_value A).data a.data = true))) := by
  have hfind : (clish_pargv_find_arg st.pargv (clish_param__get_name P)).isNone = true := by
    unfold in_pargv at hnew
    cases hf : clish_pargv_find_arg st.pargv (clish_param__get_name P) with
    | none => rfl
    | some x => rw [hf] at hnew; cases hnew
  have hcap : (candidate_capture env context need_index P arg st).last =
      some (if clish_param__get_mode P = .CLISH_PARAM_SWITCH then
        candidate_switch env (current_context context st) arg (clish_param__get_paramv P) last
        else candidate_insert last P arg) := by
    unfold candidate_capture
    rw [hlast]
    simp only
    rw [if_pos ⟨hidx, hfind⟩]
    split_ifs <;> rfl
  refine ⟨?_, ?_, ?_⟩
  · rw [hcap]
    unfold capture_list
    by_cases hm : clish_param__get_mode P = .CLISH_PARAM_SWITCH
    · rw [if_pos hm, if_pos hm, candidate_switch_foldl]
    · rw [if_neg hm, if_neg hm, List.filter_cons_of_pos (by simp [htest])]
      rfl
  · intro l A
    constructor
    · intro hm
      unfold candidate_insert
      rw [if_neg hm]
    · intro hm
      constructor
      · intro ha
        unfold candidate_insert
        rw [if_pos hm, ha]
      · intro a ha
        constructor
        · intro hp
          unfold candidate_insert
          rw [if_pos hm, ha]
          simp only
          rw [if_pos ((nocasestr_zero_iff _ _).mpr hp)]
        · intro hp
          unfold candidate_insert
          rw [if_pos hm, ha]
          simp only
          rw [if_neg (fun hc => by rw [(nocasestr_zero_iff _ _).mp hc] at hp; cases hp)]
  · intro n
    rw [hcap]
    have key : in_pargv (if clish_param__get_mode P = .CLISH_PARAM_SWITCH then
          candidate_switch env (current_context context st) arg (clish_param__get_paramv P) last
          else candidate_insert last P arg) n = true ↔
        (in_pargv last n = true ∨
          ∃ A ∈ capture_list P, clish_param__get_name A = n ∧
            line_test env A (current_context context st) = true ∧
            (clish_param__get_mode A = .CLISH_PARAM_SUBCOMMAND →
              ∀ a, arg = some a →
                nocase_starts (clish_param__get_value A).data a.data = true)) := by
      unfold capture_list
      by_cases hm : clish_param__get_mode P = .CLISH_PARAM_SWITCH
      · rw [if_pos hm, if_pos hm, in_candidate_switch]
        simp only [nocasestr_zero_iff]
      · rw [if_neg hm, if_neg hm, in_candidate_insert]
        simp only [nocasestr_zero_iff]
        constructor
        · rintro (h | h)
          · left; exact h
          · right; exact ⟨P, List.mem_singleton.mpr rfl, h.1, htest, h.2⟩
        · rintro (h | ⟨A, hA, h⟩)
          · left; exact h
          · rw [List.mem_singleton.mp hA] at h
            right; exact ⟨h.1, h.2.2⟩
    constructor
    · rintro ⟨L, hL, hin⟩
      cases hL
      exact key.mp hin
    · intro h
      exact ⟨_, rfl, key.mpr h⟩

/-- C18 at the sample grammar: SWITCH "S" with the token "sta" at the cursor:
"A" ("start") is recorded, "B" ("stop") is not. -/
theorem subcommand_candidate_filter_witness :
    (candidate_capture sample_env sample_context 1 sample_S (some "sta")
        ⟨[], 1, some []⟩).last =
      some (((capture_list sample_S).filter
          (fun A => line_test sample_env A (current_context sample_context ⟨[], 1, some []⟩))).foldl
        (fun l A => candidate_insert l A (some "sta")) []) ∧
    candidate_insert [] sample_A (some "sta") = [⟨sample_A, some "sta"⟩] ∧
    candidate_insert [⟨sample_A, some "sta"⟩] sample_B (some "sta") =
      [⟨sample_A, some "sta"⟩] :=
  have h := subcommand_candidate_filter sample_env sample_context 1 sample_S (some "sta")
    ⟨[], 1, some []⟩ [] rfl rfl rfl rfl
  ⟨h.1,
    (((h.2.1 [] sample_A).2 rfl).2 "sta" rfl).1 (by decide),
    (((h.2.1 [⟨sample_A, some "sta"⟩] sample_B).2 rfl).2 "sta" rfl).2 (by decide)⟩

/-! ## C20: no token left behind -/

theorem param_scan_finished (env : Collaborators) (cmd : clish_command_t)
    (context : clish_context_t) (argv : lub_argv_t) (need_index : Nat) (fuel : Nat) :
    ∀ (paramv : clish_paramv_t) (index : Nat) (nopt : Option Nat) (st : parse_state)
      (j : Nat) (s : parse_state),
      param_scan env cmd context argv need_index fuel paramv index nopt st =
        some (.finished j s) →
      clish_paramv__get_count paramv ≤ j ∨ lub_argv__get_count argv ≤ s.idx := by
  induction fuel with
  | zero => intro paramv index nopt st j s h; cases h
  | succ fuel ih =>
    intro paramv index nopt st j s h
    rcases param_scan_cases _ _ _ _ _ _ _ _ _ _ _ h with ⟨hi, he⟩ | ⟨_, out, hit, hout⟩
    · cases he; left; omega
    · rcases hout with ⟨i, n, s1, rfl, hrest⟩ | ⟨i, s1, rfl, he⟩ | ⟨r1, s1, rfl, he⟩
      · exact ih _ _ _ _ _ _ hrest
      · cases he
        right
        exact (iteration_brk _ _ _ _ _ _ _ _ _ _ _ hit).2.1
      · cases he

theorem post_loop_partial (cmd : clish_command_t) (argv : lub_argv_t) (up_level : Bool)
    (paramv : clish_paramv_t) (j : Nat) (s st1 : parse_state)
    (h : post_loop cmd argv up_level paramv (.finished j s) = (.CLISH_LINE_PARTIAL, st1)) :
    st1 = s ∧ lub_argv__get_count argv ≤ s.idx := by
  simp only [post_loop] at h
  split_ifs at h with h1 h2
  · simp only [Prod.mk.injEq, true_and] at h
    exact ⟨h.symm, h1.1⟩
  · cases hargs : clish_command__get_args cmd with
    | none => rw [hargs] at h; exact absurd (congrArg Prod.fst h) (by simp)
    | some A => rw [hargs] at h; exact absurd (congrArg Prod.fst h) (by simp)
  · exact absurd (congrArg Prod.fst h) (by simp)

theorem param_scan_partial (env : Collaborators) (cmd : clish_command_t)
    (context : clish_context_t) (argv : lub_argv_t) (need_index : Nat) (fuel : Nat) :
    ∀ (paramv : clish_paramv_t) (index : Nat) (nopt : Option Nat) (st s : parse_state),
      param_scan env cmd context argv need_index fuel paramv index nopt st =
        some (.returned .CLISH_LINE_PARTIAL s) →
      lub_argv__get_count argv ≤ s.idx := by
  induction fuel with
  | zero => intro paramv index nopt st s h; cases h
  | succ fuel ih =>
    intro paramv index nopt st s h
    rcases param_scan_cases _ _ _ _ _ _ _ _ _ _ _ h with ⟨_, he⟩ | ⟨_, out, hit, hout⟩
    · cases he
    · rcases hout with ⟨i, n, s1, rfl, hrest⟩ | ⟨i, s1, rfl, he⟩ | ⟨r1, s1, rfl, he⟩
      · exact ih _ _ _ _ _ hrest
      · cases he
      · cases he
        rcases iteration_returned _ _ _ _ _ _ _ _ _ _ _ hit with hb | ⟨_, pv, s0, hnest⟩
        · cases hb
        · unfold clish_shell_parse_pargv at hnest
          cases hs : param_scan env cmd context argv need_index fuel pv 0 none s0 with
          | none => rw [hs] at hnest; cases hnest
          | some e1 =>
            rw [hs] at hnest
            simp only [Option.map_some', Option.some.injEq] at hnest
            cases e1 with
            | returned r2 s2 =>
              simp only [post_loop, Prod.mk.injEq] at hnest
              rw [hnest.1, hnest.2] at hs
              exact ih _ _ _ _ _ hs
            | finished i2 s2 =>
              obtain ⟨h1, h2⟩ := post_loop_partial cmd argv false pv i2 s2 s hnest
              rw [h1]; exact h2

/-- C20: a top-level matcher call that returns OK, and a matcher call at any
level that returns PARTIAL, ends with the cursor at or past the token count;
so a top-level call that ends with tokens still unconsumed returns BAD_PARAM
or BAD_CMD. -/
theorem no_token_left_behind (env : Collaborators) (cmd : clish_command_t)
    (context : clish_context_t) (paramv : clish_paramv_t) (argv : lub_argv_t) (need_index : Nat)
    (st : parse_state) (fuel : Nat) :
    (∀ st1,
      clish_shell_parse_pargv env fuel cmd context paramv argv need_index true st =
        some (.CLISH_LINE_OK, st1) →
      lub_argv__get_count argv ≤ st1.idx) ∧
    (∀ up_level st1,
      clish_shell_parse_pargv env fuel cmd context paramv argv need_index up_level st =
        some (.CLISH_LINE_PARTIAL, st1) →
      lub_argv__get_count argv ≤ st1.idx) ∧
    (∀ status st1,
      clish_shell_parse_pargv env fuel cmd context paramv argv need_index true st =
        some (status, st1) →
      st1.idx < lub_argv__get_count argv →
      status = .CLISH_BAD_PARAM ∨ status = .CLISH_BAD_CMD) := by
  have hok : ∀ st1,
      clish_shell_parse_pargv env fuel cmd context paramv argv need_index true st =
        some (.CLISH_LINE_OK, st1) →
      lub_argv__get_count argv ≤ st1.idx := by
    intro st1 h
    unfold clish_shell_parse_pargv at h
    cases hs : param_scan env cmd context argv need_index fuel paramv 0 none st with
    | none => rw [hs] at h; cases h
    | some e =>
      rw [hs] at h
      simp only [Option.map_some', Option.some.injEq] at h
      cases e with
      | returned r s =>
        simp only [post_loop, Prod.mk.injEq] at h
        rcases param_scan_returned _ _ _ _ _ _ _ _ _ _ _ _ hs with hr | hr <;>
          (rw [hr] at h; exact absurd h.1 (by simp))
      | finished j s =>
        have hfin := param_scan_finished _ _ _ _ _ _ _ _ _ _ _ _ hs
        have hst : st1 = (post_loop cmd argv true paramv (.finished j s)).2 := by rw [h]
        rcases post_loop_effect cmd argv true paramv (.finished j s) with
          ⟨_, hi⟩ | ⟨A, value, _, _, _, _, _, hi⟩
        · have hca := args_candidate_pargv cmd argv true paramv j s
          simp only [scan_exit.state] at hi
          rw [hst, hi]
          by_contra hc
          have hj : clish_paramv__get_count paramv ≤ j := by
            rcases hfin with hj | hj
            · exact hj
            · omega
          simp only [post_loop] at h
          rw [if_neg (by omega), if_pos ⟨trivial, by rw [hca.2]; omega, hj⟩] at h
          cases hargs : clish_command__get_args cmd with
          | none => rw [hargs] at h; exact absurd (congrArg Prod.fst h) (by simp)
          | some A =>
            rw [hargs] at h
            have h2 := congrArg (fun r => r.2.idx) h
            simp only at h2
            have hne : argv.drop s.idx ≠ [] := by
              intro hd
              have := congrArg List.length hd
              simp only [List.length_drop, List.length_nil] at this
              unfold lub_argv__get_count at hc
              omega
            simp only [args_fold, hca.2] at h2
            rw [args_loop_join _ _ hne] at h2
            simp only [List.length_drop] at h2
            have h3 : st1.idx = s.idx := by rw [hst]; exact hi
            unfold lub_argv__get_count at hc
            omega
        · rw [hst, hi]
  have hpartial : ∀ up_level st1,
      clish_shell_parse_pargv env fuel cmd context paramv argv need_index up_level st =
        some (.CLISH_LINE_PARTIAL, st1) →
      lub_argv__get_count argv ≤ st1.idx := by
    intro up_level st1 h
    unfold clish_shell_parse_pargv at h
    cases hs : param_scan env cmd context argv need_index fuel paramv 0 none st with
    | none => rw [hs] at h; cases h
    | some e =>
      rw [hs] at h
      simp only [Option.map_some', Option.some.injEq] at h
      cases e with
      | returned r s =>
        simp only [post_loop, Prod.mk.injEq] at h
        rw [h.1, h.2] at hs
        exact param_scan_partial _ _ _ _ _ _ _ _ _ _ _ hs
      | finished j s =>
        obtain ⟨h1, h2⟩ := post_loop_partial cmd argv up_level paramv j s st1 h
        rw [h1]; exact h2
  refine ⟨hok, hpartial, ?_⟩
  intro status st1 h hlt
  cases status with
  | CLISH_LINE_OK => have := hok st1 h; omega
  | CLISH_LINE_PARTIAL => have := hpartial true st1 h; omega
  | CLISH_BAD_CMD => right; rfl
  | CLISH_BAD_PARAM => left; rfl

/-- C20 at the sample grammar: "cmd 1 2 x" is OK with the cursor at 4, the
token count; "cmd 1 2 x" without args parameter leaves the cursor at 3 and
is BAD_CMD. -/
theorem no_token_left_behind_witness :
    clish_shell_parse_pargv sample_env 11 cmd_PQ_args sample_context [sample_P, sample_Q]
        (plain_argv ["cmd", "1", "2", "x"]) 0 true ⟨[], 1, none⟩ =
      some (.CLISH_LINE_OK,
        ⟨[⟨sample_P, some "1"⟩, ⟨sample_Q, some "2"⟩, ⟨sample_args, some "x"⟩], 4, none⟩) ∧
    lub_argv__get_count (plain_argv ["cmd", "1", "2", "x"]) ≤ 4 ∧
    result_view (clish_shell_parse_pargv sample_env 11 cmd_PQ sample_context [sample_P, sample_Q]
        (plain_argv ["cmd", "1", "2", "x"]) 0 true ⟨[], 1, none⟩) =
      some (.CLISH_BAD_CMD, 3, [("P", some "1"), ("Q", some "2")]) :=
  ⟨rfl,
    (no_token_left_behind sample_env cmd_PQ_args sample_context [sample_P, sample_Q]
      (plain_argv ["cmd", "1", "2", "x"]) 0 ⟨[], 1, none⟩ 11).1
      ⟨[⟨sample_P, some "1"⟩, ⟨sample_Q, some "2"⟩, ⟨sample_args, some "x"⟩], 4, none⟩ rfl,
    by decide⟩

/-! ## C19: termination of the rewind scan -/

/-- C19: the matcher terminates: with `parse_fuel paramv` or more fuel it
returns, for every parameter tree, token stream, store, cursor, cursor
target and nesting level, the frozen-cursor case included.  The bound on the
rewinds: a name that has an entry is never validated again; names are never
removed from the store; so the number of parameters of the list without
entry never increases from one pass through the loop body to the next, it
decreases strictly whenever the index does not simply move one step forward
(a rewind), and it is at most the length of the list. -/
theorem matcher_terminates (env : Collaborators) (cmd : clish_command_t)
    (context : clish_context_t) (paramv : clish_paramv_t) (argv : lub_argv_t)
    (need_index : Nat) :
    (∀ (up_level : Bool) (st : parse_state) (fuel : Nat), parse_fuel paramv ≤ fuel →
      ∃ r, clish_shell_parse_pargv env fuel cmd context paramv argv need_index up_level st =
        some r) ∧
    (∀ (ctx : clish_context_t) (pargv : clish_pargv_t) (P : clish_param_t) (arg : Option String),
      in_pargv pargv (clish_param__get_name P) = true →
      validate_current env ctx pargv P arg = none) ∧
    (∀ (fuel index : Nat) (nopt : Option Nat) (st : parse_state) (i : Nat) (n : Option Nat)
        (s : parse_state),
      iteration env context argv need_index
        (fun pv s0 => clish_shell_parse_pargv env fuel cmd context pv argv need_index false s0)
        paramv index nopt st = some (.next i n s) →
      pending paramv s.pargv ≤ pending paramv st.pargv ∧
      (i ≠ index + 1 → pending paramv s.pargv < pending paramv st.pargv)) ∧
    (∀ pargv, pending paramv pargv ≤ paramv.length) := by
  refine ⟨fun up_level st fuel hfuel =>
    parse_pargv_total env cmd context paramv argv need_index up_level st fuel hfuel, ?_, ?_,
    fun pargv => pending_le_length paramv pargv⟩
  · intro ctx pargv P arg hin
    unfold validate_current
    unfold in_pargv at hin
    rw [if_pos hin]
  · intro fuel index nopt st i n s hit
    obtain ⟨hmono, hprog⟩ := iteration_next env context argv need_index _
      (fun pv s0 r hr => parse_pargv_nested_names env cmd context argv need_index fuel pv s0 r hr)
      paramv index nopt st i n s hit
    refine ⟨pending_mono paramv st.pargv s.pargv hmono, ?_⟩
    intro hne
    rcases hprog with h | ⟨param, hp, hfalse, htrue⟩
    · exact absurd h hne
    · exact pending_lt paramv st.pargv s.pargv hmono param (get_param_mem _ _ _ hp) hfalse htrue

/-- C19 at the sample grammar: the optional "O" validates "abc" with the
cursor frozen (cursor target 1, last token); the matcher returns. -/
theorem matcher_terminates_witness :
    parse_fuel [sample_O] = 5 ∧
    (∃ r, clish_shell_parse_pargv sample_env 5 cmd_OP sample_context [sample_O]
      (plain_argv ["cmd", "abc"]) 1 false ⟨[], 1, none⟩ = some r) ∧
    result_view (clish_shell_parse_pargv sample_env 5 cmd_OP sample_context [sample_O]
      (plain_argv ["cmd", "abc"]) 1 false ⟨[], 1, none⟩) =
      some (.CLISH_LINE_OK, 1, [("O", some "abc")]) :=
  ⟨by decide,
    (matcher_terminates sample_env cmd_OP sample_context [sample_O] (plain_argv ["cmd", "abc"])
      1).1 false ⟨[], 1, none⟩ 5 (by decide),
    by decide⟩

/-! ## C14: candidate capture does not influence the authoritative outcome -/

theorem choose_next_without (param : clish_param_t) (index : Nat) (nopt : Option Nat)
    (st : parse_state) :
    (choose_next param index nopt st).without_last =
      choose_next param index nopt st.without_last := by
  unfold choose_next
  split_ifs
  · split <;> rfl
  · rfl

theorem unmatched_without (param : clish_param_t) (arg : Option String) (index : Nat)
    (nopt : Option Nat) (st : parse_state) :
    (unmatched param arg index nopt st).without_last =
      unmatched param arg index nopt st.without_last := by
  unfold unmatched
  split_ifs <;> rfl

theorem candidate_capture_without (env : Collaborators) (context : clish_context_t)
    (need_index : Nat) (param : clish_param_t) (arg : Option String) (st : parse_state) :
    (candidate_capture env context need_index param arg st).without_last = st.without_last := by
  unfold candidate_capture
  split
  · rfl
  · split_ifs <;> rfl

theorem next_argument_without (argv : lub_argv_t) (need_index : Nat)
    (nested : clish_paramv_t → parse_state → Option (clish_pargv_status_e × parse_state))
    (hn : ∀ pv s, nested pv s.without_last =
      (nested pv s).map (fun r => (r.1, r.2.without_last)))
    (param : clish_param_t) (v : validation) (index : Nat) (nopt : Option Nat)
    (st : parse_state) :
    next_argument argv need_index nested param v index nopt st.without_last =
      (next_argument argv need_index nested param v index nopt st).map
        iter_exit.without_last := by
  unfold next_argument
  simp only
  have hidx : st.without_last.idx = st.idx := rfl
  rw [hidx]
  by_cases hf : (clish_param__get_optional param = true ∧ st.idx = need_index ∧
        need_index = lub_argv__get_count argv - 1)
  · rw [if_neg (not_not.mpr hf), if_neg (not_not.mpr hf)]
    simp only [Option.map_some', choose_next_without]
  · rw [if_pos hf, if_pos hf]
    by_cases hr : v.rec_paramv.length ≠ 0
    · rw [if_pos hr, if_pos hr]
      have hn1 := hn v.rec_paramv { st with idx := st.idx + 1 }
      have hs : ({ st with idx := st.idx + 1 } : parse_state).without_last =
          { st.without_last with idx := st.idx + 1 } := rfl
      rw [hs] at hn1
      rw [hn1]
      cases hnest : nested v.rec_paramv { st with idx := st.idx + 1 } with
      | none => rfl
      | some r =>
        obtain ⟨retval, st2⟩ := r
        simp only [Option.map_some']
        by_cases hret : retval ≠ .CLISH_LINE_OK
        · rw [if_pos hret, if_pos hret]; rfl
        · rw [if_neg hret, if_neg hret]
          simp only [Option.map_some', choose_next_without]
    · rw [if_neg hr, if_neg hr]
      simp only [Option.map_some', choose_next_without]
      rfl

theorem iteration_without (env : Collaborators) (context : clish_context_t) (argv : lub_argv_t)
    (need_index : Nat)
    (nested : clish_paramv_t → parse_state → Option (clish_pargv_status_e × parse_state))
    (hn : ∀ pv s, nested pv s.without_last =
      (nested pv s).map (fun r => (r.1, r.2.without_last)))
    (paramv : clish_paramv_t) (index : Nat) (nopt : Option Nat) (st : parse_state) :
    iteration env context argv need_index nested paramv index nopt st.without_last =
      (iteration env context argv need_index nested paramv index nopt st).map
        iter_exit.without_last := by
  have hctx : current_context context st.without_last = current_context context st := rfl
  have harg : current_arg argv st.without_last = current_arg argv st := rfl
  cases hp : clish_paramv__get_param paramv index with
  | none =>
    unfold iteration
    rw [hp]; rfl
  | some param =>
    cases ht : line_test env param (current_context context st) with
    | false =>
      rw [iteration_skip _ _ _ _ _ _ _ _ _ _ hp (by rw [hctx]; exact ht),
        iteration_skip _ _ _ _ _ _ _ _ _ _ hp ht]
      rfl
    | true =>
      rw [iteration_visit _ _ _ _ _ _ _ _ _ _ hp (by rw [hctx]; exact ht),
        iteration_visit _ _ _ _ _ _ _ _ _ _ hp ht]
      have hcw : candidate_capture env context need_index param (current_arg argv st)
          st.without_last = st.without_last :=
        candidate_capture_none _ _ _ _ _ _ rfl
      cases hv : validate_current env (current_context context st) st.pargv param
          (current_arg argv st) with
      | none =>
        rw [visit_unmatched _ _ _ _ _ _ _ _ _ (by rw [hctx, harg]; exact hv),
          visit_unmatched _ _ _ _ _ _ _ _ _ hv, harg, hcw]
        simp only [Option.map_some', unmatched_without, candidate_capture_without]
      | some v =>
        rw [visit_matched _ _ _ _ _ _ _ _ _ _ (by rw [hctx, harg]; exact hv),
          visit_matched _ _ _ _ _ _ _ _ _ _ hv, harg, hcw]
        have hcp := candidate_capture_pargv env context need_index param (current_arg argv st) st
        have hs : ({ st.without_last with pargv := record_param st.without_last.pargv param v } :
            parse_state) =
            ({ candidate_capture env context need_index param (current_arg argv st) st with
              pargv := record_param st.pargv param v } : parse_state).without_last := by
          simp only [parse_state.without_last, hcp.2]
        rw [hs]
        exact next_argument_without argv need_index nested hn param v index _ _

theorem post_loop_without (cmd : clish_command_t) (argv : lub_argv_t) (up_level : Bool)
    (paramv : clish_paramv_t) (e : scan_exit) :
    post_loop cmd argv up_level paramv e.without_last =
      ((post_loop cmd argv up_level paramv e).1,
        (post_loop cmd argv up_level paramv e).2.without_last) := by
  cases e with
  | returned r s => rfl
  | finished j s =>
    have hca := args_candidate_pargv cmd argv up_level paramv j s
    have hcw : args_candidate cmd argv up_level paramv j s.without_last = s.without_last := by
      unfold args_candidate; rfl
    have hcl : (args_candidate cmd argv up_level paramv j s).without_last = s.without_last := by
      unfold args_candidate
      split
      · split_ifs <;> rfl
      · rfl
    simp only [scan_exit.without_last, post_loop, hcw]
    have hidx : s.without_last.idx = s.idx := rfl
    rw [hidx, hca.2]
    split_ifs
    · rfl
    · cases hargs : clish_command__get_args cmd with
      | none => simp only [hcl]
      | some A =>
        simp only [args_fold, hca.1, hca.2, parse_state.without_last]
    · simp only [hcl]

theorem param_scan_without (env : Collaborators) (cmd : clish_command_t)
    (context : clish_context_t) (argv : lub_argv_t) (need_index : Nat) (fuel : Nat) :
    ∀ (paramv : clish_paramv_t) (index : Nat) (nopt : Option Nat) (st : parse_state),
      param_scan env cmd context argv need_index fuel paramv index nopt st.without_last =
        (param_scan env cmd context argv need_index fuel paramv index nopt st).map
          scan_exit.without_last := by
  induction fuel with
  | zero => intro paramv index nopt st; rfl
  | succ fuel ih =>
    intro paramv index nopt st
    have hn : ∀ pv s,
        clish_shell_parse_pargv env fuel cmd context pv argv need_index false
          s.without_last =
        (clish_shell_parse_pargv env fuel cmd context pv argv need_index false s).map
          (fun r => (r.1, r.2.without_last)) := by
      intro pv s
      unfold clish_shell_parse_pargv
      rw [ih pv 0 none s]
      cases param_scan env cmd context argv need_index fuel pv 0 none s with
      | none => rfl
      | some e => simp only [Option.map_some', post_loop_without]
    rw [param_scan_succ, param_scan_succ]
    by_cases hi : index < clish_paramv__get_count paramv
    · rw [if_pos hi, if_pos hi, iteration_without env context argv need_index _ hn]
      cases iteration env context argv need_index
          (fun pv s => clish_shell_parse_pargv env fuel cmd context pv argv need_index false s)
          paramv index nopt st with
      | none => rfl
      | some out =>
        cases out with
        | next i n s => exact ih paramv i n s
        | brk i s => rfl
        | returned r s => rfl
    · rw [if_neg hi, if_neg hi]
      rfl

/-- C14: for every grammar, token stream, store, cursor and cursor target,
running the matcher without candidates store gives what running it with a
candidates store `last` gives, candidates store apart: the same status, the
same final authoritative store and the same final cursor (and it returns
with the same fuel). -/
theorem capture_does_not_interfere (env : Collaborators) (cmd : clish_command_t)
    (context : clish_context_t) (paramv : clish_paramv_t) (argv : lub_argv_t) (need_index : Nat)
    (up_level : Bool) (fuel : Nat) (pargv : clish_pargv_t) (idx : Nat) (last : clish_pargv_t) :
    clish_shell_parse_pargv env fuel cmd context paramv argv need_index up_level
        ⟨pargv, idx, none⟩ =
      (clish_shell_parse_pargv env fuel cmd context paramv argv need_index up_level
        ⟨pargv, idx, some last⟩).map (fun r => (r.1, ⟨r.2.pargv, r.2.idx, none⟩)) := by
  have h := param_scan_without env cmd context argv need_index fuel paramv 0 none
    ⟨pargv, idx, some last⟩
  have hw : (parse_state.mk pargv idx (some last)).without_last = ⟨pargv, idx, none⟩ := rfl
  rw [hw] at h
  unfold clish_shell_parse_pargv
  rw [h]
  cases param_scan env cmd context argv need_index fuel paramv 0 none ⟨pargv, idx, some last⟩ with
  | none => rfl
  | some e =>
    simp only [Option.map_some', post_loop_without]
    rfl

/-! ### The relation rule, with the test of the visited parameter known to pass -/

theorem iteration_rel_tested (env : Collaborators) (context : clish_context_t)
    (argv : lub_argv_t) (need_index : Nat) (R : parse_state → parse_state → Prop)
    (hrefl : ∀ s, R s s) (htrans : ∀ a b c, R a b → R b c → R a c)
    (hcap : ∀ param st, line_test env param (current_context context st) = true →
      R st (candidate_capture env context need_index param (current_arg argv st) st))
    (hrec : ∀ param st v, line_test env param (current_context context st) = true →
      validate_current env (current_context context st) st.pargv param (current_arg argv st) = some v →
      R st { st with pargv := record_param st.pargv param v })
    (hadv : ∀ st : parse_state, st.idx < lub_argv__get_count argv → R st { st with idx := st.idx + 1 })
    (nested : clish_paramv_t → parse_state → Option (clish_pargv_status_e × parse_state))
    (hnested : ∀ pv s r, nested pv s = some r → R s r.2)
    (paramv : clish_paramv_t) (index : Nat) (nopt : Option Nat) (st : parse_state) (out : iter_exit)
    (h : iteration env context argv need_index nested paramv index nopt st = some out) :
    R st out.state := by
  rcases iteration_cases _ _ _ _ _ _ _ _ _ _ h with ⟨_, rfl⟩ | ⟨param, _, ⟨_, rfl⟩ | ⟨ht, hv⟩⟩
  · exact hrefl _
  · exact hrefl _
  · have hc := hcap param st ht
    have hcp := candidate_capture_pargv env context need_index param (current_arg argv st) st
    have harg : current_arg argv
        (candidate_capture env context need_index param (current_arg argv st) st) =
        current_arg argv st := current_arg_congr argv _ _ hcp.2
    have hctx : current_context context
        (candidate_capture env context need_index param (current_arg argv st) st) =
        current_context context st := by
      unfold current_context; rw [hcp.1]
    rcases visit_cases _ _ _ _ _ _ _ _ _ _ hv with ⟨_, rfl⟩ | ⟨v, hval, hna⟩
    · rw [unmatched_state]; exact hc
    · have hval1 : validate_current env
          (current_context context (candidate_capture env context need_index param (current_arg argv st) st))
          (candidate_capture env context need_index param (current_arg argv st) st).pargv param
          (current_arg argv (candidate_capture env context need_index param (current_arg argv st) st))
          = some v := by rw [harg]; exact hval
      have hr := htrans _ _ _ hc (hrec param _ v (by rw [hctx]; exact ht) hval1)
      have hlt := current_arg_lt argv _ (validate_current_arg _ _ _ _ _ _ hval1)
      have ha := hadv { candidate_capture env context need_index param (current_arg argv st) st with
          pargv := record_param
            (candidate_capture env context need_index param (current_arg argv st) st).pargv param v } hlt
      rcases next_argument_cases _ _ _ _ _ _ _ _ _ hna with
        ⟨_, rfl⟩ | ⟨_, ⟨_, rfl⟩ | ⟨_, retval, st2, hnest, ⟨_, rfl⟩ | ⟨_, rfl⟩⟩⟩
      · rw [choose_next_state]; exact hr
      · rw [choose_next_state]; exact htrans _ _ _ hr ha
      · exact htrans _ _ _ hr (htrans _ _ _ ha (hnested _ _ _ hnest))
      · rw [choose_next_state]
        exact htrans _ _ _ hr (htrans _ _ _ ha (hnested _ _ _ hnest))

theorem param_scan_rel_tested (env : Collaborators) (cmd : clish_command_t)
    (context : clish_context_t) (argv : lub_argv_t) (need_index : Nat)
    (R : parse_state → parse_state → Prop)
    (hrefl : ∀ s, R s s) (htrans : ∀ a b c, R a b → R b c → R a c)
    (hcap : ∀ param st, line_test env param (current_context context st) = true →
      R st (candidate_capture env context need_index param (current_arg argv st) st))
    (hrec : ∀ param st v, line_test env param (current_context context st) = true →
      validate_current env (current_context context st) st.pargv param (current_arg argv st) = some v →
      R st { st with pargv := record_param st.pargv param v })
    (hadv : ∀ st : parse_state, st.idx < lub_argv__get_count argv → R st { st with idx := st.idx + 1 })
    (fuel : Nat) :
    ∀ (paramv : clish_paramv_t) (index : Nat) (nopt : Option Nat) (st : parse_state) (e : scan_exit),
      param_scan env cmd context argv need_index fuel paramv index nopt st = some e →
      R st e.state := by
  induction fuel with
  | zero => intro paramv index nopt st e h; cases h
  | succ fuel ih =>
    intro paramv index nopt st e h
    rcases param_scan_cases _ _ _ _ _ _ _ _ _ _ _ h with ⟨_, rfl⟩ | ⟨_, out, hit, hout⟩
    · exact hrefl _
    · have hnested : ∀ pv s r,
          clish_shell_parse_pargv env fuel cmd context pv argv need_index false s = some r →
          R s r.2 := by
        intro pv s r hr
        unfold clish_shell_parse_pargv at hr
        cases hs : param_scan env cmd context argv need_index fuel pv 0 none s with
        | none => rw [hs] at hr; cases hr
        | some e1 =>
          rw [hs] at hr
          cases hr
          rw [post_loop_nested_state]
          exact ih _ _ _ _ _ hs
      have hstep := iteration_rel_tested env context argv need_index R hrefl htrans hcap hrec
        hadv _ hnested _ _ _ _ _ hit
      rcases hout with ⟨i, n, s, rfl, hrest⟩ | ⟨i, s, rfl, rfl⟩ | ⟨r, s, rfl, rfl⟩
      · exact htrans _ _ _ hstep (ih _ _ _ _ _ hrest)
      · exact hstep
      · exact hstep

/-! ### Entries hold parameters whose test passed -/

theorem mem_insert_param (pargv : clish_pargv_t) (param : clish_param_t)
    (value : Option String) (e : clish_parg_t)
    (h : e ∈ clish_pargv_insert pargv param value) :
    e.param = param ∨ ∃ e1 ∈ pargv, e1.param = e.param := by
  induction pargv with
  | nil =>
    simp only [clish_pargv_insert, List.mem_singleton] at h
    left; rw [h]
  | cons a as ih =>
    simp only [clish_pargv_insert] at h
    split_ifs at h
    · rcases List.mem_cons.mp h with h1 | h1
      · right; exact ⟨a, List.mem_cons_self _ _, by rw [h1]⟩
      · right; exact ⟨e, List.mem_cons_of_mem _ h1, rfl⟩
    · rcases List.mem_cons.mp h with h1 | h1
      · right; exact ⟨a, List.mem_cons_self _ _, by rw [h1]⟩
      · rcases ih h1 with h2 | ⟨e1, he1, h2⟩
        · left; exact h2
        · right; exact ⟨e1, List.mem_cons_of_mem _ he1, h2⟩

theorem tests_pass_insert (env : Collaborators) (cmd : clish_command_t) (ctx : clish_context_t)
    (pargv : clish_pargv_t) (param : clish_param_t) (value : Option String)
    (h : tests_pass env cmd ctx pargv)
    (hp : line_test env param ctx = true ∨ clish_command__get_args cmd = some param) :
    tests_pass env cmd ctx (clish_pargv_insert pargv param value) := by
  intro e he
  rcases mem_insert_param _ _ _ _ he with h1 | ⟨e1, he1, h1⟩
  · rw [h1]; exact hp
  · rw [← h1]; exact h e1 he1

theorem tests_pass_candidate_insert (env : Collaborators) (cmd : clish_command_t)
    (ctx : clish_context_t) (last : clish_pargv_t) (param : clish_param_t)
    (arg : Option String) (h : tests_pass env cmd ctx last)
    (hp : line_test env param ctx = true) :
    tests_pass env cmd ctx (candidate_insert last param arg) := by
  unfold candidate_insert
  split_ifs
  · split
    · exact tests_pass_insert _ _ _ _ _ _ h (Or.inl hp)
    · simp only
      split_ifs
      · exact tests_pass_insert _ _ _ _ _ _ h (Or.inl hp)
      · exact h
  · exact tests_pass_insert _ _ _ _ _ _ h (Or.inl hp)

theorem tests_pass_candidate_switch (env : Collaborators) (cmd : clish_command_t)
    (ctx : clish_context_t) (arg : Option String) (alts : List clish_param_t)
    (last : clish_pargv_t) (h : tests_pass env cmd ctx last) :
    tests_pass env cmd ctx (candidate_switch env ctx arg alts last) := by
  induction alts generalizing last with
  | nil => exact h
  | cons c cs ih =>
    simp only [candidate_switch]
    cases ht : line_test env c ctx with
    | false => simp only [Bool.not_false, if_true]; exact ih last h
    | true =>
      simp only [Bool.not_true, Bool.false_eq_true, if_false]
      exact ih _ (tests_pass_candidate_insert _ _ _ _ _ _ h ht)

theorem switch_validate_test (env : Collaborators) (context : clish_context_t)
    (arg : Option String) (l : List clish_param_t) (v : validation)
    (h : switch_validate env context arg l = some v) :
    ∀ c, v.cparam = some c → line_test env c context = true := by
  induction l with
  | nil => simp [switch_validate] at h
  | cons c cs ih =>
    simp only [switch_validate] at h
    cases ht : line_test env c context with
    | false =>
      rw [ht] at h
      simp only [Bool.not_false, if_true] at h
      exact ih h
    | true =>
      rw [ht] at h
      simp only [Bool.not_true, Bool.false_eq_true, if_false] at h
      cases hb : arg.bind (fun a => clish_shell_param_validate env c a context) with
      | none => rw [hb] at h; exact ih h
      | some x =>
        rw [hb] at h
        cases h
        intro c1 hc1
        cases hc1
        exact ht

theorem validate_current_test (env : Collaborators) (context : clish_context_t)
    (pargv : clish_pargv_t) (param : clish_param_t) (arg : Option String) (v : validation)
    (h : validate_current env context pargv param arg = some v) :
    ∀ c, v.cparam = some c → line_test env c context = true := by
  unfold validate_current at h
  split_ifs at h
  · exact switch_validate_test _ _ _ _ _ h
  · cases hb : arg.bind (fun a => clish_shell_param_validate env param a context) with
    | none => rw [hb] at h; cases h
    | some x =>
      rw [hb] at h
      cases h
      intro c hc
      cases hc

/-! ## C11: the applicability filter -/

/-- C11 (amended): with applicability tests that do not depend on the store
and a parse started with empty stores, every entry of the final authoritative
store and every entry of the final candidates store holds a parameter whose
test passes, or the command's args parameter: sibling parameters, SWITCH
alternatives and nested parameters are all tested before they are recorded
or offered; the args parameter is inserted by the post-loop statements
without its test being evaluated. -/
theorem applicability_filter (env : Collaborators) (cmd : clish_command_t)
    (context : clish_context_t) (paramv : clish_paramv_t) (argv : lub_argv_t) (need_index : Nat)
    (up_level : Bool) (fuel : Nat) (st : parse_state)
    (hfixed : ∀ p, ∀ a b : parse_state,
      line_test env p (current_context context a) = line_test env p (current_context context b))
    (hpargv : st.pargv = []) (hlast : st.last = none ∨ st.last = some []) :
    (parse_fuel paramv ≤ fuel →
      ∃ r, clish_shell_parse_pargv env fuel cmd context paramv argv need_index up_level st =
        some r) ∧
    (∀ status st1,
      clish_shell_parse_pargv env fuel cmd context paramv argv need_index up_level st =
        some (status, st1) →
      tests_pass env cmd (current_context context st1) st1.pargv ∧
      ∀ l, st1.last = some l → tests_pass env cmd (current_context context st1) l) := by
  refine ⟨fun hfuel => parse_pargv_total env cmd context paramv argv need_index up_level st fuel
    hfuel, ?_⟩
  intro status st1 h
  -- tests do not depend on the state the context shows
  have hctx : ∀ (a b : parse_state) (l : clish_pargv_t),
      tests_pass env cmd (current_context context a) l →
      tests_pass env cmd (current_context context b) l := by
    intro a b l hl e he
    rcases hl e he with h1 | h1
    · left; rw [hfixed e.param b a]; exact h1
    · right; exact h1
  unfold clish_shell_parse_pargv at h
  cases hs : param_scan env cmd context argv need_index fuel paramv 0 none st with
  | none => rw [hs] at h; cases h
  | some e =>
    rw [hs] at h
    simp only [Option.map_some', Option.some.injEq] at h
    have hinit : tests_pass env cmd (current_context context st) st.pargv ∧
        ∀ l, st.last = some l → tests_pass env cmd (current_context context st) l := by
      constructor
      · rw [hpargv]; intro e he; cases he
      · intro l hl
        rcases hlast with h1 | h1
        · rw [h1] at hl; cases hl
        · rw [h1] at hl; cases hl; intro e he; cases he
    have hscan : tests_pass env cmd (current_context context st) e.state.pargv ∧
        ∀ l, e.state.last = some l → tests_pass env cmd (current_context context st) l := by
      refine param_scan_rel_tested env cmd context argv need_index
        (fun a b => (tests_pass env cmd (current_context context st) a.pargv ∧
            ∀ l, a.last = some l → tests_pass env cmd (current_context context st) l) →
          (tests_pass env cmd (current_context context st) b.pargv ∧
            ∀ l, b.last = some l → tests_pass env cmd (current_context context st) l))
        (fun _ hn => hn) (fun _ _ _ hab hbc hn => hbc (hab hn)) ?_ ?_ ?_
        fuel paramv 0 none st e hs hinit
      · intro param s ht hn
        have hcp := candidate_capture_pargv env context need_index param (current_arg argv s) s
        refine ⟨by rw [hcp.1]; exact hn.1, ?_⟩
        intro l hl
        unfold candidate_capture at hl
        cases hsl : s.last with
        | none => rw [hsl] at hl; simp only at hl; rw [hsl] at hl; cases hl
        | some last =>
          rw [hsl] at hl
          simp only at hl
          have hgood := hn.2 last hsl
          split_ifs at hl
          · cases hl
            exact hctx s st _ (tests_pass_candidate_switch env cmd _ _ _ _ (hctx st s _ hgood))
          · cases hl
            exact hctx s st _ (tests_pass_candidate_insert env cmd _ _ _ _ (hctx st s _ hgood) ht)
          · rw [hsl] at hl; cases hl; exact hgood
      · intro param s v ht hval hn
        refine ⟨?_, hn.2⟩
        have hp : line_test env param (current_context context st) = true := by
          rw [hfixed param st s]; exact ht
        simp only
        unfold record_param
        cases hc : v.cparam with
        | none => exact tests_pass_insert _ _ _ _ _ _ hn.1 (Or.inl hp)
        | some c =>
          have hct : line_test env c (current_context context st) = true := by
            rw [hfixed c st s]; exact validate_current_test _ _ _ _ _ _ hval c hc
          exact tests_pass_insert _ _ _ _ _ _
            (tests_pass_insert _ _ _ _ _ _ hn.1 (Or.inl hp)) (Or.inl hct)
      · intro s _ hn; exact hn
    have hst : st1 = (post_loop cmd argv up_level paramv e).2 := by rw [h]
    constructor
    · apply hctx st st1
      rw [hst]
      rcases post_loop_effect cmd argv up_level paramv e with
        ⟨hp, _⟩ | ⟨A, value, hA, _, _, _, hp, _⟩
      · rw [hp]; exact hscan.1
      · rw [hp]; exact tests_pass_insert _ _ _ _ _ _ hscan.1 (Or.inr hA)
    · intro l hl
      apply hctx st st1
      rw [hst] at hl
      rcases post_loop_last cmd argv up_level paramv e with h1 | ⟨_, A, hA, h2⟩
      · rw [h1] at hl; exact hscan.2 l hl
      · rw [h2] at hl
        cases hl
        intro e1 he1
        rw [List.mem_singleton] at he1
        rw [he1]
        right; exact hA

/-- C11 fails as stated for the args parameter: its test fails, yet the args
fold puts it into the authoritative store ("cmd x"), and in completion mode
it is offered as a candidate ("cmd", cursor target 1). -/
theorem applicability_counterexample :
    line_test sample_env sample_args_off (current_context sample_context ⟨[], 1, none⟩) = false ∧
    clish_shell_parse_pargv sample_env 1 cmd_args_off sample_context
        (clish_command__get_paramv cmd_args_off) (plain_argv ["cmd", "x"]) 0 true
        ⟨[], 1, none⟩ =
      some (.CLISH_LINE_OK, ⟨[⟨sample_args_off, some "x"⟩], 2, none⟩) ∧
    clish_shell_parse_pargv sample_env 1 cmd_args_off sample_context
        (clish_command__get_paramv cmd_args_off) (plain_argv ["cmd"]) 1 true
        ⟨[], 1, some []⟩ =
      some (.CLISH_LINE_OK, ⟨[], 1, some [⟨sample_args_off, some ""⟩]⟩) :=
  ⟨rfl, rfl, rfl⟩

/-- C11 (amended) at the sample grammar: "cmd sta" against the SWITCH "S" in
completion mode. -/
theorem applicability_filter_witness :
    clish_shell_parse_pargv sample_env 5 cmd_S sample_context [sample_S]
        (plain_argv ["cmd", "sta"]) 1 true ⟨[], 1, some []⟩ =
      some (.CLISH_LINE_OK, ⟨[⟨sample_S, some "A"⟩, ⟨sample_A, some "start"⟩], 2,
        some [⟨sample_A, some "sta"⟩]⟩) ∧
    tests_pass sample_env cmd_S
      (current_context sample_context
        ⟨[⟨sample_S, some "A"⟩, ⟨sample_A, some "start"⟩], 2, some [⟨sample_A, some "sta"⟩]⟩)
      [⟨sample_S, some "A"⟩, ⟨sample_A, some "start"⟩] :=
  ⟨rfl,
    ((applicability_filter sample_env cmd_S sample_context [sample_S]
      (plain_argv ["cmd", "sta"]) 1 true 5 ⟨[], 1, some []⟩ (fun _ _ _ => rfl) rfl
      (Or.inr rfl)).2 .CLISH_LINE_OK
      ⟨[⟨sample_S, some "A"⟩, ⟨sample_A, some "start"⟩], 2, some [⟨sample_A, some "sta"⟩]⟩
      rfl).1⟩

/-! ### Passes through the loop body that do not depend on nested lists -/

theorem get_param_count (paramv : clish_paramv_t) (index : Nat) (p : clish_param_t)
    (h : clish_paramv__get_param paramv index = some p) :
    index < clish_paramv__get_count paramv := by
  unfold clish_paramv__get_param at h
  unfold clish_paramv__get_count
  by_contra hc
  rw [List.get?_eq_none.mpr (by omega)] at h
  cases h

theorem insert_absent (pargv : clish_pargv_t) (param : clish_param_t) (value : Option String)
    (h : in_pargv pargv (clish_param__get_name param) = false) :
    clish_pargv_insert pargv param value = pargv ++ [⟨param, value⟩] := by
  induction pargv with
  | nil => rfl
  | cons e es ih =>
    have hne : clish_param__get_name e.param ≠ clish_param__get_name param := by
      intro hc
      simp [in_pargv, clish_pargv_find_arg, hc] at h
    have hes : in_pargv es (clish_param__get_name param) = false := by
      simpa [in_pargv, clish_pargv_find_arg, hne] using h
    simp only [clish_pargv_insert, if_neg hne, ih hes, List.cons_append]

/-- An optional parameter that is not validated, off the cursor target: the
loop moves to the next sibling. -/
theorem param_scan_skip (env : Collaborators) (cmd : clish_command_t) (context : clish_context_t)
    (argv : lub_argv_t) (need_index : Nat) (paramv : clish_paramv_t) (index : Nat)
    (nopt : Option Nat) (st : parse_state) (q : clish_param_t)
    (hq : clish_paramv__get_param paramv index = some q)
    (ht : line_test env q (current_context context st) = true)
    (hopt : clish_param__get_optional q = true)
    (hv : validate_current env (current_context context st) st.pargv q (current_arg argv st) =
      none)
    (hoff : st.idx ≠ need_index) (f : Nat) :
    param_scan env cmd context argv need_index (f + 1) paramv index nopt st =
      param_scan env cmd context argv need_index f paramv (index + 1) nopt st := by
  rw [param_scan_succ, if_pos (get_param_count _ _ _ hq),
    iteration_visit _ _ _ _ _ _ _ _ _ _ hq ht, visit_unmatched _ _ _ _ _ _ _ _ _ hv,
    candidate_capture_off_target _ _ _ _ _ _ hoff]
  simp only [unmatched, hopt, if_true, Bool.not_true, Bool.false_eq_true, if_false]

/-- An optional, unordered parameter without nested parameters that validates
the token, off the cursor target and with no mandatory sibling seen so far:
the entry is inserted, the cursor advances and the index is rewound to 0. -/
theorem param_scan_match (env : Collaborators) (cmd : clish_command_t)
    (context : clish_context_t) (argv : lub_argv_t) (need_index : Nat) (paramv : clish_paramv_t)
    (index : Nat) (st : parse_state) (p : clish_param_t) (x : String)
    (hp : clish_paramv__get_param paramv index = some p)
    (hfree : free_optional env p)
    (hv : validate_current env (current_context context st) st.pargv p (current_arg argv st) =
      some ⟨x, none, []⟩)
    (hoff : st.idx ≠ need_index) (f : Nat) :
    param_scan env cmd context argv need_index (f + 1) paramv index none st =
      param_scan env cmd context argv need_index f paramv 0 none
        ⟨clish_pargv_insert st.pargv p (some x), st.idx + 1, st.last⟩ := by
  obtain ⟨_, hopt, hord, _, htest⟩ := hfree
  rw [param_scan_succ, if_pos (get_param_count _ _ _ hp),
    iteration_visit _ _ _ _ _ _ _ _ _ _ hp (htest _), visit_matched _ _ _ _ _ _ _ _ _ _ hv,
    candidate_capture_off_target _ _ _ _ _ _ hoff]
  unfold next_argument
  simp only
  rw [if_pos (fun hc => hoff hc.2.1), if_neg (by simp)]
  simp only [choose_next, hopt, hord, Bool.not_true, Bool.false_eq_true, if_false,
    not_false_eq_true, and_self, if_true, record_param]

/-- The token at the cursor is accepted by `p` only, `p` has no entry, and
every sibling before `p` is a free optional with another name: from any index
up to the position of `p` the loop reaches `p`, inserts its entry, advances
the cursor and rewinds to 0. -/
theorem param_scan_token (env : Collaborators) (cmd : clish_command_t)
    (context : clish_context_t) (argv : lub_argv_t) (need_index : Nat)
    (pre : List clish_param_t) (p : clish_param_t) (post : List clish_param_t)
    (st : parse_state) (t x : String)
    (harg : current_arg argv st = some t)
    (hpre : ∀ q ∈ pre, free_optional env q ∧
      ∀ ctx, clish_shell_param_validate env q t ctx = none)
    (hfree : free_optional env p)
    (hacc : ∀ ctx, clish_shell_param_validate env p t ctx = some x)
    (hnew : in_pargv st.pargv (clish_param__get_name p) = false)
    (hoff : st.idx ≠ need_index) (d : Nat) :
    ∀ i, i + d = pre.length →
      ∃ k, ∀ f, param_scan env cmd context argv need_index (f + k) (pre ++ p :: post) i none st =
        param_scan env cmd context argv need_index f (pre ++ p :: post) 0 none
          ⟨clish_pargv_insert st.pargv p (some x), st.idx + 1, st.last⟩ := by
  induction d with
  | zero =>
    intro i hi
    have hp : clish_paramv__get_param (pre ++ p :: post) i = some p := by
      unfold clish_paramv__get_param
      rw [List.get?_eq_getElem?, List.getElem?_append_right (by omega)]
      have : i - pre.length = 0 := by omega
      rw [this]; simp
    have hv : validate_current env (current_context context st) st.pargv p (current_arg argv st)
        = some ⟨x, none, []⟩ := by
      rw [harg, validate_current_plain env _ _ p t hnew (by rw [hfree.1]; decide), hacc,
        hfree.2.2.2.1]
      rfl
    exact ⟨1, fun f => param_scan_match env cmd context argv need_index _ i st p x hp hfree hv
      hoff f⟩
  | succ d ih =>
    intro i hi
    obtain ⟨k, hk⟩ := ih (i + 1) (by omega)
    have hlt : i < pre.length := by omega
    have hq : clish_paramv__get_param (pre ++ p :: post) i = some (pre.get ⟨i, hlt⟩) := by
      unfold clish_paramv__get_param
      rw [List.get?_eq_getElem?, List.getElem?_append_left hlt]
      simp
    have hmem : pre.get ⟨i, hlt⟩ ∈ pre := List.get_mem _ _ _
    obtain ⟨hqfree, hqrej⟩ := hpre _ hmem
    have hv : validate_current env (current_context context st) st.pargv (pre.get ⟨i, hlt⟩)
        (current_arg argv st) = none := by
      cases hin : in_pargv st.pargv (clish_param__get_name (pre.get ⟨i, hlt⟩)) with
      | true =>
        unfold validate_current
        unfold in_pargv at hin
        rw [if_pos hin]
      | false =>
        rw [harg, validate_current_plain env _ _ _ t hin (by rw [hqfree.1]; decide), hqrej]
        rfl
    refine ⟨k + 1, fun f => ?_⟩
    have hstep := param_scan_skip env cmd context argv need_index (pre ++ p :: post) i none st _
      hq (hqfree.2.2.2.2 _) hqfree.2.1 hv hoff (f + k)
    rw [← Nat.add_assoc, hstep]
    exact hk f

theorem drop_eq_cons {α : Type} (l : List α) (n : Nat) (a : α) (r : List α)
    (h : l.drop n = a :: r) : n < l.length ∧ l.get? n = some a ∧ l.drop (n + 1) = r := by
  have hlt : n < l.length := by
    by_contra hc
    rw [List.drop_eq_nil_of_le (by omega)] at h
    cases h
  rw [List.drop_eq_getElem_cons hlt] at h
  injection h with h1 h2
  exact ⟨hlt, by rw [List.get?_eq_getElem?, List.getElem?_eq_getElem hlt, h1], h2⟩

/-- All remaining tokens are consumed one after the other, each leaving the
entry of its accepting parameter at the end of the store. -/
theorem param_scan_tokens (env : Collaborators) (cmd : clish_command_t)
    (context : clish_context_t) (argv : lub_argv_t) (need_index : Nat) (paramv : clish_paramv_t)
    (hfree : free_optionals env paramv)
    (toks : List lub_arg_t) (accept : List (clish_param_t × String))
    (hacc : List.Forall₂ (accepted_only_by env paramv) toks accept) :
    ∀ st : parse_state, argv.drop st.idx = toks →
      (accept.map (fun px => clish_param__get_name px.1)).Nodup →
      (∀ px ∈ accept, in_pargv st.pargv (clish_param__get_name px.1) = false) →
      (∀ i, st.idx ≤ i → i < lub_argv__get_count argv → i ≠ need_index) →
      ∃ k, ∀ f, param_scan env cmd context argv need_index (f + k) paramv 0 none st =
        param_scan env cmd context argv need_index f paramv 0 none
          ⟨st.pargv ++ accept.map accept_entry, st.idx + toks.length, st.last⟩ := by
  induction hacc with
  | nil =>
    intro st _ _ _ _
    exact ⟨0, fun f => by simp⟩
  | @cons t px ts as hpx _ ih =>
    intro st hdrop hnd hnew hoff2
    obtain ⟨hlt, hget, hrest⟩ := drop_eq_cons _ _ _ _ hdrop
    obtain ⟨hmem, hval, hrej⟩ := hpx
    obtain ⟨pre, post, hsplit⟩ := List.append_of_mem hmem
    have hnames := hfree.2
    rw [hsplit, List.map_append, List.map_cons] at hnames
    have hnotin : clish_param__get_name px.1 ∉ pre.map clish_param__get_name := by
      intro hc
      have := (List.nodup_append.mp hnames).2.2
      exact this hc (List.mem_cons_self _ _)
    have harg : current_arg argv st = some t.arg := by
      unfold current_arg
      rw [if_pos (by unfold lub_argv__get_count; exact hlt)]
      unfold lub_argv__get_arg
      rw [hget]; rfl
    have hpre : ∀ q ∈ pre, free_optional env q ∧
        ∀ ctx, clish_shell_param_validate env q t.arg ctx = none := by
      intro q hq
      have hqm : q ∈ paramv := by rw [hsplit]; exact List.mem_append_left _ hq
      refine ⟨hfree.1 q hqm, hrej q hqm ?_⟩
      intro hc
      exact hnotin (hc ▸ List.mem_map_of_mem _ hq)
    have hnew1 := hnew px (List.mem_cons_self _ _)
    have hidx : st.idx ≠ need_index :=
      hoff2 st.idx (Nat.le_refl _) (by unfold lub_argv__get_count; exact hlt)
    obtain ⟨k1, hk1⟩ := param_scan_token env cmd context argv need_index pre px.1 post st t.arg
      px.2 harg hpre (hfree.1 _ hmem) hval hnew1 hidx pre.length 0 (by omega)
    rw [← hsplit] at hk1
    rw [List.map_cons, List.nodup_cons] at hnd
    obtain ⟨k2, hk2⟩ := ih ⟨clish_pargv_insert st.pargv px.1 (some px.2), st.idx + 1, st.last⟩
      hrest hnd.2
      (by
        intro py hpy
        cases hin : in_pargv (clish_pargv_insert st.pargv px.1 (some px.2))
            (clish_param__get_name py.1) with
        | false => rfl
        | true =>
          exfalso
          rw [in_pargv_insert, hnew py (List.mem_cons_of_mem _ hpy)] at hin
          simp only [Bool.or_false, decide_eq_true_eq] at hin
          exact hnd.1 (by
            rw [hin]
            exact List.mem_map_of_mem (fun px => clish_param__get_name px.1) hpy))
      (fun i hi hi2 => hoff2 i (by simp only at hi; omega) hi2)
    refine ⟨k2 + k1, fun f => ?_⟩
    rw [← Nat.add_assoc, hk1, hk2]
    simp only [insert_absent _ _ _ hnew1, List.map_cons, List.length_cons, List.append_assoc,
      List.singleton_append, accept_entry, Nat.add_assoc, Nat.add_comm 1]

/-- A list of free optionals, tokens accepted one parameter each: the matcher
returns OK, the cursor passes every token, and the store holds the accepted
entries in token order. -/
theorem unordered_run (env : Collaborators) (cmd : clish_command_t) (context : clish_context_t)
    (paramv : clish_paramv_t) (argv : lub_argv_t) (need_index : Nat) (up_level : Bool)
    (st : parse_state) (accept : List (clish_param_t × String))
    (hfree : free_optionals env paramv)
    (hacc : tokens_accepted env paramv argv need_index st accept)
    (fuel : Nat) (hfuel : parse_fuel paramv ≤ fuel) :
    ∃ s, clish_shell_parse_pargv env fuel cmd context paramv argv need_index up_level st =
        some (.CLISH_LINE_OK, s) ∧
      s.pargv = accept.map accept_entry ∧
      s.idx = st.idx + (argv.drop st.idx).length := by
  obtain ⟨hF, hnd, hempty, hoff⟩ := hacc
  obtain ⟨k, hk⟩ := param_scan_tokens env cmd context argv need_index paramv hfree
    (argv.drop st.idx) accept hF st rfl hnd (by intro px _; rw [hempty]; rfl) hoff
  have hge : lub_argv__get_count argv ≤
      (⟨st.pargv ++ accept.map accept_entry, st.idx + (argv.drop st.idx).length, st.last⟩ :
        parse_state).idx := by
    simp only [lub_argv__get_count, List.length_drop]
    omega
  obtain ⟨j, s, hs, hpv, hidx, _, hcase⟩ := param_scan_exhausted env cmd context argv need_index
    paramv (paramv.length + 1) 0 none _ hge (by omega)
  have hj : paramv.length ≤ j := by
    rcases hcase with ⟨_, p, hp, hopt, _⟩ | ⟨h, _⟩
    · exfalso
      have := (hfree.1 p (get_param_mem _ _ _ hp)).2.1
      rw [this] at hopt
      cases hopt
    · exact h
  simp only at hpv hidx
  have hidx2 : lub_argv__get_count argv ≤ s.idx := by
    rw [hidx]
    simp only [lub_argv__get_count, List.length_drop]
    omega
  have hcand := args_candidate_pargv cmd argv up_level paramv j s
  have hpost : post_loop cmd argv up_level paramv (.finished j s) =
      (.CLISH_LINE_OK, args_candidate cmd argv up_level paramv j s) := by
    simp only [post_loop]
    rw [if_neg (by
      intro hc
      have := hc.2.1
      unfold clish_paramv__get_count at this
      omega)]
    rw [if_neg (by
      intro hc
      have := hc.2.1
      rw [hcand.2] at this
      omega)]
  have hrun : clish_shell_parse_pargv env (paramv.length + 1 + k) cmd context paramv argv
      need_index up_level st =
      some (.CLISH_LINE_OK, args_candidate cmd argv up_level paramv j s) := by
    unfold clish_shell_parse_pargv
    rw [hk, hs, Option.map_some', hpost]
  obtain ⟨r, hr⟩ := parse_pargv_total env cmd context paramv argv need_index up_level st fuel
    hfuel
  have h1 := parse_pargv_fuel_mono env cmd context paramv argv need_index up_level st fuel
    (max fuel (paramv.length + 1 + k)) (Nat.le_max_left _ _) r hr
  have h2 := parse_pargv_fuel_mono env cmd context paramv argv need_index up_level st
    (paramv.length + 1 + k) (max fuel (paramv.length + 1 + k)) (Nat.le_max_right _ _) _ hrun
  rw [h1] at h2
  injection h2 with h2
  refine ⟨args_candidate cmd argv up_level paramv j s, by rw [hr, h2], ?_, ?_⟩
  · rw [hcand.1, hpv, hempty, List.nil_append]
  · rw [hcand.2, hidx]

/-- C15: order-independence among unordered optionals.  For a sibling list
made only of optional, unordered, childless ORDINARY parameters with distinct
names and passing tests, and tokens each accepted by exactly one parameter of
the list, no two by the same one (cursor never at the cursor target while a
token remains, empty store at the start), the matcher returns OK with enough
fuel, the cursor passes every token, and the store holds exactly one entry per
token, pairing the accepting parameter with the validated value.  Every
permutation of the tokens also gives OK and a store with the same entries. -/
theorem unordered_optionals_any_order (env : Collaborators) (cmd : clish_command_t)
    (context : clish_context_t) (paramv : clish_paramv_t) (argv argv2 : lub_argv_t)
    (need_index need_index2 : Nat) (up_level : Bool) (st st2 : parse_state)
    (accept : List (clish_param_t × String))
    (hfree : free_optionals env paramv)
    (hacc : tokens_accepted env paramv argv need_index st accept)
    (hperm : (argv2.drop st2.idx).Perm (argv.drop st.idx))
    (hempty2 : st2.pargv = [])
    (hoff2 : ∀ i, st2.idx ≤ i → i < lub_argv__get_count argv2 → i ≠ need_index2)
    (fuel : Nat) (hfuel : parse_fuel paramv ≤ fuel) :
    ∃ s s2,
      clish_shell_parse_pargv env fuel cmd context paramv argv need_index up_level st =
        some (.CLISH_LINE_OK, s) ∧
      lub_argv__get_count argv ≤ s.idx ∧
      s.pargv = accept.map accept_entry ∧
      s.pargv.length = (argv.drop st.idx).length ∧
      clish_shell_parse_pargv env fuel cmd context paramv argv2 need_index2 up_level st2 =
        some (.CLISH_LINE_OK, s2) ∧
      lub_argv__get_count argv2 ≤ s2.idx ∧
      s2.pargv.Perm s.pargv := by
  obtain ⟨s, hs, hpv, hidx⟩ := unordered_run env cmd context paramv argv need_index up_level st
    accept hfree hacc fuel hfuel
  obtain ⟨w, hw, hwperm⟩ := List.perm_comp_forall₂ hperm hacc.1
  have hacc2 : tokens_accepted env paramv argv2 need_index2 st2 w :=
    ⟨hw, (List.Perm.nodup_iff (hwperm.map _)).mpr hacc.2.1, hempty2, hoff2⟩
  obtain ⟨s2, hs2, hpv2, hidx2⟩ := unordered_run env cmd context paramv argv2 need_index2
    up_level st2 w hfree hacc2 fuel hfuel
  refine ⟨s, s2, hs, ?_, hpv, ?_, hs2, ?_, ?_⟩
  · rw [hidx]
    simp only [lub_argv__get_count, List.length_drop]
    omega
  · rw [hpv, List.length_map, hacc.1.length_eq]
  · rw [hidx2]
    simp only [lub_argv__get_count, List.length_drop]
    omega
  · rw [hpv, hpv2]
    exact hwperm.map _

theorem unordered_optionals_any_order_witness :
    ∃ s s2,
      clish_shell_parse_pargv sample_env 11 cmd_ON sample_context [sample_O, sample_N]
          (plain_argv ["cmd", "7", "abc"]) 0 true ⟨[], 1, none⟩ = some (.CLISH_LINE_OK, s) ∧
      lub_argv__get_count (plain_argv ["cmd", "7", "abc"]) ≤ s.idx ∧
      s.pargv = [(sample_N, "7"), (sample_O, "abc")].map accept_entry ∧
      s.pargv.length = ((plain_argv ["cmd", "7", "abc"]).drop 1).length ∧
      clish_shell_parse_pargv sample_env 11 cmd_ON sample_context [sample_O, sample_N]
          (plain_argv ["cmd", "abc", "7"]) 0 true ⟨[], 1, none⟩ = some (.CLISH_LINE_OK, s2) ∧
      lub_argv__get_count (plain_argv ["cmd", "abc", "7"]) ≤ s2.idx ∧
      s2.pargv.Perm s.pargv :=
  unordered_optionals_any_order sample_env cmd_ON sample_context [sample_O, sample_N]
    (plain_argv ["cmd", "7", "abc"]) (plain_argv ["cmd", "abc", "7"]) 0 0 true
    ⟨[], 1, none⟩ ⟨[], 1, none⟩ [(sample_N, "7"), (sample_O, "abc")]
    ⟨by
        intro p hp
        simp only [List.mem_cons, List.mem_singleton, List.not_mem_nil, or_false] at hp
        rcases hp with rfl | rfl
        · exact ⟨rfl, rfl, rfl, rfl, fun _ => rfl⟩
        · exact ⟨rfl, rfl, rfl, rfl, fun _ => rfl⟩,
      by decide⟩
    ⟨List.Forall₂.cons
        ⟨List.mem_cons_of_mem _ (List.mem_cons_self _ _), fun _ => rfl, by
          intro q hq hne ctx
          simp only [List.mem_cons, List.mem_singleton, List.not_mem_nil, or_false] at hq
          rcases hq with rfl | rfl
          · rfl
          · exact absurd rfl hne⟩
        (List.Forall₂.cons
          ⟨List.mem_cons_self _ _, fun _ => rfl, by
            intro q hq hne ctx
            simp only [List.mem_cons, List.mem_singleton, List.not_mem_nil, or_false] at hq
            rcases hq with rfl | rfl
            · exact absurd rfl hne
            · rfl⟩
          List.Forall₂.nil),
      by decide, rfl, by
        intro i h1 _ h3
        simp only at h1
        omega⟩
    (List.Perm.swap _ _ _) rfl
    (by
      intro i h1 _ h3
      simp only at h1
      omega)
    11 (by decide)

end Klish
